import Mathlib

/-!
# Stanley path follower (`src/PathFollower/StanleyController.cpp`)

A shallow embedding of `astar::StanleyController`.

* A C++ `double` is a rational number: arithmetic is exact, comparisons are
  decidable and every definition can be evaluated.  Rounding, overflow, NaN
  and infinities are not modelled; a division by zero has the value `0`.
* The functions of `<cmath>` and `mrpt::math` the controller calls
  (`atan2`, `atan`, `sqrt`, `sin`, `cos`, `wrapToPi`, the constants `M_PI`
  and `M_PI_2`) are the fields of a `Libm` value passed to every function
  that uses them.
* `VehicleModel` is declared outside `src/`; the member functions and
  constants the controller uses are the fields of a `VehicleModel` value.
* The controller object is the record `StanleyController`; a member function
  takes the record and returns the new one (explicit state passing).
* `std::vector` is `List`.  An element access outside the vector is
  undefined behaviour in C++; here it is the result `none`.
-/

namespace astar

/-! ## Entities (declared outside `src/`) -/

/-- Modelled from the spec: the `gear ∈ {Forward, Backward}` of a state; the
source names the two values `ForwardGear` and `BackwardGear`. -/
inductive Gear where
  | ForwardGear
  | BackwardGear
deriving DecidableEq, Repr

/-- Modelled from the spec: a planar position `(x, y)` (`Vector2D<double>`). -/
structure Vector2D where
  x : ℚ
  y : ℚ
deriving DecidableEq, Repr

/-- Modelled from the spec: `Pose2D`, a position and a heading. -/
structure Pose2D where
  position : Vector2D
  orientation : ℚ
deriving DecidableEq, Repr

/-- Modelled from the spec: `State2D`, a pose with steering angle `phi`, speed
`v`, gear, time step `t` and the flag `coming_to_stop`. -/
structure State2D where
  position : Vector2D
  orientation : ℚ
  phi : ℚ
  v : ℚ
  gear : Gear
  t : ℚ
  coming_to_stop : Bool
deriving DecidableEq, Repr

/-- The control states `CSStandby … CSComplete` used by the source. -/
inductive ControllerState where
  | CSStandby
  | CSStopped
  | CSForwardDrive
  | CSReverseDrive
  | CSComplete
deriving DecidableEq, Repr

/-- The library functions the controller calls, as parameters. -/
structure Libm where
  atan2 : ℚ → ℚ → ℚ
  atan : ℚ → ℚ
  sqrt : ℚ → ℚ
  sin : ℚ → ℚ
  cos : ℚ → ℚ
  wrapToPi : ℚ → ℚ
  M_PI : ℚ
  M_PI_2 : ℚ

/-- The members of `VehicleModel` the controller uses, as parameters. -/
structure VehicleModel where
  GetFrontAxleState : State2D → State2D
  GetFakeFrontAxleState : State2D → State2D
  GetForwardOrientation : State2D → State2D → State2D → ℚ
  GetBackwardOrientation : State2D → State2D → State2D → ℚ
  GetForwardSpeed : State2D → State2D → State2D → ℚ
  GetBackwardSpeed : State2D → State2D → State2D → ℚ
  GetAccelerationConstraint : ℚ → ℚ → Gear → ℚ
  GetDecelerationConstraint : ℚ → ℚ → Gear → ℚ
  NextState : State2D → State2D
  max_phi_velocity : ℚ
  max_wheel_deflection : ℚ

namespace Vector2D

/-- Modelled from the spec: `a - b` on `Vector2D`, componentwise. -/
def sub (a b : Vector2D) : Vector2D := ⟨a.x - b.x, a.y - b.y⟩

/-- Modelled from the spec: `Distance2`, the squared Euclidean distance. -/
def Distance2 (a b : Vector2D) : ℚ :=
  (a.x - b.x) * (a.x - b.x) + (a.y - b.y) * (a.y - b.y)

/-- Modelled from the spec: `Distance`, the Euclidean distance. -/
def Distance (m : Libm) (a b : Vector2D) : ℚ := m.sqrt (Distance2 a b)

/-- Modelled from the spec: `Normalize`, the vector divided by its length. -/
def Normalize (m : Libm) (a : Vector2D) : Vector2D :=
  ⟨a.x / m.sqrt (a.x * a.x + a.y * a.y), a.y / m.sqrt (a.x * a.x + a.y * a.y)⟩

/-- Modelled from the spec: `RotateZ`, the planar rotation by `angle`. -/
def RotateZ (m : Libm) (a : Vector2D) (angle : ℚ) : Vector2D :=
  ⟨a.x * m.cos angle - a.y * m.sin angle, a.x * m.sin angle + a.y * m.cos angle⟩

/-- Modelled from the spec: `Scale`, multiplication by a scalar. -/
def Scale (a : Vector2D) (k : ℚ) : Vector2D := ⟨a.x * k, a.y * k⟩

/-- Modelled from the spec: `Add`, translation by `b`. -/
def Add (a b : Vector2D) : Vector2D := ⟨a.x + b.x, a.y + b.y⟩

end Vector2D

/-! ## The controller object -/

/-- The data members of `StanleyController` (the constructor's initialiser
list, lines 13-21, and `car`), without the unused grid reference. -/
structure StanleyController where
  cs : ControllerState
  next_waypoint : Nat
  prev_waypoint : Nat
  dt : ℚ
  reverse_mode : Bool
  front_axle : State2D
  fake_front_axle : State2D
  closest_point : Pose2D
  left : Vector2D
  right : Vector2D
  raw_path : List State2D
  forward_path : List State2D
  reverse_path : List State2D
  consolidated_path : Bool
  raw_path_size : Nat
  raw_path_last_index : Nat
  stopping : List Nat
  prev_wheel_angle_error : ℚ
  vpasterror : ℚ
  last_cusp : Nat
  car : State2D

/-! ## `UpdateLowSpeedRegions` (lines 24-129) -/

/-- The chained assignment
`raw_path[i].v = forward_path[i].v = reverse_path[i].v = a` (lines 46, 68,
92, 111); `none` when `i` is outside one of the three vectors. -/
def writeV (c : StanleyController) (i : Nat) (a : ℚ) : Option StanleyController :=
  if i < c.raw_path.length ∧ i < c.forward_path.length ∧ i < c.reverse_path.length then
    some { c with
      raw_path := c.raw_path.modify (fun s => { s with v := a }) i
      forward_path := c.forward_path.modify (fun s => { s with v := a }) i
      reverse_path := c.reverse_path.modify (fun s => { s with v := a }) i }
  else none

/-- The chained assignment of `coming_to_stop = true` at index `i` (line 49);
`none` when `i` is outside one of the three vectors. -/
def writeComingToStop (c : StanleyController) (i : Nat) : Option StanleyController :=
  if i < c.raw_path.length ∧ i < c.forward_path.length ∧ i < c.reverse_path.length then
    some { c with
      raw_path := c.raw_path.modify (fun s => { s with coming_to_stop := true }) i
      forward_path := c.forward_path.modify (fun s => { s with coming_to_stop := true }) i
      reverse_path := c.reverse_path.modify (fun s => { s with coming_to_stop := true }) i }
  else none

/-- The leftward `while (0 <= prev)` loop (lines 57-80).  The argument is
`prev + 1`, which is `next` throughout the loop (lines 52-55 and 77-78), so
`0` is `prev = -1`.  `prev_state` and `next_state` are both references to
the member `car` (line 33): the two assignments of lines 60-61 write `car`,
and after them both names denote `raw_path[next]`. -/
def walkLeft (m : Libm) (vm : VehicleModel) : Nat → StanleyController → Option StanleyController
  | 0, c => some c
  | prev + 1, c =>
    match c.raw_path[prev]?, c.raw_path[prev + 1]? with
    | some _, some atNext =>
      -- car = raw_path[prev]; car = raw_path[next];
      let c := { c with car := atNext }
      let prev_state := c.car
      let next_state := c.car
      let acceleration_constraint :=
        vm.GetDecelerationConstraint next_state.v
          (Vector2D.Distance m prev_state.position next_state.position) prev_state.gear
      if acceleration_constraint < prev_state.v then
        match writeV c prev acceleration_constraint with
        | some c => walkLeft m vm prev c
        | none => none
      else some c
    | _, _ => none

/-- The rightward `while (raw_path_size > next)` loop (lines 100-123).  The
first argument counts the iterations left, `raw_path_size - next`; `prev` is
`next - 1` throughout (lines 95-98 and 120-121).  As in `walkLeft`, both
references denote `car`, which holds `raw_path[next]` after line 104. -/
def walkRight (m : Libm) (vm : VehicleModel) :
    Nat → Nat → StanleyController → Option StanleyController
  | 0, _, c => some c
  | k + 1, next, c =>
    match c.raw_path[next - 1]?, c.raw_path[next]? with
    | some _, some atNext =>
      let c := { c with car := atNext }
      let prev_state := c.car
      let next_state := c.car
      let acceleration_constraint :=
        vm.GetAccelerationConstraint next_state.v
          (Vector2D.Distance m prev_state.position next_state.position) prev_state.gear
      if acceleration_constraint < next_state.v then
        match writeV c next acceleration_constraint with
        | some c => walkRight m vm k (next + 1) c
        | none => none
      else some c
    | _, _ => none

/-- The part of the loop body that goes to the left of `current_stop`
(lines 38-82). -/
def lowSpeedLeft (m : Libm) (vm : VehicleModel) (current_stop : Nat)
    (c : StanleyController) : Option StanleyController :=
  match current_stop with
  | 0 => some c
  | prev + 1 =>
    match writeV c prev 0.2 with
    | none => none
    | some c =>
      match writeComingToStop c prev with
      | none => none
      | some c => walkLeft m vm prev c

/-- The part of the loop body that goes to the right of `current_stop`
(lines 84-125). -/
def lowSpeedRight (m : Libm) (vm : VehicleModel) (current_stop : Nat)
    (c : StanleyController) : Option StanleyController :=
  if c.raw_path_size > current_stop + 1 then
    match writeV c (current_stop + 1) 0.2 with
    | none => none
    | some c => walkRight m vm (c.raw_path_size - (current_stop + 2)) (current_stop + 2) c
  else some c

/-- One iteration of the `for` loop over `stopping` (lines 35-127). -/
def lowSpeedStop (m : Libm) (vm : VehicleModel) (current_stop : Nat)
    (c : StanleyController) : Option StanleyController :=
  match lowSpeedLeft m vm current_stop c with
  | none => none
  | some c => lowSpeedRight m vm current_stop c

/-- The `for` loop over the stopping points, from the given list on. -/
def lowSpeedStops (m : Libm) (vm : VehicleModel) :
    List Nat → StanleyController → Option StanleyController
  | [], c => some c
  | current_stop :: rest, c =>
    match lowSpeedStop m vm current_stop c with
    | none => none
    | some c => lowSpeedStops m vm rest c

/-- The function `StanleyController::UpdateLowSpeedRegions`. -/
def UpdateLowSpeedRegions (m : Libm) (vm : VehicleModel) (c : StanleyController) :
    Option StanleyController :=
  lowSpeedStops m vm c.stopping c

/-! ## `ConsolidateStateList` (lines 132-279) -/

/-- The three `push_back` calls of lines 158-160, 230-236 and 251-257. -/
def pushState (vm : VehicleModel) (c : StanleyController) (s : State2D) : StanleyController :=
  { c with
    raw_path := c.raw_path ++ [s]
    forward_path := c.forward_path ++ [vm.GetFrontAxleState s]
    reverse_path := c.reverse_path ++ [vm.GetFakeFrontAxleState s] }

/-- What lines 197-227 write into `*current`, for a state whose gear is the
gear of `*prev`: the orientation first, then the speed (computed from the
state that already has the new orientation). -/
def rewriteCurrent (vm : VehicleModel) (prev current next : State2D) : State2D :=
  if current.gear = prev.gear then
    if Gear.ForwardGear = current.gear then
      let current := { current with orientation := vm.GetForwardOrientation prev current next }
      { current with v := vm.GetForwardSpeed prev current next }
    else
      let current := { current with orientation := vm.GetBackwardOrientation prev current next }
      { current with v := vm.GetBackwardSpeed prev current next }
  else
    { current with v := 0 }

/-- The loop `while (next != last)` (lines 194-246).  The list argument is the
input from `*current` on, so `*next` is its second element and `last` its
final one; `next == last` holds exactly when the list has two elements.
`prev` is the state `*prev` as the loop left it.  The result is the
controller, the value of `index`, the input from `*current` on as the loop
rewrote it, and `*last`.  With fewer than two elements left, `next` is at
or beyond `input.end()`, the test `next != last` stays true and the body
reads outside the input: `none`. -/
def consolidateLoop (vm : VehicleModel) (prev : State2D) :
    List State2D → Nat → StanleyController →
      Option (StanleyController × Nat × List State2D × State2D)
  | current :: next :: rest, index, c =>
    match rest with
    | [] => some (c, index, [current, next], next)
    | _ :: _ =>
      let current1 := rewriteCurrent vm prev current next
      let c :=
        if current.gear = prev.gear then c
        else { c with stopping := c.stopping ++ [index] }
      let c := pushState vm c current1
      match consolidateLoop vm current1 (next :: rest) (index + 1) c with
      | none => none
      | some (c, index, tail, last) => some (c, index, current1 :: tail, last)
  | _, _, _ => none

/-- Lines 138-191 of `ConsolidateStateList`: the vectors are cleared, the
first state is pushed and the control state is chosen. -/
def consolidateFirst (vm : VehicleModel) (c : StanleyController) (first : State2D) :
    StanleyController :=
  let c := { c with raw_path := [], forward_path := [], reverse_path := [], stopping := [] }
  let c := pushState vm c first
  if 0 = first.v then { c with stopping := c.stopping ++ [0], cs := ControllerState.CSStopped }
  else if Gear.ForwardGear = first.gear then { c with cs := ControllerState.CSForwardDrive }
  else { c with cs := ControllerState.CSReverseDrive }

/-- Lines 248-266 of `ConsolidateStateList`: the last state is pushed, `index`
is appended to `stopping` and the sizes are stored. -/
def consolidateLast (vm : VehicleModel) (c : StanleyController) (index : Nat)
    (last : State2D) : StanleyController :=
  let c := pushState vm c last
  let c := { c with stopping := c.stopping ++ [index] }
  let c := { c with raw_path_size := c.raw_path.length }
  { c with raw_path_last_index := c.raw_path_size - 1 }

/-- Lines 138-266 of `ConsolidateStateList`: everything before the call of
`UpdateLowSpeedRegions`.  The result is the input as rewritten in place and
the controller.  An empty input has no `--input.end()`: `none`. -/
def consolidatePush (vm : VehicleModel) (c : StanleyController) (input : List State2D) :
    Option (List State2D × StanleyController) :=
  match input with
  | [] => none
  | first :: tail =>
    match consolidateLoop vm first tail 1 (consolidateFirst vm c first) with
    | none => none
    | some (c, index, tail, last) => some (first :: tail, consolidateLast vm c index last)

/-- The function `StanleyController::ConsolidateStateList`.  The result is
the returned `bool`, the input vector as the function leaves it, and the
controller. -/
def ConsolidateStateList (m : Libm) (vm : VehicleModel) (c : StanleyController)
    (input : List State2D) : Option (Bool × List State2D × StanleyController) :=
  match consolidatePush vm c input with
  | none => none
  | some (input, c) =>
    match UpdateLowSpeedRegions m vm c with
    | none => none
    | some c =>
      some (true, input, { c with prev_waypoint := 0, next_waypoint := 1, last_cusp := 0 })

/-! ## Localisation and projection (lines 281-386) -/

/-- The function `StanleyController::HowFarAlong`. -/
def HowFarAlong (current prev next : State2D) : ℚ :=
  let r := Vector2D.sub current.position prev.position
  let d := Vector2D.sub next.position prev.position
  (r.x * d.x + r.y * d.y) / (d.x * d.x + d.y * d.y)

/-- The conversion of an `int` to `unsigned int`. -/
def toUnsigned (z : Int) : Nat := (z % 2 ^ 32).toNat

/-- The `for` loop of `Localize` (lines 303-316).  The first argument counts
the iterations left, `end - i`; `bestd` is `none` while it still holds
`numeric_limits<double>::max()`, which every distance is below.  The
result is `besti`. -/
def localizeScan (m : Libm) (c : StanleyController) (s : State2D) :
    Nat → Int → Option ℚ → Int → Option Int
  | 0, _, _, besti => some besti
  | k + 1, i, bestd, besti =>
    match c.raw_path[(i - 1).toNat]? with
    | none => none
    | some before =>
      if before.coming_to_stop then some besti
      else
        match c.raw_path[i.toNat]? with
        | none => none
        | some at_i =>
          let d := Vector2D.Distance m s.position at_i.position
          let better : Bool :=
            match bestd with
            | none => true
            | some b => decide (d < b)
          if better then localizeScan m c s k (i + 1) (some d) i
          else localizeScan m c s k (i + 1) bestd besti

/-- The function `StanleyController::Localize`; the result is
`(prev_index, next_index)`. -/
def Localize (m : Libm) (c : StanleyController) (s : State2D) : Option (Nat × Nat) := do
  let start : Int := max (c.last_cusp : Int) (max 0 ((c.next_waypoint : Int) - 2))
  let «end» : Int := min (c.raw_path_last_index : Int) ((c.next_waypoint : Int) + 2)
  let besti ← localizeScan m c s («end» - (start + 1)).toNat (start + 1) none start
  let next_index := toUnsigned besti
  let (prev_index, next_index) ←
    if (c.raw_path_size : Int) ≤ besti + 1 then
      some (toUnsigned (besti - 1), next_index)
    else if 0 > besti - 1 then
      some (next_index, toUnsigned (besti + 1))
    else if besti = (c.last_cusp : Int) then
      some (toUnsigned besti, toUnsigned (besti + 1))
    else do
      let prevmaybe ← c.raw_path[(besti - 1).toNat]?
      let nextmaybe ← c.raw_path[(besti + 1).toNat]?
      if Vector2D.Distance2 s.position prevmaybe.position
          < Vector2D.Distance2 s.position nextmaybe.position then
        some (toUnsigned (besti - 1), next_index)
      else
        some (next_index, toUnsigned (besti + 1))
  if 0 < prev_index then do
    let before ← c.raw_path[prev_index - 1]?
    if before.coming_to_stop ∧ prev_index ≠ c.prev_waypoint then
      some (prev_index - 1, toUnsigned ((next_index : Int) - 1))
    else some (prev_index, next_index)
  else some (prev_index, next_index)

/-- The function `StanleyController::FindClosestPoint`.  The orientation of
the returned pose is the one of a default-constructed `Pose2D`, which no
caller reads; it is `0` here. -/
def FindClosestPoint (s prev next : State2D) : Pose2D :=
  if next.position.x = prev.position.x then
    { position := ⟨next.position.x, s.position.y⟩, orientation := 0 }
  else
    let m := (next.position.y - prev.position.y) / (next.position.x - prev.position.x)
    let m2 := m * m
    let b := next.position.y - m * next.position.x
    { position :=
        ⟨(m * s.position.y + s.position.x - m * b) / (m2 + 1),
         (m2 * s.position.y + m * s.position.x + b) / (m2 + 1)⟩
      orientation := 0 }

/-! ## The handlers (lines 389-651) -/

/-- The values the locals `desired_heading` and `d_phi_error` of `Stopped`
hold when they are read without having been assigned (lines 391-392). -/
structure Uninitialised where
  desired_heading : ℚ
  d_phi_error : ℚ

/-- The conversion `(int) x`: truncation toward zero. -/
def truncToInt (x : ℚ) : Int := if 0 ≤ x then ⌊x⌋ else ⌈x⌉

/-- The expression `((double) ((int) (x * 1000))) * 0.001`. -/
def milli (x : ℚ) : ℚ := ((truncToInt (x * 1000) : Int) : ℚ) * 0.001

/-- Lines 437-441 and 580-584: the clamp to `max_wheel_deflection`. -/
def clampDeflection (vm : VehicleModel) (phi : ℚ) : ℚ :=
  if |phi| > vm.max_wheel_deflection then
    (if 0 < phi then vm.max_wheel_deflection else -vm.max_wheel_deflection)
  else phi

/-- Lines 431-441 and 574-584: from the steering request to the clamped wheel
angle. -/
def steerRate (vm : VehicleModel) (s : State2D) (phi : ℚ) : ℚ :=
  let phi : ℚ := max (-1) (min 1 phi)
  let steer : ℚ := s.phi + (0.025 : ℚ) *
    (phi * vm.max_phi_velocity - s.phi / vm.max_wheel_deflection * s.v * (0.01 : ℚ))
  clampDeflection vm steer

/-- Lines 406-460 of `Stopped`, once the path elements have been read:
`prev` and `next` are `the_path[prev_waypoint]` and `the_path[next_waypoint]`
of the path chosen by `reverse_mode`. -/
def stoppedStep (m : Libm) (vm : VehicleModel) (u : Uninitialised) (c : StanleyController)
    (s : State2D) (reverse_mode : Bool) (prev next : State2D) : State2D × StanleyController :=
  let state := s
  let the_path := if reverse_mode then c.reverse_path else c.forward_path
  let terminal : Bool :=
    decide (c.raw_path_last_index = c.next_waypoint ∧ c.raw_path_last_index = c.prev_waypoint)
  let next_controller_state :=
    if terminal then ControllerState.CSComplete else ControllerState.CSForwardDrive
  let desired_heading :=
    if terminal then u.desired_heading
    else m.atan2 (next.position.y - prev.position.y) (next.position.x - prev.position.x)
  let phi_error : ℚ := -(m.wrapToPi (s.orientation - desired_heading)) - s.phi
  let phi : ℚ := phi_error * 8 + u.d_phi_error * (0.1 : ℚ)
  let phi := steerRate vm s phi
  let release : Bool :=
    decide ((0.002 : ℚ) > |phi_error| ∨
      (0.1 : ℚ) > |m.wrapToPi (|state.phi| - vm.max_wheel_deflection)|)
  let c :=
    if release then
      -- cs = next_controller_state; prev.v = next.v; prev_wheel_angle_error = 0.0;
      let the_path := the_path.modify (fun p => { p with v := next.v }) c.prev_waypoint
      let c := if reverse_mode then { c with reverse_path := the_path }
               else { c with forward_path := the_path }
      { c with cs := next_controller_state, prev_wheel_angle_error := 0 }
    else c
  ({ state with v := 0, phi := phi, t := c.dt }, c)

/-- The function `StanleyController::Stopped`; the result is the returned
command and the controller. -/
def Stopped (m : Libm) (vm : VehicleModel) (u : Uninitialised) (c : StanleyController)
    (s : State2D) : Option (State2D × StanleyController) :=
  match c.raw_path[c.prev_waypoint]? with
  | none => none
  | some at_prev =>
    let reverse_mode : Bool := decide (Gear.BackwardGear = at_prev.gear)
    let the_path := if reverse_mode then c.reverse_path else c.forward_path
    match the_path[c.next_waypoint]?, the_path[c.prev_waypoint]? with
    | some next, some prev => some (stoppedStep m vm u c s reverse_mode prev next)
    | _, _ => none

/-- Lines 502-519: the heading of the segment blended with the heading of
the next one. -/
def desiredHeading (m : Libm) (heading : Vector2D) (next_heading how_far : ℚ) : ℚ :=
  let desired_heading := m.atan2 heading.y heading.x
  desired_heading + m.wrapToPi (next_heading - desired_heading) * how_far

/-- Lines 521-534: the reference points `left` and `right`. -/
def sidePoints (m : Libm) (prev_point next_point closest : Vector2D) : Vector2D × Vector2D :=
  let norm : Vector2D := ⟨next_point.y - prev_point.y, next_point.x - prev_point.x⟩
  let norm := Vector2D.Normalize m norm
  let left := Vector2D.Add (Vector2D.Scale (Vector2D.RotateZ m norm m.M_PI_2) 2) closest
  let right := Vector2D.Add (Vector2D.Scale (Vector2D.RotateZ m norm (-m.M_PI_2)) 2) closest
  (left, right)

/-- Lines 536-542: the side of the path the front axle is on. -/
def sideDirection (left right front : Vector2D) : ℚ :=
  if Vector2D.Distance2 left front < Vector2D.Distance2 right front then -1 else 1

/-- Lines 544-565: the Stanley law; `direction` is the value of line 536-542
and `next_stop` is `next.coming_to_stop`. -/
def stanleyPhi (m : Libm) (s : State2D) (reverse_mode next_stop : Bool)
    (desired_heading dist direction : ℚ) : ℚ :=
  let k : ℚ := 1.5
  let d_theta : ℚ :=
    m.wrapToPi (s.orientation - desired_heading + (if reverse_mode then m.M_PI else 0))
  let d_theta : ℚ := if reverse_mode then -d_theta else d_theta
  let direction : ℚ := if reverse_mode then -direction else direction
  let inverse_speed : ℚ := if (4.5 : ℚ) < s.v then 1 / s.v else 1
  if next_stop then m.atan (4 * k * dist * direction * inverse_speed)
  else m.wrapToPi (-d_theta + m.atan (k * dist * direction * inverse_speed))

/-- Lines 589-603: the speed increment before it is truncated; `vpasterror`
is the value line 597 has just stored. -/
def speedIncrement (reverse_mode : Bool) (verror vpasterror : ℚ) : ℚ :=
  let vp : ℚ := 0.5
  let vi : ℚ := 0.00005
  let v_total_error : ℚ := vp * verror + vi * vpasterror
  let dv : ℚ := -v_total_error
  if reverse_mode then -dv else dv

/-- Lines 607-642 of `ForwardDrive`: the stop trigger and the command. -/
def driveCommand (c : StanleyController) (s : State2D) (next_index : Nat)
    (coming_to_stop : Bool) (how_far steer dv : ℚ) : State2D × StanleyController :=
  if coming_to_stop = true ∧ (0.95 : ℚ) ≤ how_far then
    let c := { c with last_cusp := next_index }
    let c :=
      if next_index < c.raw_path_last_index then
        { c with next_waypoint := c.next_waypoint + 1, prev_waypoint := c.prev_waypoint + 1 }
      else
        { c with next_waypoint := c.raw_path_last_index, prev_waypoint := c.raw_path_last_index }
    let c := { c with cs := ControllerState.CSStopped }
    let steer := milli steer
    ({ s with v := 0, phi := steer, t := c.dt }, c)
  else
    let dv := milli dv
    ({ s with v := s.v + dv, phi := steer, t := c.dt }, c)

/-- Lines 476-603 of `ForwardDrive`, once the path elements have been read:
`prev` and `next` are `the_path[prev_index]` and `the_path[next_index]`,
`heading` is the vector of line 502 and `next_heading` the angle of lines
505-516. -/
def driveStep (m : Libm) (vm : VehicleModel) (c : StanleyController) (s : State2D)
    (next_index : Nat) (reverse_mode : Bool) (prev next : State2D) (heading : Vector2D)
    (next_heading : ℚ) : State2D × StanleyController :=
  let coming_to_stop : Bool := decide (0 = next.v)
  let fake_front_axle := vm.GetFakeFrontAxleState s
  let front_axle := if reverse_mode then fake_front_axle else vm.GetFrontAxleState s
  let closest_point := FindClosestPoint front_axle prev next
  let c := { c with fake_front_axle := fake_front_axle, front_axle := front_axle,
                    closest_point := closest_point }
  let how_far : ℚ := min (max 0 (HowFarAlong s prev next)) 1
  let desired_heading := desiredHeading m heading next_heading how_far
  let sides := sidePoints m prev.position next.position closest_point.position
  let c := { c with left := sides.1, right := sides.2 }
  let direction := sideDirection sides.1 sides.2 front_axle.position
  let dist := Vector2D.Distance m front_axle.position closest_point.position
  let phi := stanleyPhi m s reverse_mode next.coming_to_stop desired_heading dist direction
  let phi_error : ℚ := phi - s.phi
  let d_phi_error : ℚ := (phi_error - c.prev_wheel_angle_error) / (0.025 : ℚ)
  let c := { c with prev_wheel_angle_error := phi_error }
  let phi : ℚ := phi_error * 2 + d_phi_error * (0.1 : ℚ)
  let steer := milli (steerRate vm s phi)
  let verror : ℚ := s.v - ((1 - how_far) * prev.v + how_far * next.v)
  let c := { c with vpasterror := verror * (0.025 : ℚ) }
  let dv := speedIncrement reverse_mode verror c.vpasterror
  driveCommand c s next_index coming_to_stop how_far steer dv

/-- The function `StanleyController::ForwardDrive`; the result is the
returned command and the controller. -/
def ForwardDrive (m : Libm) (vm : VehicleModel) (c : StanleyController) (s : State2D) :
    Option (State2D × StanleyController) :=
  match Localize m c s with
  | none => none
  | some (prev_index, next_index) =>
    let c := { c with prev_waypoint := prev_index, next_waypoint := next_index }
    match c.raw_path[prev_index]? with
    | none => none
    | some at_prev =>
      let reverse_mode : Bool := decide (Gear.BackwardGear = at_prev.gear)
      let c := { c with reverse_mode := reverse_mode }
      let the_path := if reverse_mode then c.reverse_path else c.forward_path
      match the_path[next_index]?, the_path[prev_index]? with
      | some next, some prev =>
        let heading : Option Vector2D :=
          if 0 < prev_index then
            (the_path[prev_index - 1]?).map (fun p => Vector2D.sub next.position p.position)
          else some (Vector2D.sub next.position prev.position)
        let next_heading : Option ℚ :=
          if (0 : ℚ) = next.v then
            some (next.orientation + (if reverse_mode then m.M_PI else 0))
          else
            (the_path[next_index + 1]?).map (fun p =>
              m.atan2 (Vector2D.sub p.position prev.position).y
                (Vector2D.sub p.position prev.position).x)
        match heading, next_heading with
        | some heading, some next_heading =>
          some (driveStep m vm c s next_index reverse_mode prev next heading next_heading)
        | _, _ => none
      | _, _ => none

/-- The function `StanleyController::ReverseDrive`. -/
def ReverseDrive (m : Libm) (vm : VehicleModel) (c : StanleyController) (s : State2D) :
    Option (State2D × StanleyController) :=
  ForwardDrive m vm c s

/-! ## The drivers (lines 654-814) -/

/-- The function `StanleyController::FollowPathSimulation`. -/
def FollowPathSimulation (path : List State2D) : List State2D := path

/-- The loop `while (CSComplete != cs)` of `FollowPath` (lines 672-720), run
for at most `fuel` iterations; `u n` gives the uninitialised locals of the
call of `Stopped` made when `n` iterations are left.  The result is `none`
when a handler reads outside a path or the iterations are used up. -/
def followLoop (m : Libm) (vm : VehicleModel) (u : Nat → Uninitialised) :
    Nat → StanleyController → List State2D → Option (List State2D × StanleyController)
  | 0, _, _ => none
  | fuel + 1, c, commands =>
    if ControllerState.CSComplete ≠ c.cs then
      match c.cs with
      | ControllerState.CSForwardDrive =>
        match ForwardDrive m vm c c.car with
        | none => none
        | some (car, c) =>
          followLoop m vm u fuel { c with car := vm.NextState car } (commands ++ [car])
      | ControllerState.CSReverseDrive =>
        match ReverseDrive m vm c c.car with
        | none => none
        | some (car, c) =>
          followLoop m vm u fuel { c with car := vm.NextState car } (commands ++ [car])
      | ControllerState.CSStopped =>
        match Stopped m vm (u fuel) c c.car with
        | none => none
        | some (car, c) =>
          followLoop m vm u fuel { c with car := vm.NextState car } (commands ++ [car])
      | ControllerState.CSStandby =>
        let c := { c with cs := ControllerState.CSStopped }
        followLoop m vm u fuel { c with car := vm.NextState c.car } commands
      | ControllerState.CSComplete =>
        followLoop m vm u fuel { c with car := vm.NextState c.car } commands
    else some (commands, c)

/-- The function `StanleyController::FollowPath`, with a bound on the number
of iterations of its loop. -/
def FollowPath (m : Libm) (vm : VehicleModel) (u : Nat → Uninitialised) (fuel : Nat)
    (c : StanleyController) (start : State2D) : Option (List State2D × StanleyController) :=
  followLoop m vm u fuel { c with car := start } []

/-- The function `StanleyController::BuildAndFollowPath`; the result is the
returned array and the controller. -/
def BuildAndFollowPath (m : Libm) (vm : VehicleModel) (c : StanleyController)
    (input_path : List State2D) : Option (List State2D × StanleyController) :=
  if 0 < input_path.length then
    match ConsolidateStateList m vm c input_path with
    | none => none
    | some (r, input_path, c) =>
      some (FollowPathSimulation input_path, { c with consolidated_path := r })
  else
    some ([], { c with consolidated_path := false })

/-- The loop `while (CSComplete != cs && command_path.empty())` of
`GetCommandList` (lines 762-810), run for at most `fuel` tests of its
condition. -/
def getCommandLoop (m : Libm) (vm : VehicleModel) (u : Uninitialised) :
    Nat → StanleyController → List State2D → Option (List State2D × StanleyController)
  | 0, _, _ => none
  | fuel + 1, c, command_path =>
    if ControllerState.CSComplete ≠ c.cs ∧ command_path = [] then
      match c.cs with
      | ControllerState.CSForwardDrive =>
        match ForwardDrive m vm c c.car with
        | none => none
        | some (car, c) =>
          getCommandLoop m vm u fuel { c with car := vm.NextState car } (command_path ++ [car])
      | ControllerState.CSReverseDrive =>
        match ForwardDrive m vm c c.car with
        | none => none
        | some (car, c) =>
          getCommandLoop m vm u fuel { c with car := vm.NextState car } (command_path ++ [car])
      | ControllerState.CSStopped =>
        match Stopped m vm u c c.car with
        | none => none
        | some (car, c) =>
          getCommandLoop m vm u fuel { c with car := vm.NextState car } (command_path ++ [car])
      | ControllerState.CSStandby =>
        getCommandLoop m vm u fuel { c with cs := ControllerState.CSStopped } command_path
      | ControllerState.CSComplete =>
        getCommandLoop m vm u fuel c command_path
    else some (command_path, c)

/-- The function `StanleyController::GetCommandList`.  Three tests of the
loop condition are enough for every controller (`getCommandLoop_fuel`). -/
def GetCommandList (m : Libm) (vm : VehicleModel) (u : Uninitialised)
    (c : StanleyController) (start : State2D) : Option (List State2D × StanleyController) :=
  getCommandLoop m vm u 3 { c with car := start } []

/-- The function `StanleyController::RebuildCommandList`. -/
def RebuildCommandList (m : Libm) (vm : VehicleModel) (u : Uninitialised)
    (c : StanleyController) (start : State2D) (path : List State2D) :
    Option (List State2D × StanleyController) :=
  match ConsolidateStateList m vm c path with
  | none => none
  | some (r, _, c) => GetCommandList m vm u { c with consolidated_path := r } start

/-! ## Auxiliary definitions for the statements -/

/-- A state without the two fields the low-speed update writes. -/
def maskSpeed (s : State2D) : State2D := { s with v := 0, coming_to_stop := false }

/-- The controller `c'` differs from `c` at most in the `v` and
`coming_to_stop` fields of the states of its three paths and in `car`. -/
structure LowSpeedFrame (c c' : StanleyController) : Prop where
  raw : c'.raw_path.map maskSpeed = c.raw_path.map maskSpeed
  forward : c'.forward_path.map maskSpeed = c.forward_path.map maskSpeed
  reverse : c'.reverse_path.map maskSpeed = c.reverse_path.map maskSpeed
  others : c' = { c with raw_path := c'.raw_path, forward_path := c'.forward_path,
                         reverse_path := c'.reverse_path, car := c'.car }

/-- The three paths of `c` have `n` states and `raw_path_size` is `n`. -/
def Aligned (c : StanleyController) (n : Nat) : Prop :=
  c.raw_path.length = n ∧ c.forward_path.length = n ∧ c.reverse_path.length = n ∧
    c.raw_path_size = n

/-- The indices the loop of `ConsolidateStateList` appends to `stopping`,
as a function of the gears alone: `p` is the gear of `*prev`, the list holds
the gears from `*current` on, and `index` is the loop counter. -/
def cuspsFrom : Gear → List Gear → Nat → List Nat
  | p, g :: g2 :: g3 :: rest, index =>
    (if g = p then [] else [index]) ++ cuspsFrom g (g2 :: g3 :: rest) (index + 1)
  | _, _, _ => []

/-! ## Data for the evaluations

The evaluations below need values for the parameters.  `exactMath` gives the
library functions at the few arguments the evaluations reach, where their
values are rational: `wrapToPi x = x` for `-3 ≤ x ≤ 3` (an interval inside
`(-π, π]`), `atan2 0 x = 0` for `x > 0`, `atan 0 = 0`, `sqrt 0 = 0`,
`sqrt 1 = 1`, `cos 0 = 1`, `sin 0 = 0`.  `unitVehicle` is a vehicle of
wheelbase `1` on a path along the x axis. -/

/-- The library functions at the arguments where they are rational; `0`
elsewhere, and `3` for the two constants. -/
def exactMath : Libm where
  atan2 := fun _ _ => 0
  atan := fun _ => 0
  sqrt := fun x => if x = 1 then 1 else 0
  sin := fun _ => 0
  cos := fun x => if x = 0 then 1 else 0
  wrapToPi := fun x => if -3 ≤ x ∧ x ≤ 3 then x else 0
  M_PI := 3
  M_PI_2 := 3 / 2

/-- A vehicle of wheelbase `1` heading along the x axis: the axle states are
the state moved by `±1` in `x`, the orientation functions keep the heading
of the current state, the speed functions return the magnitude of its speed,
the constraints return the reference speed and `NextState` leaves the state
where it is. -/
def unitVehicle : VehicleModel where
  GetFrontAxleState := fun s => { s with position := ⟨s.position.x + 1, s.position.y⟩ }
  GetFakeFrontAxleState := fun s => { s with position := ⟨s.position.x - 1, s.position.y⟩ }
  GetForwardOrientation := fun _ current _ => current.orientation
  GetBackwardOrientation := fun _ current _ => current.orientation
  GetForwardSpeed := fun _ current _ => |current.v|
  GetBackwardSpeed := fun _ current _ => |current.v|
  GetAccelerationConstraint := fun v _ _ => v
  GetDecelerationConstraint := fun v _ _ => v
  NextState := fun s => s
  max_phi_velocity := 1
  max_wheel_deflection := 1 / 2

/-- The state at `(x, 0)` with heading and steering `0`. -/
def stateAt (x : ℚ) (gear : Gear) (v : ℚ) : State2D :=
  { position := ⟨x, 0⟩, orientation := 0, phi := 0, v := v, gear := gear, t := 0,
    coming_to_stop := false }

/-- The controller as the constructor leaves it (lines 13-21). -/
def newController : StanleyController where
  cs := ControllerState.CSStandby
  next_waypoint := 0
  prev_waypoint := 0
  dt := 0.1
  reverse_mode := false
  front_axle := stateAt 0 Gear.ForwardGear 0
  fake_front_axle := stateAt 0 Gear.ForwardGear 0
  closest_point := ⟨⟨0, 0⟩, 0⟩
  left := ⟨0, 0⟩
  right := ⟨0, 0⟩
  raw_path := []
  forward_path := []
  reverse_path := []
  consolidated_path := false
  raw_path_size := 0
  raw_path_last_index := 0
  stopping := []
  prev_wheel_angle_error := 0
  vpasterror := 0
  last_cusp := 0
  car := stateAt 0 Gear.ForwardGear 0

/-- Three states with the gear change at index 1. -/
def cuspPath3 : List State2D :=
  [stateAt 0 Gear.ForwardGear 1, stateAt 1 Gear.BackwardGear 1, stateAt 0 Gear.BackwardGear 0]

/-- Four states, forward then reverse, with the gear change at index 2. -/
def cuspPath4 : List State2D :=
  [stateAt 0 Gear.ForwardGear 1, stateAt 2 Gear.ForwardGear 1, stateAt 2 Gear.BackwardGear 1,
   stateAt 0 Gear.BackwardGear 0]

/-- Three forward states, the first and the last at rest. -/
def restPath3 : List State2D :=
  [stateAt 0 Gear.ForwardGear 0, stateAt 1 Gear.ForwardGear 1, stateAt 2 Gear.ForwardGear 0]

/-- The flag `raw_path[k].coming_to_stop`, when `k` is an index of `raw_path`. -/
def stopFlagAt (c : StanleyController) (k : Nat) : Option Bool :=
  (c.raw_path[k]?).map State2D.coming_to_stop

/-- Three forward states at speed `1`, the goal speed included. -/
def cruisePath3 : List State2D :=
  [stateAt 0 Gear.ForwardGear 1, stateAt 1 Gear.ForwardGear 1, stateAt 2 Gear.ForwardGear 1]

/-- The speed `raw_path[k].v`, when `k` is an index of `raw_path`. -/
def speedAt (c : StanleyController) (k : Nat) : Option ℚ :=
  (c.raw_path[k]?).map State2D.v

/-- The constraint functions of `vm` never return less than their reference
speed: the two walks of `UpdateLowSpeedRegions` then stop at their first
test. -/
def ConstraintsAboveReference (vm : VehicleModel) : Prop :=
  (∀ v d g, v ≤ vm.GetDecelerationConstraint v d g) ∧
  (∀ v d g, v ≤ vm.GetAccelerationConstraint v d g)

/-- The speed functions of `vm` return non-negative speeds. -/
def SpeedsNonneg (vm : VehicleModel) : Prop :=
  (∀ a b c, 0 ≤ vm.GetForwardSpeed a b c) ∧ (∀ a b c, 0 ≤ vm.GetBackwardSpeed a b c)

/-- Five states with gear changes at the indices 1 and 2. -/
def zigzagPath5 : List State2D :=
  [stateAt 0 Gear.ForwardGear 1, stateAt 1 Gear.BackwardGear 1, stateAt 0 Gear.ForwardGear 1,
   stateAt 1 Gear.ForwardGear 1, stateAt 2 Gear.ForwardGear 0]

/-- Six states with the gear change at index 2. -/
def cuspPath6 : List State2D :=
  [stateAt 0 Gear.ForwardGear 1, stateAt 1 Gear.ForwardGear 1, stateAt 2 Gear.BackwardGear 1,
   stateAt 1 Gear.BackwardGear 1, stateAt 0 Gear.BackwardGear 1, stateAt (-1) Gear.BackwardGear 0]

/-- The handler one pass of the `switch` of `GetCommandList` runs (lines
764-808) for the control state of `c`; from `CSStandby` the loop first sets
`cs = CSStopped` (line 804) and its next pass runs `Stopped`. -/
def handlerTick (m : Libm) (vm : VehicleModel) (u : Uninitialised) (c : StanleyController) :
    Option (State2D × StanleyController) :=
  match c.cs with
  | ControllerState.CSForwardDrive => ForwardDrive m vm c c.car
  | ControllerState.CSReverseDrive => ForwardDrive m vm c c.car
  | ControllerState.CSStopped => Stopped m vm u c c.car
  | ControllerState.CSStandby => Stopped m vm u { c with cs := ControllerState.CSStopped } c.car
  | ControllerState.CSComplete => none

/-- The test of line 443 of `Stopped`, for the path elements `prev` and `next`
of a tick that is not the terminal one. -/
def releaseCondition (m : Libm) (vm : VehicleModel) (s prev next : State2D) : Prop :=
  (0.002 : ℚ) > |-(m.wrapToPi (s.orientation
      - m.atan2 (next.position.y - prev.position.y) (next.position.x - prev.position.x)))
      - s.phi| ∨
    (0.1 : ℚ) > |m.wrapToPi (|s.phi| - vm.max_wheel_deflection)|

/-- A controller in state `CSStopped` on a two-state path along the x axis,
all of whose states have the given gear, as `unitVehicle` projects it, with
the cursor at `(prev_waypoint, next_waypoint)`. -/
def stoppedController (gear : Gear) (prev_waypoint next_waypoint : Nat) : StanleyController :=
  { newController with
    cs := ControllerState.CSStopped
    prev_waypoint := prev_waypoint
    next_waypoint := next_waypoint
    raw_path := [stateAt 0 gear 0.2, stateAt 2 gear 0]
    forward_path := [stateAt 1 gear 0.2, stateAt 3 gear 0]
    reverse_path := [stateAt (-1) gear 0.2, stateAt 1 gear 0]
    raw_path_size := 2
    raw_path_last_index := 1
    stopping := [1] }

/-- The vehicle state at `(x, 0)` with the given heading and steering angle,
at rest. -/
def carAt (x orientation phi : ℚ) : State2D :=
  { position := ⟨x, 0⟩, orientation := orientation, phi := phi, v := 0,
    gear := Gear.ForwardGear, t := 0, coming_to_stop := false }

/-- A controller in state `CSForwardDrive` on the two-state forward path of
`stoppedController`, with the cursor `(0, 1)` and `last_cusp = 0`. -/
def drivingController : StanleyController :=
  { stoppedController Gear.ForwardGear 0 1 with cs := ControllerState.CSForwardDrive }

/-- The divisor of the division of line 287 in `HowFarAlong`. -/
def howFarDivisor (prev next : State2D) : ℚ :=
  let d := Vector2D.sub next.position prev.position
  d.x * d.x + d.y * d.y

/-- The clamped value `how_far` of line 497. -/
def howFar (s prev next : State2D) : ℚ := min (max 0 (HowFarAlong s prev next)) 1

/-- The test of line 443 of `Stopped` for the path elements `prev` and `next`,
on any tick: on the terminal one `desired_heading` is the unassigned local. -/
def releaseTest (m : Libm) (vm : VehicleModel) (u : Uninitialised) (c : StanleyController)
    (s prev next : State2D) : Prop :=
  (0.002 : ℚ) > |-(m.wrapToPi (s.orientation
      - (if c.raw_path_last_index = c.next_waypoint ∧ c.raw_path_last_index = c.prev_waypoint
         then u.desired_heading
         else m.atan2 (next.position.y - prev.position.y)
           (next.position.x - prev.position.x))))
      - s.phi| ∨
    (0.1 : ℚ) > |m.wrapToPi (|s.phi| - vm.max_wheel_deflection)|

/-- The three paths of a controller. -/
def pathsOf (c : StanleyController) : List State2D × List State2D × List State2D :=
  (c.raw_path, c.forward_path, c.reverse_path)

/-- At index `i` the three paths carry the same speed, and it is at most
`0.2`. -/
def SlowAt (c : StanleyController) (i : Nat) : Prop :=
  ∃ r f b, c.raw_path[i]? = some r ∧ c.forward_path[i]? = some f ∧
    c.reverse_path[i]? = some b ∧ r.v ≤ 0.2 ∧ f.v = r.v ∧ b.v = r.v

/-- At index `i` the flag `coming_to_stop` is set in the three paths. -/
def FlaggedAt (c : StanleyController) (i : Nat) : Prop :=
  ∃ r f b, c.raw_path[i]? = some r ∧ c.forward_path[i]? = some f ∧
    c.reverse_path[i]? = some b ∧ r.coming_to_stop = true ∧ f.coming_to_stop = true ∧
    b.coming_to_stop = true

/-- A vehicle like `unitVehicle` whose deceleration constraint allows half the
reference speed plus the distance to the reference state. -/
def brakingVehicle : VehicleModel :=
  { unitVehicle with GetDecelerationConstraint := fun v d _ => v / 2 + d }

/-- Five forward states one unit apart: a start at speed `0.01`, three states
at speed `5` and a goal at rest. -/
def crawlPath5 : List State2D :=
  [stateAt 0 Gear.ForwardGear 0.01, stateAt 1 Gear.ForwardGear 5, stateAt 2 Gear.ForwardGear 5,
   stateAt 3 Gear.ForwardGear 5, stateAt 4 Gear.ForwardGear 0]

/-- The leftward walk as the specification words it, with `j + 1` as the
argument: the bound at `j` is
`GetDecelerationConstraint(raw[j+1].v, dist(raw[j], raw[j+1]), raw[j].gear)`;
when it is below `raw[j].v` it replaces `v` at `j` in the three paths and the
walk goes on, otherwise the walk stops. -/
def walkLeftAsSpecified (m : Libm) (vm : VehicleModel) :
    Nat → StanleyController → Option StanleyController
  | 0, c => some c
  | j + 1, c =>
    match c.raw_path[j]?, c.raw_path[j + 1]? with
    | some atJ, some atNext =>
      let a := vm.GetDecelerationConstraint atNext.v
        (Vector2D.Distance m atJ.position atNext.position) atJ.gear
      if a < atJ.v then
        match writeV c j a with
        | some c => walkLeftAsSpecified m vm j c
        | none => none
      else some c
    | _, _ => none

/-- The left part of the loop body with the walk as the specification words
it: the writes of lines 46 and 49 at `current_stop - 1`, then
`walkLeftAsSpecified`. -/
def lowSpeedLeftAsSpecified (m : Libm) (vm : VehicleModel) (current_stop : Nat)
    (c : StanleyController) : Option StanleyController :=
  match current_stop with
  | 0 => some c
  | prev + 1 =>
    match writeV c prev 0.2 with
    | none => none
    | some c =>
      match writeComingToStop c prev with
      | none => none
      | some c => walkLeftAsSpecified m vm prev c

/-- The speeds of the three paths, index by index. -/
def speedsOf (c : StanleyController) : List ℚ × List ℚ × List ℚ :=
  (c.raw_path.map State2D.v, c.forward_path.map State2D.v, c.reverse_path.map State2D.v)

/-- The library is exact at the quarter turns `±M_PI_2`, which makes
`RotateZ` by these angles an exact planar rotation. -/
def ExactQuarterTurn (m : Libm) : Prop :=
  m.cos m.M_PI_2 = 0 ∧ m.sin m.M_PI_2 = 1 ∧ m.cos (-m.M_PI_2) = 0 ∧ m.sin (-m.M_PI_2) = -1

/-- The library `exactMath` with the sine exact at `±M_PI_2` and the square
root exact at `4`. -/
def turnMath : Libm :=
  { exactMath with
    sqrt := fun x => if x = 1 then 1 else if x = 4 then 2 else 0
    sin := fun x => if x = 3 / 2 then 1 else if x = -(3 / 2) then -1 else 0 }

/-- The value the comparison of lines 536-542 gives to `direction`, from the
members `left`, `right` and `front_axle` as the tick has stored them (lines
491 and 524-534). -/
def directionOf (c : StanleyController) : ℚ :=
  sideDirection c.left c.right c.front_axle.position

/-- The vehicle at `(0, y)` with heading and steering `0`, at rest. -/
def carBeside (y : ℚ) : State2D :=
  { position := ⟨0, y⟩, orientation := 0, phi := 0, v := 0,
    gear := Gear.ForwardGear, t := 0, coming_to_stop := false }

/-! ## Properties of `UpdateLowSpeedRegions` -/

theorem map_maskSpeed_modify_v (l : List State2D) (i : Nat) (a : ℚ) :
    (l.modify (fun s => { s with v := a }) i).map maskSpeed = l.map maskSpeed := by
  apply List.ext_getElem?
  intro j
  simp only [List.getElem?_map, List.getElem?_modify]
  cases l[j]? with
  | none => rfl
  | some x => by_cases h : i = j <;> simp [h, maskSpeed]

theorem map_maskSpeed_modify_stop (l : List State2D) (i : Nat) :
    (l.modify (fun s => { s with coming_to_stop := true }) i).map maskSpeed
      = l.map maskSpeed := by
  apply List.ext_getElem?
  intro j
  simp only [List.getElem?_map, List.getElem?_modify]
  cases l[j]? with
  | none => rfl
  | some x => by_cases h : i = j <;> simp [h, maskSpeed]

theorem LowSpeedFrame.refl (c : StanleyController) : LowSpeedFrame c c :=
  ⟨rfl, rfl, rfl, rfl⟩

theorem LowSpeedFrame.trans {a b c : StanleyController} (h₁ : LowSpeedFrame a b)
    (h₂ : LowSpeedFrame b c) : LowSpeedFrame a c := by
  refine ⟨h₂.raw.trans h₁.raw, h₂.forward.trans h₁.forward, h₂.reverse.trans h₁.reverse, ?_⟩
  rw [h₂.others, h₁.others]

theorem LowSpeedFrame.aligned {c c' : StanleyController} {n : Nat} (h : LowSpeedFrame c c')
    (ha : Aligned c n) : Aligned c' n := by
  obtain ⟨h1, h2, h3, h4⟩ := ha
  have e1 := congrArg List.length h.raw
  have e2 := congrArg List.length h.forward
  have e3 := congrArg List.length h.reverse
  have e4 := congrArg StanleyController.raw_path_size h.others
  simp only [List.length_map] at e1 e2 e3
  simp only at e4
  exact ⟨e1.trans h1, e2.trans h2, e3.trans h3, e4.trans h4⟩

theorem LowSpeedFrame.setCar (c : StanleyController) (s : State2D) :
    LowSpeedFrame c { c with car := s } :=
  ⟨rfl, rfl, rfl, rfl⟩

theorem writeV_frame {c c' : StanleyController} {i : Nat} {a : ℚ}
    (h : writeV c i a = some c') : LowSpeedFrame c c' := by
  unfold writeV at h
  split at h
  · cases h
    exact ⟨map_maskSpeed_modify_v _ _ _, map_maskSpeed_modify_v _ _ _,
      map_maskSpeed_modify_v _ _ _, rfl⟩
  · cases h

theorem writeComingToStop_frame {c c' : StanleyController} {i : Nat}
    (h : writeComingToStop c i = some c') : LowSpeedFrame c c' := by
  unfold writeComingToStop at h
  split at h
  · cases h
    exact ⟨map_maskSpeed_modify_stop _ _, map_maskSpeed_modify_stop _ _,
      map_maskSpeed_modify_stop _ _, rfl⟩
  · cases h

theorem writeV_isSome {c : StanleyController} {n : Nat} (ha : Aligned c n) {i : Nat}
    (hi : i < n) (a : ℚ) : ∃ c', writeV c i a = some c' := by
  obtain ⟨h1, h2, h3, _⟩ := ha
  unfold writeV
  rw [if_pos ⟨h1 ▸ hi, h2 ▸ hi, h3 ▸ hi⟩]
  exact ⟨_, rfl⟩

theorem writeComingToStop_isSome {c : StanleyController} {n : Nat} (ha : Aligned c n)
    {i : Nat} (hi : i < n) : ∃ c', writeComingToStop c i = some c' := by
  obtain ⟨h1, h2, h3, _⟩ := ha
  unfold writeComingToStop
  rw [if_pos ⟨h1 ▸ hi, h2 ▸ hi, h3 ▸ hi⟩]
  exact ⟨_, rfl⟩

theorem walkLeft_total (m : Libm) (vm : VehicleModel) {n : Nat} :
    ∀ (k : Nat) (c : StanleyController), Aligned c n → k < n →
      ∃ c', walkLeft m vm k c = some c' ∧ LowSpeedFrame c c' := by
  intro k
  induction k with
  | zero => intro c _ _; exact ⟨c, rfl, LowSpeedFrame.refl c⟩
  | succ prev ih =>
    intro c ha hk
    have hlen : c.raw_path.length = n := ha.1
    have h0 : prev < c.raw_path.length := by omega
    have h1 : prev + 1 < c.raw_path.length := by omega
    simp only [walkLeft, List.getElem?_eq_getElem h0, List.getElem?_eq_getElem h1]
    split
    · have hf := LowSpeedFrame.setCar c c.raw_path[prev + 1]
      obtain ⟨c1, hc1⟩ := writeV_isSome (hf.aligned ha) (show prev < n by omega)
        (vm.GetDecelerationConstraint (c.raw_path[prev + 1]).v
          (Vector2D.Distance m (c.raw_path[prev + 1]).position
            (c.raw_path[prev + 1]).position) (c.raw_path[prev + 1]).gear)
      rw [hc1]
      have hf1 := hf.trans (writeV_frame hc1)
      obtain ⟨c2, hc2, hf2⟩ := ih c1 (hf1.aligned ha) (by omega)
      exact ⟨c2, hc2, hf1.trans hf2⟩
    · exact ⟨_, rfl, LowSpeedFrame.setCar c _⟩

theorem walkRight_total (m : Libm) (vm : VehicleModel) {n : Nat} :
    ∀ (k next : Nat) (c : StanleyController), Aligned c n → 1 ≤ next → next + k ≤ n →
      ∃ c', walkRight m vm k next c = some c' ∧ LowSpeedFrame c c' := by
  intro k
  induction k with
  | zero => intro next c _ _ _; exact ⟨c, rfl, LowSpeedFrame.refl c⟩
  | succ k ih =>
    intro next c ha h1 hk
    have hlen : c.raw_path.length = n := ha.1
    have h0 : next - 1 < c.raw_path.length := by omega
    have h2 : next < c.raw_path.length := by omega
    simp only [walkRight, List.getElem?_eq_getElem h0, List.getElem?_eq_getElem h2]
    split
    · have hf := LowSpeedFrame.setCar c c.raw_path[next]
      obtain ⟨c1, hc1⟩ := writeV_isSome (hf.aligned ha) (show next < n by omega)
        (vm.GetAccelerationConstraint (c.raw_path[next]).v
          (Vector2D.Distance m (c.raw_path[next]).position
            (c.raw_path[next]).position) (c.raw_path[next]).gear)
      rw [hc1]
      have hf1 := hf.trans (writeV_frame hc1)
      obtain ⟨c2, hc2, hf2⟩ := ih (next + 1) c1 (hf1.aligned ha) (by omega) (by omega)
      exact ⟨c2, hc2, hf1.trans hf2⟩
    · exact ⟨_, rfl, LowSpeedFrame.setCar c _⟩

theorem lowSpeedLeft_total (m : Libm) (vm : VehicleModel) {n : Nat}
    (current_stop : Nat) (c : StanleyController) (ha : Aligned c n) (hs : current_stop < n) :
    ∃ c', lowSpeedLeft m vm current_stop c = some c' ∧ LowSpeedFrame c c' := by
  cases current_stop with
  | zero => exact ⟨c, rfl, LowSpeedFrame.refl c⟩
  | succ prev =>
    obtain ⟨c1, hc1⟩ := writeV_isSome ha (show prev < n by omega) 0.2
    have hf1 := writeV_frame hc1
    obtain ⟨c2, hc2⟩ := writeComingToStop_isSome (hf1.aligned ha) (show prev < n by omega)
    have hf2 := hf1.trans (writeComingToStop_frame hc2)
    obtain ⟨c3, hc3, hf3⟩ := walkLeft_total m vm prev c2 (hf2.aligned ha) (by omega)
    refine ⟨c3, ?_, hf2.trans hf3⟩
    simp only [lowSpeedLeft, hc1, hc2, hc3]

theorem lowSpeedRight_total (m : Libm) (vm : VehicleModel) {n : Nat}
    (current_stop : Nat) (c : StanleyController) (ha : Aligned c n) :
    ∃ c', lowSpeedRight m vm current_stop c = some c' ∧ LowSpeedFrame c c' := by
  unfold lowSpeedRight
  split
  · rename_i hgt
    have hsz : c.raw_path_size = n := ha.2.2.2
    obtain ⟨c1, hc1⟩ := writeV_isSome ha (show current_stop + 1 < n by omega) 0.2
    have hf1 := writeV_frame hc1
    have ha1 := hf1.aligned ha
    have hsz1 : c1.raw_path_size = n := ha1.2.2.2
    obtain ⟨c2, hc2, hf2⟩ := walkRight_total m vm (c1.raw_path_size - (current_stop + 2))
      (current_stop + 2) c1 ha1 (by omega) (by omega)
    refine ⟨c2, ?_, hf1.trans hf2⟩
    simp only [hc1, hc2]
  · exact ⟨c, rfl, LowSpeedFrame.refl c⟩

theorem lowSpeedStop_total (m : Libm) (vm : VehicleModel) {n : Nat}
    (current_stop : Nat) (c : StanleyController) (ha : Aligned c n) (hs : current_stop < n) :
    ∃ c', lowSpeedStop m vm current_stop c = some c' ∧ LowSpeedFrame c c' := by
  obtain ⟨c1, hc1, hf1⟩ := lowSpeedLeft_total m vm current_stop c ha hs
  obtain ⟨c2, hc2, hf2⟩ := lowSpeedRight_total m vm current_stop c1 (hf1.aligned ha)
  refine ⟨c2, ?_, hf1.trans hf2⟩
  simp only [lowSpeedStop, hc1, hc2]

theorem lowSpeedStops_total (m : Libm) (vm : VehicleModel) {n : Nat} :
    ∀ (stops : List Nat) (c : StanleyController), Aligned c n → (∀ s ∈ stops, s < n) →
      ∃ c', lowSpeedStops m vm stops c = some c' ∧ LowSpeedFrame c c' := by
  intro stops
  induction stops with
  | nil => intro c _ _; exact ⟨c, rfl, LowSpeedFrame.refl c⟩
  | cons s rest ih =>
    intro c ha hs
    obtain ⟨c1, hc1, hf1⟩ := lowSpeedStop_total m vm s c ha (hs s (List.mem_cons_self _ _))
    obtain ⟨c2, hc2, hf2⟩ := ih c1 (hf1.aligned ha)
      (fun x hx => hs x (List.mem_cons_of_mem _ hx))
    refine ⟨c2, ?_, hf1.trans hf2⟩
    simp only [lowSpeedStops, hc1, hc2]

theorem UpdateLowSpeedRegions_total (m : Libm) (vm : VehicleModel) {n : Nat}
    (c : StanleyController) (ha : Aligned c n) (hs : ∀ s ∈ c.stopping, s < n) :
    ∃ c', UpdateLowSpeedRegions m vm c = some c' ∧ LowSpeedFrame c c' :=
  lowSpeedStops_total m vm c.stopping c ha hs

/-! ## Properties of `ConsolidateStateList` -/

theorem rewriteCurrent_gear (vm : VehicleModel) (prev current next : State2D) :
    (rewriteCurrent vm prev current next).gear = current.gear := by
  unfold rewriteCurrent
  split
  · split <;> rfl
  · rfl

theorem rewriteCurrent_cusp (vm : VehicleModel) (prev current next : State2D)
    (h : ¬ current.gear = prev.gear) : (rewriteCurrent vm prev current next).v = 0 := by
  unfold rewriteCurrent
  rw [if_neg h]

theorem consolidateLoop_step (vm : VehicleModel) (prev current next r : State2D)
    (rest : List State2D) (index : Nat) (c : StanleyController) :
    consolidateLoop vm prev (current :: next :: r :: rest) index c
      = match consolidateLoop vm (rewriteCurrent vm prev current next) (next :: r :: rest)
            (index + 1)
            (pushState vm
              (if current.gear = prev.gear then c
               else { c with stopping := c.stopping ++ [index] })
              (rewriteCurrent vm prev current next)) with
        | none => none
        | some (c, index, tail, last) =>
          some (c, index, rewriteCurrent vm prev current next :: tail, last) := by
  conv_lhs => unfold consolidateLoop

theorem consolidateLoop_spec (vm : VehicleModel) :
    ∀ (L : List State2D) (prev : State2D) (index : Nat) (c : StanleyController),
      2 ≤ L.length →
      ∃ (c' : StanleyController) (P : List State2D),
        consolidateLoop vm prev L index c
          = some (c', index + (L.length - 2), P ++ L.drop (L.length - 2),
              L.getLast?.getD prev) ∧
        P.length = L.length - 2 ∧
        c' = { c with
          raw_path := c.raw_path ++ P
          forward_path := c.forward_path ++ P.map vm.GetFrontAxleState
          reverse_path := c.reverse_path ++ P.map vm.GetFakeFrontAxleState
          stopping := c.stopping ++ cuspsFrom prev.gear (L.map State2D.gear) index } ∧
        (∀ s ∈ cuspsFrom prev.gear (L.map State2D.gear) index,
          ∃ j p, s = index + j ∧ P[j]? = some p ∧ p.v = 0) := by
  intro L
  induction L with
  | nil => intro _ _ _ h; simp at h
  | cons current L' ih =>
    intro prev index c hlen
    cases L' with
    | nil => simp at hlen
    | cons next rest =>
      cases rest with
      | nil =>
        refine ⟨c, [], ?_, rfl, ?_, ?_⟩
        · simp [consolidateLoop]
        · simp [cuspsFrom]
        · simp [cuspsFrom]
      | cons r rest' =>
        obtain ⟨c', P, hrun, hP, hc', hcusp⟩ :=
          ih (rewriteCurrent vm prev current next) (index + 1)
            (pushState vm
              (if current.gear = prev.gear then c
               else { c with stopping := c.stopping ++ [index] })
              (rewriteCurrent vm prev current next)) (by simp)
        refine ⟨c', rewriteCurrent vm prev current next :: P, ?_, ?_, ?_, ?_⟩
        · have e1 : index + 1 + ((next :: r :: rest').length - 2)
              = index + ((current :: next :: r :: rest').length - 2) := by
            simp only [List.length_cons]; omega
          have e2 : (current :: next :: r :: rest').drop
                ((current :: next :: r :: rest').length - 2)
              = (next :: r :: rest').drop ((next :: r :: rest').length - 2) := by
            have : (current :: next :: r :: rest').length - 2
                = ((next :: r :: rest').length - 2) + 1 := by
              simp only [List.length_cons]; omega
            rw [this, List.drop_succ_cons]
          have e3 : (current :: next :: r :: rest').getLast?.getD prev
              = (next :: r :: rest').getLast?.getD (rewriteCurrent vm prev current next) := by
            rw [List.getLast?_cons_cons, List.getLast?_cons_cons,
              List.getLast?_eq_getLast _ (List.cons_ne_nil r rest')]
            rfl
          rw [← e1, e2, e3, consolidateLoop_step, hrun]
          rfl
        · simp only [List.length_cons, hP]; omega
        · rw [hc', rewriteCurrent_gear]
          by_cases hg : current.gear = prev.gear
          · simp [pushState, cuspsFrom, hg]
          · simp [pushState, cuspsFrom, hg]
        · intro s hs
          simp only [List.map_cons, cuspsFrom, List.mem_append] at hs
          rcases hs with hs | hs
          · by_cases hg : current.gear = prev.gear
            · simp [hg] at hs
            · simp only [hg, if_false, List.mem_singleton] at hs
              exact ⟨0, rewriteCurrent vm prev current next, by omega, by simp,
                rewriteCurrent_cusp vm prev current next hg⟩
          · rw [rewriteCurrent_gear] at hcusp
            obtain ⟨j, p, hj, hp, hv⟩ := hcusp s hs
            exact ⟨j + 1, p, by omega, by simpa using hp, hv⟩

theorem cuspsFrom_mem (s : Nat) :
    ∀ (G : List Gear) (p : Gear) (index : Nat),
      s ∈ cuspsFrom p G index ↔
        ∃ j, j + 2 < G.length ∧ s = index + j ∧ (p :: G)[j]? ≠ (p :: G)[j + 1]? := by
  intro G
  induction G with
  | nil => intro p index; simp [cuspsFrom]
  | cons g G' ih =>
    intro p index
    cases G' with
    | nil => simp [cuspsFrom]
    | cons g2 G'' =>
      cases G'' with
      | nil =>
        simp only [cuspsFrom, List.not_mem_nil, List.length_cons, List.length_nil, false_iff]
        rintro ⟨j, hj, _⟩
        omega
      | cons g3 rest =>
        simp only [cuspsFrom, List.mem_append, ih g index.succ]
        constructor
        · rintro (h | ⟨j, hj, hs, hne⟩)
          · by_cases hg : g = p
            · simp [hg] at h
            · simp only [hg, if_false, List.mem_singleton] at h
              refine ⟨0, by simp, by omega, ?_⟩
              simpa using fun e => hg e.symm
          · refine ⟨j + 1, by simpa using hj, by omega, ?_⟩
            simpa using hne
        · rintro ⟨j, hj, hs, hne⟩
          cases j with
          | zero =>
            left
            have hg : ¬ g = p := by
              intro e; apply hne; simp [e]
            simp only [hg, if_false, List.mem_singleton]
            omega
          | succ j =>
            right
            refine ⟨j, by simpa using hj, by omega, ?_⟩
            simpa using hne

theorem cuspsFrom_bounds :
    ∀ (G : List Gear) (p : Gear) (index : Nat),
      (cuspsFrom p G index).Pairwise (· < ·) ∧
        ∀ s ∈ cuspsFrom p G index, index ≤ s ∧ s + 2 < index + G.length := by
  intro G
  induction G with
  | nil => intro p index; simp [cuspsFrom]
  | cons g G' ih =>
    intro p index
    cases G' with
    | nil => simp [cuspsFrom]
    | cons g2 G'' =>
      cases G'' with
      | nil => simp [cuspsFrom]
      | cons g3 rest =>
        obtain ⟨hp, hb⟩ := ih g (index + 1)
        simp only [cuspsFrom]
        constructor
        · rw [List.pairwise_append]
          refine ⟨?_, hp, ?_⟩
          · split <;> simp
          · intro a ha b hb'
            have := (hb b hb').1
            split at ha
            · simp at ha
            · simp only [List.mem_singleton] at ha; omega
        · intro s hs
          rw [List.mem_append] at hs
          rcases hs with hs | hs
          · split at hs
            · simp at hs
            · simp only [List.mem_singleton] at hs
              simp only [List.length_cons]; omega
          · have := hb s hs
            simp only [List.length_cons] at this ⊢
            omega

theorem consolidatePush_spec (vm : VehicleModel) (c : StanleyController) (first : State2D)
    (tail : List State2D) (h : 2 ≤ tail.length) :
    ∃ (c1 : StanleyController) (P : List State2D),
      consolidatePush vm c (first :: tail)
        = some (first :: (P ++ tail.drop (tail.length - 2)), c1) ∧
      P.length = tail.length - 2 ∧
      c1.raw_path = first :: (P ++ [tail.getLast?.getD first]) ∧
      c1.forward_path = c1.raw_path.map vm.GetFrontAxleState ∧
      c1.reverse_path = c1.raw_path.map vm.GetFakeFrontAxleState ∧
      c1.stopping = (if 0 = first.v then [0] else [])
        ++ cuspsFrom first.gear (tail.map State2D.gear) 1 ++ [tail.length - 1] ∧
      c1.raw_path_size = tail.length ∧
      c1.raw_path_last_index = tail.length - 1 ∧
      c1.cs = (if 0 = first.v then ControllerState.CSStopped
        else if Gear.ForwardGear = first.gear then ControllerState.CSForwardDrive
        else ControllerState.CSReverseDrive) ∧
      (∀ s ∈ cuspsFrom first.gear (tail.map State2D.gear) 1,
        ∃ p, c1.raw_path[s]? = some p ∧ p.v = 0) := by
  obtain ⟨c', P, hrun, hP, hc', hcusp⟩ :=
    consolidateLoop_spec vm tail first 1 (consolidateFirst vm c first) h
  have hidx : 1 + (tail.length - 2) = tail.length - 1 := by omega
  have hraw : (consolidateFirst vm c first).raw_path = [first] := by
    unfold consolidateFirst; split <;> [skip; split] <;> rfl
  have hfwd : (consolidateFirst vm c first).forward_path = [vm.GetFrontAxleState first] := by
    unfold consolidateFirst; split <;> [skip; split] <;> rfl
  have hrev : (consolidateFirst vm c first).reverse_path
      = [vm.GetFakeFrontAxleState first] := by
    unfold consolidateFirst; split <;> [skip; split] <;> rfl
  have hstop : (consolidateFirst vm c first).stopping = if 0 = first.v then [0] else [] := by
    unfold consolidateFirst; split <;> [skip; split] <;> rfl
  have hcs : (consolidateFirst vm c first).cs
      = (if 0 = first.v then ControllerState.CSStopped
        else if Gear.ForwardGear = first.gear then ControllerState.CSForwardDrive
        else ControllerState.CSReverseDrive) := by
    unfold consolidateFirst; split <;> [skip; split] <;> rfl
  have hraw' : c'.raw_path = first :: P := by rw [hc']; simp [hraw]
  have hfwd' : c'.forward_path = (first :: P).map vm.GetFrontAxleState := by
    rw [hc']; simp [hfwd]
  have hrev' : c'.reverse_path = (first :: P).map vm.GetFakeFrontAxleState := by
    rw [hc']; simp [hrev]
  have hstop' : c'.stopping = (if 0 = first.v then [0] else [])
      ++ cuspsFrom first.gear (tail.map State2D.gear) 1 := by
    rw [hc']; simp [hstop]
  have hcs' : c'.cs = (consolidateFirst vm c first).cs := by rw [hc']
  refine ⟨consolidateLast vm c' (tail.length - 1) (tail.getLast?.getD first), P,
    ?_, hP, ?_, ?_, ?_, ?_, ?_, ?_, ?_, ?_⟩
  · simp only [consolidatePush, hrun, hidx]
  · simp [consolidateLast, pushState, hraw']
  · simp [consolidateLast, pushState, hraw', hfwd']
  · simp [consolidateLast, pushState, hraw', hrev']
  · simp [consolidateLast, pushState, hstop']
  · simp only [consolidateLast, pushState, hraw', List.length_append, List.length_cons,
      List.length_nil, hP]
    omega
  · simp only [consolidateLast, pushState, hraw', List.length_append, List.length_cons,
      List.length_nil, hP]
    omega
  · simp only [consolidateLast, pushState, hcs', hcs]
  · intro s hs
    obtain ⟨j, p, hj, hp, hv⟩ := hcusp s hs
    refine ⟨p, ?_, hv⟩
    have hjlt : j < P.length := by
      by_contra hge
      rw [List.getElem?_eq_none (by omega)] at hp
      cases hp
    have hs1 : s = j + 1 := by omega
    simp only [consolidateLast, pushState, hraw', hs1, List.cons_append,
      List.getElem?_cons_succ, List.getElem?_append_left hjlt, hp]

theorem consolidatePush_stops_lt (vm : VehicleModel) (c : StanleyController) (first : State2D)
    (tail : List State2D) (h : 2 ≤ tail.length) {out : List State2D}
    {c1 : StanleyController} (hrun : consolidatePush vm c (first :: tail) = some (out, c1)) :
    Aligned c1 tail.length ∧ ∀ s ∈ c1.stopping, s < tail.length := by
  obtain ⟨c1', P, hrun', hP, hraw, hfwd, hrev, hstop, hsize, -, -, -⟩ :=
    consolidatePush_spec vm c first tail h
  rw [hrun] at hrun'
  cases hrun'
  have hlen : c1.raw_path.length = tail.length := by
    rw [hraw]; simp only [List.length_cons, List.length_append, List.length_nil, hP]; omega
  refine ⟨⟨hlen, by rw [hfwd, List.length_map, hlen], by rw [hrev, List.length_map, hlen],
    hsize⟩, ?_⟩
  intro s hs
  rw [hstop] at hs
  simp only [List.mem_append, List.mem_singleton] at hs
  rcases hs with (hs | hs) | hs
  · split at hs
    · simp only [List.mem_singleton] at hs; omega
    · simp at hs
  · have := ((cuspsFrom_bounds (tail.map State2D.gear) first.gear 1).2 s hs).2
    simp only [List.length_map] at this
    omega
  · omega

theorem ConsolidateStateList_run (m : Libm) (vm : VehicleModel) (c : StanleyController)
    (first : State2D) (tail : List State2D) (h : 2 ≤ tail.length) :
    ∃ (out : List State2D) (c1 c2 : StanleyController),
      consolidatePush vm c (first :: tail) = some (out, c1) ∧
      UpdateLowSpeedRegions m vm c1 = some c2 ∧
      LowSpeedFrame c1 c2 ∧
      ConsolidateStateList m vm c (first :: tail)
        = some (true, out, { c2 with prev_waypoint := 0, next_waypoint := 1, last_cusp := 0 }) := by
  obtain ⟨c1, P, hrun, -⟩ := consolidatePush_spec vm c first tail h
  obtain ⟨ha, hs⟩ := consolidatePush_stops_lt vm c first tail h hrun
  obtain ⟨c2, hc2, hf⟩ := UpdateLowSpeedRegions_total m vm c1 ha hs
  refine ⟨_, c1, c2, hrun, hc2, hf, ?_⟩
  simp only [ConsolidateStateList, hrun, hc2]

theorem input_split (input : List State2D) (h : 3 ≤ input.length) :
    ∃ first tail, input = first :: tail ∧ 2 ≤ tail.length := by
  cases input with
  | nil => simp at h
  | cons first tail => exact ⟨first, tail, rfl, by simpa using h⟩

/-- C1 (as the code has it): for an input of `N ≥ 3` states the consolidation
returns, `stopping` is strictly increasing, and its members are exactly: `0`
iff `input[0].v = 0`; every index `s` with `1 ≤ s ≤ N - 3` whose gear differs
from the gear at `s - 1`; and `N - 2`, the last index of `raw_path` (the loop
never visits `input[N-2]`). -/
theorem consolidate_stopping (m : Libm) (vm : VehicleModel) (c : StanleyController)
    (input : List State2D) (h : 3 ≤ input.length) :
    ∃ (out : List State2D) (c' : StanleyController),
      ConsolidateStateList m vm c input = some (true, out, c') ∧
      c'.stopping.Pairwise (· < ·) ∧
      c'.raw_path.length = input.length - 1 ∧
      ∀ s, s ∈ c'.stopping ↔
        (s = 0 ∧ (input[0]?).map State2D.v = some 0) ∨
        (1 ≤ s ∧ s + 3 ≤ input.length ∧
          (input.map State2D.gear)[s - 1]? ≠ (input.map State2D.gear)[s]?) ∨
        s = input.length - 2 := by
  obtain ⟨first, tail, rfl, ht⟩ := input_split input h
  obtain ⟨out, c1, c2, hpush, -, hf, hrun⟩ := ConsolidateStateList_run m vm c first tail ht
  obtain ⟨c1', P, hpush', hP, hraw, -, -, hstop, -, -, -, -⟩ :=
    consolidatePush_spec vm c first tail ht
  rw [hpush] at hpush'
  cases hpush'
  have hst : c2.stopping = c1.stopping := by
    have := congrArg StanleyController.stopping hf.others
    simpa using this
  have hlen : c2.raw_path.length = c1.raw_path.length := by
    have := congrArg List.length hf.raw
    simpa using this
  obtain ⟨hpw, hbd⟩ := cuspsFrom_bounds (tail.map State2D.gear) first.gear 1
  simp only [List.length_map] at hbd
  refine ⟨_, _, hrun, ?_, ?_, ?_⟩
  · show c2.stopping.Pairwise (· < ·)
    rw [hst, hstop, List.pairwise_append, List.pairwise_append]
    refine ⟨⟨?_, hpw, ?_⟩, List.pairwise_singleton _ _, ?_⟩
    · split <;> simp
    · intro a ha b hb
      have := (hbd b hb).1
      split at ha
      · simp only [List.mem_singleton] at ha; omega
      · simp at ha
    · intro a ha b hb
      simp only [List.mem_singleton] at hb
      rw [List.mem_append] at ha
      rcases ha with ha | ha
      · split at ha
        · simp only [List.mem_singleton] at ha; omega
        · simp at ha
      · have := (hbd a ha).2
        omega
  · show c2.raw_path.length = _
    rw [hlen, hraw]
    simp only [List.length_cons, List.length_append, List.length_nil, hP]
    omega
  · intro s
    show s ∈ c2.stopping ↔ _
    rw [hst, hstop]
    simp only [List.mem_append, List.mem_singleton, cuspsFrom_mem, List.length_map,
      List.length_cons, List.map_cons, List.getElem?_cons_zero, Option.map_some']
    constructor
    · rintro ((h0 | ⟨j, hj, rfl, hne⟩) | rfl)
      · left
        split at h0
        · rename_i hv
          simp only [List.mem_singleton] at h0
          exact ⟨h0, by rw [← hv]⟩
        · simp at h0
      · right; left
        refine ⟨by omega, by omega, ?_⟩
        simpa [Nat.add_comm 1 j] using hne
      · right; right; omega
    · rintro (⟨rfl, hv⟩ | ⟨h1, h3, hne⟩ | rfl)
      · left; left
        have : 0 = first.v := by simpa using hv.symm
        simp [this]
      · left; right
        refine ⟨s - 1, by omega, by omega, ?_⟩
        have e : s - 1 + 1 = s := by omega
        rw [e]
        exact hne
      · right; omega

/-- C1, against the claim as stated: on the three-state path with the gear
change at index 1 the code leaves `stopping = [1]` (the claim: `{1, 2}`), and
on the four-state path with the gear change at index 2 it leaves
`stopping = [2]` (the claim: `{2, 3}`); `raw_path` has 2 and 3 states. -/
theorem consolidate_stopping_counterexample :
    (ConsolidateStateList exactMath unitVehicle newController cuspPath3).map
        (fun r => (r.2.2.stopping, r.2.2.raw_path.length)) = some ([1], 2) ∧
    (ConsolidateStateList exactMath unitVehicle newController cuspPath4).map
        (fun r => (r.2.2.stopping, r.2.2.raw_path.length)) = some ([2], 3) := by
  constructor
  · simp [ConsolidateStateList, consolidatePush, consolidateLoop, consolidateFirst,
      consolidateLast, pushState, cuspPath3, stateAt, UpdateLowSpeedRegions, lowSpeedStops,
      lowSpeedStop, lowSpeedLeft, lowSpeedRight, walkLeft, walkRight, writeV,
      writeComingToStop, newController]
  · simp [ConsolidateStateList, consolidatePush, consolidateLoop, consolidateFirst,
      consolidateLast, pushState, cuspPath4, stateAt, UpdateLowSpeedRegions, lowSpeedStops,
      lowSpeedStop, lowSpeedLeft, lowSpeedRight, walkLeft, walkRight, writeV,
      writeComingToStop, newController, rewriteCurrent, unitVehicle, exactMath,
      Vector2D.Distance]

theorem consolidate_stopping_witness :
    3 ≤ cuspPath6.length ∧
    ∃ (out : List State2D) (c' : StanleyController),
      ConsolidateStateList exactMath unitVehicle newController cuspPath6 = some (true, out, c') ∧
      c'.stopping.Pairwise (· < ·) ∧
      c'.raw_path.length = cuspPath6.length - 1 ∧
      ∀ s, s ∈ c'.stopping ↔
        (s = 0 ∧ (cuspPath6[0]?).map State2D.v = some 0) ∨
        (1 ≤ s ∧ s + 3 ≤ cuspPath6.length ∧
          (cuspPath6.map State2D.gear)[s - 1]? ≠ (cuspPath6.map State2D.gear)[s]?) ∨
        s = cuspPath6.length - 2 :=
  ⟨by decide, consolidate_stopping exactMath unitVehicle newController cuspPath6 (by decide)⟩

/-! ### The flag `coming_to_stop` is written only to the left of a stop -/

theorem writeV_stopFlag {c c' : StanleyController} {i : Nat} {a : ℚ}
    (h : writeV c i a = some c') (k : Nat) : stopFlagAt c' k = stopFlagAt c k := by
  unfold writeV at h
  split at h
  · cases h
    simp only [stopFlagAt, List.getElem?_modify]
    cases c.raw_path[k]? with
    | none => rfl
    | some x => by_cases hik : i = k <;> simp [hik]
  · cases h

theorem writeComingToStop_stopFlag {c c' : StanleyController} {i : Nat}
    (h : writeComingToStop c i = some c') (k : Nat) (hk : k ≠ i) :
    stopFlagAt c' k = stopFlagAt c k := by
  unfold writeComingToStop at h
  split at h
  · cases h
    simp only [stopFlagAt, List.getElem?_modify]
    cases c.raw_path[k]? with
    | none => rfl
    | some x =>
      have hik : ¬ i = k := fun e => hk e.symm
      simp [hik]
  · cases h

theorem walkLeft_stopFlag (m : Libm) (vm : VehicleModel) (k : Nat) :
    ∀ (n : Nat) (c c' : StanleyController), walkLeft m vm n c = some c' →
      stopFlagAt c' k = stopFlagAt c k := by
  intro n
  induction n with
  | zero => intro c c' h; simp only [walkLeft] at h; cases h; rfl
  | succ prev ih =>
    intro c c' h
    simp only [walkLeft] at h
    split at h
    · split at h
      · split at h
        · rename_i c1 hw
          rw [ih c1 c' h, writeV_stopFlag hw k]
          rfl
        · cases h
      · cases h; rfl
    · cases h

theorem walkRight_stopFlag (m : Libm) (vm : VehicleModel) (k : Nat) :
    ∀ (n next : Nat) (c c' : StanleyController), walkRight m vm n next c = some c' →
      stopFlagAt c' k = stopFlagAt c k := by
  intro n
  induction n with
  | zero => intro next c c' h; simp only [walkRight] at h; cases h; rfl
  | succ n ih =>
    intro next c c' h
    simp only [walkRight] at h
    split at h
    · split at h
      · split at h
        · rename_i c1 hw
          rw [ih (next + 1) c1 c' h, writeV_stopFlag hw k]
          rfl
        · cases h
      · cases h; rfl
    · cases h

theorem lowSpeedStop_stopFlag (m : Libm) (vm : VehicleModel) (k : Nat)
    (current_stop : Nat) (c c' : StanleyController)
    (h : lowSpeedStop m vm current_stop c = some c') (hk : k + 1 ≠ current_stop) :
    stopFlagAt c' k = stopFlagAt c k := by
  unfold lowSpeedStop at h
  split at h
  · cases h
  · rename_i c1 hleft
    have h1 : stopFlagAt c1 k = stopFlagAt c k := by
      unfold lowSpeedLeft at hleft
      split at hleft
      · cases hleft; rfl
      · rename_i prev
        split at hleft
        · cases hleft
        · rename_i ca hwa
          split at hleft
          · cases hleft
          · rename_i cb hwb
            rw [walkLeft_stopFlag m vm k prev cb c1 hleft,
              writeComingToStop_stopFlag hwb k (by omega), writeV_stopFlag hwa k]
    unfold lowSpeedRight at h
    split at h
    · split at h
      · cases h
      · rename_i ca hwa
        rw [walkRight_stopFlag m vm k _ _ ca c' h, writeV_stopFlag hwa k, h1]
    · cases h; exact h1

theorem lowSpeedStops_stopFlag (m : Libm) (vm : VehicleModel) (k : Nat) :
    ∀ (stops : List Nat) (c c' : StanleyController), lowSpeedStops m vm stops c = some c' →
      (∀ s ∈ stops, k + 1 ≠ s) → stopFlagAt c' k = stopFlagAt c k := by
  intro stops
  induction stops with
  | nil => intro c c' h _; simp only [lowSpeedStops] at h; cases h; rfl
  | cons s rest ih =>
    intro c c' h hk
    simp only [lowSpeedStops] at h
    split at h
    · cases h
    · rename_i c1 h1
      rw [ih c1 c' h (fun x hx => hk x (List.mem_cons_of_mem _ hx)),
        lowSpeedStop_stopFlag m vm k s c c1 h1 (hk s (List.mem_cons_self _ _))]

theorem maskSpeed_getElem {l l' : List State2D}
    (h : l'.map maskSpeed = l.map maskSpeed) (i : Nat) (hi : i < l.length) :
    ∃ a b, l[i]? = some a ∧ l'[i]? = some b ∧ maskSpeed b = maskSpeed a := by
  have hlen : l'.length = l.length := by simpa using congrArg List.length h
  have hi' : i < l'.length := by omega
  refine ⟨l[i], l'[i], List.getElem?_eq_getElem hi, List.getElem?_eq_getElem hi', ?_⟩
  have := congrArg (fun x => x[i]?) h
  simpa [List.getElem?_map, List.getElem?_eq_getElem hi, List.getElem?_eq_getElem hi']
    using this

/-- C2: for an input of `N ≥ 3` states the consolidation returns; the three
paths have the same length `raw_path_size ≥ 2`, `raw_path_last_index` is
`raw_path_size - 1`, and at every index `i` the states `raw_path[i]`,
`forward_path[i]` and `reverse_path[i]` are, in every field other than `v`
and `coming_to_stop`, the state pushed to `raw_path[i]` (the one in the
controller `c1` handed to `UpdateLowSpeedRegions`), its `GetFrontAxleState`
and its `GetFakeFrontAxleState`. -/
theorem consolidate_paths_aligned (m : Libm) (vm : VehicleModel) (c : StanleyController)
    (input : List State2D) (h : 3 ≤ input.length) :
    ∃ (out : List State2D) (c1 c' : StanleyController),
      consolidatePush vm c input = some (out, c1) ∧
      ConsolidateStateList m vm c input = some (true, out, c') ∧
      c'.raw_path.length = c'.raw_path_size ∧
      c'.forward_path.length = c'.raw_path_size ∧
      c'.reverse_path.length = c'.raw_path_size ∧
      2 ≤ c'.raw_path_size ∧
      c'.raw_path_last_index = c'.raw_path_size - 1 ∧
      c1.raw_path.length = c'.raw_path_size ∧
      ∀ i, i < c'.raw_path_size →
        ∃ pushed raw fwd rev,
          c1.raw_path[i]? = some pushed ∧ c'.raw_path[i]? = some raw ∧
          c'.forward_path[i]? = some fwd ∧ c'.reverse_path[i]? = some rev ∧
          maskSpeed raw = maskSpeed pushed ∧
          maskSpeed fwd = maskSpeed (vm.GetFrontAxleState pushed) ∧
          maskSpeed rev = maskSpeed (vm.GetFakeFrontAxleState pushed) := by
  obtain ⟨first, tail, rfl, ht⟩ := input_split input h
  obtain ⟨out, c1, c2, hpush, -, hf, hrun⟩ := ConsolidateStateList_run m vm c first tail ht
  obtain ⟨c1', P, hpush', -, -, hfwd, hrev, -, -, hlast, -, -⟩ :=
    consolidatePush_spec vm c first tail ht
  rw [hpush] at hpush'
  cases hpush'
  obtain ⟨ha, -⟩ := consolidatePush_stops_lt vm c first tail ht hpush
  obtain ⟨h1, h2, h3, h4⟩ := hf.aligned ha
  have hli : c2.raw_path_last_index = c1.raw_path_last_index := by
    simpa using congrArg StanleyController.raw_path_last_index hf.others
  refine ⟨_, c1, _, hpush, hrun, ?_, ?_, ?_, ?_, ?_, ?_, ?_⟩
  · exact h1.trans h4.symm
  · exact h2.trans h4.symm
  · exact h3.trans h4.symm
  · show 2 ≤ c2.raw_path_size
    omega
  · show c2.raw_path_last_index = c2.raw_path_size - 1
    rw [hli, hlast, h4]
  · exact ha.1.trans h4.symm
  · intro i hi
    have hi1 : i < c1.raw_path.length := by
      have : i < c2.raw_path_size := hi
      rw [ha.1]; omega
    obtain ⟨pushed, raw, hp, hr, hmr⟩ := maskSpeed_getElem hf.raw i hi1
    obtain ⟨pf, fwd, hpf, hfw, hmf⟩ :=
      maskSpeed_getElem hf.forward i (by rw [ha.2.1, ← ha.1]; exact hi1)
    obtain ⟨pr, rev, hpr, hrv, hmv⟩ :=
      maskSpeed_getElem hf.reverse i (by rw [ha.2.2.1, ← ha.1]; exact hi1)
    rw [hfwd, List.getElem?_map, hp] at hpf
    rw [hrev, List.getElem?_map, hp] at hpr
    cases hpf
    cases hpr
    exact ⟨pushed, raw, fwd, rev, hp, hr, hfw, hrv, hmr, hmf, hmv⟩

theorem consolidate_paths_aligned_witness :
    3 ≤ cuspPath4.length ∧
    ∃ (out : List State2D) (c1 c' : StanleyController),
      consolidatePush unitVehicle newController cuspPath4 = some (out, c1) ∧
      ConsolidateStateList exactMath unitVehicle newController cuspPath4
        = some (true, out, c') ∧
      c'.raw_path.length = c'.raw_path_size ∧
      c'.forward_path.length = c'.raw_path_size ∧
      c'.reverse_path.length = c'.raw_path_size ∧
      2 ≤ c'.raw_path_size ∧
      c'.raw_path_last_index = c'.raw_path_size - 1 ∧
      c1.raw_path.length = c'.raw_path_size ∧
      ∀ i, i < c'.raw_path_size →
        ∃ pushed raw fwd rev,
          c1.raw_path[i]? = some pushed ∧ c'.raw_path[i]? = some raw ∧
          c'.forward_path[i]? = some fwd ∧ c'.reverse_path[i]? = some rev ∧
          maskSpeed raw = maskSpeed pushed ∧
          maskSpeed fwd = maskSpeed (unitVehicle.GetFrontAxleState pushed) ∧
          maskSpeed rev = maskSpeed (unitVehicle.GetFakeFrontAxleState pushed) :=
  ⟨by decide,
    consolidate_paths_aligned exactMath unitVehicle newController cuspPath4 (by decide)⟩

/-- C3, the code at the failing input: on three forward states that start and
end at rest the loop of the consolidation pushes both end states as the input
has them (`v = 0`, `coming_to_stop = false`) and records the stop indices 0
and 1; the low-speed update then writes over both: `raw_path[0]` ends with
`v = 0.2` and `coming_to_stop = true`, and the last raw state with `v = 0.2`,
where the input has the goal speed `0`. -/
theorem consolidate_endpoints_overwritten :
    restPath3.map (fun s => (s.v, s.coming_to_stop))
      = [(0, false), (1, false), (0, false)] ∧
    (consolidatePush unitVehicle newController restPath3).map
        (fun r => (r.2.stopping, r.2.raw_path.map (fun s => (s.v, s.coming_to_stop))))
      = some ([0, 1], [(0, false), (0, false)]) ∧
    (ConsolidateStateList exactMath unitVehicle newController restPath3).map
        (fun r => r.2.2.raw_path.map (fun s => (s.v, s.coming_to_stop)))
      = some [(1 / 5, true), (1 / 5, false)] := by
  refine ⟨?_, ?_, ?_⟩
  · simp [restPath3, stateAt]
  · simp [consolidatePush, consolidateLoop, consolidateFirst, consolidateLast, pushState,
      restPath3, stateAt, newController, unitVehicle]
  · simp [ConsolidateStateList, consolidatePush, consolidateLoop, consolidateFirst,
      consolidateLast, pushState, restPath3, stateAt, UpdateLowSpeedRegions, lowSpeedStops,
      lowSpeedStop, lowSpeedLeft, lowSpeedRight, walkLeft, walkRight, writeV,
      writeComingToStop, newController]
    norm_num

/-- What the consolidation keeps of the end states: for an input of `N ≥ 3`
states it returns; the first raw state equals `input[0]` in every field other
than `v` and `coming_to_stop`, and the last raw state equals `input[N-1]` in
every field other than `v`. -/
theorem consolidate_endpoints (m : Libm) (vm : VehicleModel) (c : StanleyController)
    (input : List State2D) (h : 3 ≤ input.length) :
    ∃ (out : List State2D) (c' : StanleyController) (first last rawFirst rawLast : State2D),
      ConsolidateStateList m vm c input = some (true, out, c') ∧
      input[0]? = some first ∧ input[input.length - 1]? = some last ∧
      c'.raw_path[0]? = some rawFirst ∧
      c'.raw_path[c'.raw_path_last_index]? = some rawLast ∧
      maskSpeed rawFirst = maskSpeed first ∧
      maskSpeed rawLast = maskSpeed last ∧
      rawLast.coming_to_stop = last.coming_to_stop := by
  obtain ⟨first, tail, rfl, ht⟩ := input_split input h
  obtain ⟨out, c1, c2, hpush, hupd, hf, hrun⟩ := ConsolidateStateList_run m vm c first tail ht
  obtain ⟨c1', P, hpush', hP, hraw, -, -, -, -, hlast, -, -⟩ :=
    consolidatePush_spec vm c first tail ht
  rw [hpush] at hpush'
  cases hpush'
  obtain ⟨ha, hstops⟩ := consolidatePush_stops_lt vm c first tail ht hpush
  have hli : c2.raw_path_last_index = tail.length - 1 := by
    rw [← hlast]
    simpa using congrArg StanleyController.raw_path_last_index hf.others
  have hne : tail ≠ [] := by
    intro e; rw [e] at ht; simp at ht
  have hgl : tail.getLast? = some (tail.getLast hne) := List.getLast?_eq_getLast _ hne
  have hin : (first :: tail)[(first :: tail).length - 1]? = some (tail.getLast hne) := by
    have e : (first :: tail).length - 1 = (tail.length - 1) + 1 := by
      simp only [List.length_cons]; omega
    rw [e, List.getElem?_cons_succ, ← List.getLast?_eq_getElem?, hgl]
  have hc1last : c1.raw_path[tail.length - 1]? = some (tail.getLast hne) := by
    have e : tail.length - 1 = P.length + 1 := by omega
    rw [hraw, e, List.getElem?_cons_succ, hgl,
      List.getElem?_append_right (Nat.le_refl _)]
    simp
  obtain ⟨a0, b0, ha0, hb0, hm0⟩ := maskSpeed_getElem hf.raw 0 (by rw [ha.1]; omega)
  obtain ⟨a1, b1, ha1, hb1, hm1⟩ :=
    maskSpeed_getElem hf.raw (tail.length - 1) (by rw [ha.1]; omega)
  rw [hraw, List.getElem?_cons_zero] at ha0
  cases ha0
  rw [hc1last] at ha1
  cases ha1
  have hflag := lowSpeedStops_stopFlag m vm (tail.length - 1) c1.stopping c1 c2 hupd
    (fun s hs => by have := hstops s hs; omega)
  simp only [stopFlagAt, hb1, hc1last, Option.map_some', Option.some.injEq] at hflag
  refine ⟨_, _, first, tail.getLast hne, b0, b1, hrun, by simp, hin, hb0, ?_, hm0, hm1,
    hflag⟩
  show c2.raw_path[c2.raw_path_last_index]? = some b1
  rw [hli, hb1]

theorem consolidate_endpoints_witness :
    3 ≤ restPath3.length ∧
    ∃ (out : List State2D) (c' : StanleyController) (first last rawFirst rawLast : State2D),
      ConsolidateStateList exactMath unitVehicle newController restPath3
        = some (true, out, c') ∧
      restPath3[0]? = some first ∧ restPath3[restPath3.length - 1]? = some last ∧
      c'.raw_path[0]? = some rawFirst ∧
      c'.raw_path[c'.raw_path_last_index]? = some rawLast ∧
      maskSpeed rawFirst = maskSpeed first ∧
      maskSpeed rawLast = maskSpeed last ∧
      rawLast.coming_to_stop = last.coming_to_stop :=
  ⟨by decide, consolidate_endpoints exactMath unitVehicle newController restPath3 (by decide)⟩

/-! ### Speeds after the low-speed update, when the walks stop at once -/

theorem writeV_speedAt {c c' : StanleyController} {i : Nat} {a : ℚ}
    (h : writeV c i a = some c') (k : Nat) :
    speedAt c' k = if k = i then some a else speedAt c k := by
  unfold writeV at h
  split at h
  · rename_i hlt
    cases h
    simp only [speedAt, List.getElem?_modify]
    by_cases hik : k = i
    · subst hik
      simp [List.getElem?_eq_getElem hlt.1]
    · have hik' : ¬ i = k := fun e => hik e.symm
      cases c.raw_path[k]? with
      | none => simp [hik]
      | some x => simp [hik, hik']
  · cases h

theorem writeComingToStop_speedAt {c c' : StanleyController} {i : Nat}
    (h : writeComingToStop c i = some c') (k : Nat) : speedAt c' k = speedAt c k := by
  unfold writeComingToStop at h
  split at h
  · cases h
    simp only [speedAt, List.getElem?_modify]
    cases c.raw_path[k]? with
    | none => rfl
    | some x => by_cases hik : i = k <;> simp [hik]
  · cases h

theorem walkLeft_inert (m : Libm) (vm : VehicleModel) (hvm : ConstraintsAboveReference vm)
    (n : Nat) (c c' : StanleyController) (h : walkLeft m vm n c = some c') (k : Nat) :
    speedAt c' k = speedAt c k := by
  cases n with
  | zero => simp only [walkLeft] at h; cases h; rfl
  | succ prev =>
    simp only [walkLeft] at h
    split at h
    · split at h
      · rename_i hlt
        exact absurd hlt (not_lt.mpr (hvm.1 _ _ _))
      · cases h; rfl
    · cases h

theorem walkRight_inert (m : Libm) (vm : VehicleModel) (hvm : ConstraintsAboveReference vm)
    (n next : Nat) (c c' : StanleyController) (h : walkRight m vm n next c = some c')
    (k : Nat) : speedAt c' k = speedAt c k := by
  cases n with
  | zero => simp only [walkRight] at h; cases h; rfl
  | succ n =>
    simp only [walkRight] at h
    split at h
    · split at h
      · rename_i hlt
        exact absurd hlt (not_lt.mpr (hvm.2 _ _ _))
      · cases h; rfl
    · cases h

theorem LowSpeedFrame.size {c c' : StanleyController} (h : LowSpeedFrame c c') :
    c'.raw_path_size = c.raw_path_size := by
  simpa using congrArg StanleyController.raw_path_size h.others

theorem walkLeft_frame (m : Libm) (vm : VehicleModel) :
    ∀ (n : Nat) (c c' : StanleyController), walkLeft m vm n c = some c' →
      LowSpeedFrame c c' := by
  intro n
  induction n with
  | zero => intro c c' h; simp only [walkLeft] at h; cases h; exact LowSpeedFrame.refl c
  | succ prev ih =>
    intro c c' h
    simp only [walkLeft] at h
    split at h
    · split at h
      · split at h
        · rename_i c1 hw
          exact ((LowSpeedFrame.setCar c _).trans (writeV_frame hw)).trans (ih c1 c' h)
        · cases h
      · cases h; exact LowSpeedFrame.setCar c _
    · cases h

theorem walkRight_frame (m : Libm) (vm : VehicleModel) :
    ∀ (n next : Nat) (c c' : StanleyController), walkRight m vm n next c = some c' →
      LowSpeedFrame c c' := by
  intro n
  induction n with
  | zero => intro next c c' h; simp only [walkRight] at h; cases h; exact LowSpeedFrame.refl c
  | succ n ih =>
    intro next c c' h
    simp only [walkRight] at h
    split at h
    · split at h
      · split at h
        · rename_i c1 hw
          exact ((LowSpeedFrame.setCar c _).trans (writeV_frame hw)).trans
            (ih (next + 1) c1 c' h)
        · cases h
      · cases h; exact LowSpeedFrame.setCar c _
    · cases h

theorem lowSpeedLeft_frame (m : Libm) (vm : VehicleModel) (current_stop : Nat)
    (c c' : StanleyController) (h : lowSpeedLeft m vm current_stop c = some c') :
    LowSpeedFrame c c' := by
  unfold lowSpeedLeft at h
  split at h
  · cases h; exact LowSpeedFrame.refl c
  · rename_i prev
    split at h
    · cases h
    · rename_i ca hwa
      split at h
      · cases h
      · rename_i cb hwb
        exact ((writeV_frame hwa).trans (writeComingToStop_frame hwb)).trans
          (walkLeft_frame m vm prev cb c' h)

theorem lowSpeedRight_frame (m : Libm) (vm : VehicleModel) (current_stop : Nat)
    (c c' : StanleyController) (h : lowSpeedRight m vm current_stop c = some c') :
    LowSpeedFrame c c' := by
  unfold lowSpeedRight at h
  split at h
  · split at h
    · cases h
    · rename_i ca hwa
      exact (writeV_frame hwa).trans (walkRight_frame m vm _ _ ca c' h)
  · cases h; exact LowSpeedFrame.refl c

theorem lowSpeedStop_frame (m : Libm) (vm : VehicleModel) (current_stop : Nat)
    (c c' : StanleyController) (h : lowSpeedStop m vm current_stop c = some c') :
    LowSpeedFrame c c' := by
  unfold lowSpeedStop at h
  split at h
  · cases h
  · rename_i c1 hleft
    exact (lowSpeedLeft_frame m vm current_stop c c1 hleft).trans
      (lowSpeedRight_frame m vm current_stop c1 c' h)

theorem lowSpeedLeft_speedAt (m : Libm) (vm : VehicleModel)
    (hvm : ConstraintsAboveReference vm) (current_stop : Nat) (c c' : StanleyController)
    (h : lowSpeedLeft m vm current_stop c = some c') (k : Nat) :
    speedAt c' k = if k + 1 = current_stop then some 0.2 else speedAt c k := by
  unfold lowSpeedLeft at h
  split at h
  · cases h; simp
  · rename_i prev
    split at h
    · cases h
    · rename_i ca hwa
      split at h
      · cases h
      · rename_i cb hwb
        rw [walkLeft_inert m vm hvm prev cb c' h, writeComingToStop_speedAt hwb,
          writeV_speedAt hwa]
        by_cases e : k = prev <;> simp [e]

theorem lowSpeedRight_speedAt (m : Libm) (vm : VehicleModel)
    (hvm : ConstraintsAboveReference vm) (current_stop : Nat) (c c' : StanleyController)
    (h : lowSpeedRight m vm current_stop c = some c') (k : Nat) :
    speedAt c' k =
      if k = current_stop + 1 ∧ k < c.raw_path_size then some 0.2 else speedAt c k := by
  unfold lowSpeedRight at h
  split at h
  · rename_i hgt
    split at h
    · cases h
    · rename_i ca hwa
      rw [walkRight_inert m vm hvm _ _ ca c' h, writeV_speedAt hwa]
      by_cases e : k = current_stop + 1
      · have : k < c.raw_path_size := by omega
        simp [e, hgt]
      · simp [e]
  · rename_i hgt
    cases h
    have : ¬ (k = current_stop + 1 ∧ k < c.raw_path_size) := by omega
    simp [this]

theorem lowSpeedStop_speedAt (m : Libm) (vm : VehicleModel)
    (hvm : ConstraintsAboveReference vm) (current_stop : Nat) (c c' : StanleyController)
    (h : lowSpeedStop m vm current_stop c = some c') (k : Nat) :
    speedAt c' k =
      if k + 1 = current_stop ∨ (k = current_stop + 1 ∧ k < c.raw_path_size) then some 0.2
      else speedAt c k := by
  unfold lowSpeedStop at h
  split at h
  · cases h
  · rename_i c1 hleft
    rw [lowSpeedRight_speedAt m vm hvm current_stop c1 c' h,
      lowSpeedLeft_speedAt m vm hvm current_stop c c1 hleft,
      (lowSpeedLeft_frame m vm current_stop c c1 hleft).size]
    by_cases e1 : k = current_stop + 1 ∧ k < c.raw_path_size
    · rw [if_pos e1, if_pos (Or.inr e1)]
    · by_cases e2 : k + 1 = current_stop
      · rw [if_neg e1, if_pos e2, if_pos (Or.inl e2)]
      · rw [if_neg e1, if_neg e2, if_neg (by tauto)]

theorem lowSpeedStops_speedAt (m : Libm) (vm : VehicleModel)
    (hvm : ConstraintsAboveReference vm) (k : Nat) :
    ∀ (stops : List Nat) (c c' : StanleyController), lowSpeedStops m vm stops c = some c' →
      speedAt c' k =
        if (∃ s ∈ stops, k + 1 = s ∨ (k = s + 1 ∧ k < c.raw_path_size)) then some 0.2
        else speedAt c k := by
  intro stops
  induction stops with
  | nil => intro c c' h; simp only [lowSpeedStops] at h; cases h; simp
  | cons s rest ih =>
    intro c c' h
    simp only [lowSpeedStops] at h
    split at h
    · cases h
    · rename_i c1 h1
      rw [ih c1 c' h, lowSpeedStop_speedAt m vm hvm s c c1 h1,
        (lowSpeedStop_frame m vm s c c1 h1).size]
      by_cases e1 : ∃ s ∈ rest, k + 1 = s ∨ (k = s + 1 ∧ k < c.raw_path_size)
      · have : ∃ x ∈ s :: rest, k + 1 = x ∨ (k = x + 1 ∧ k < c.raw_path_size) := by
          obtain ⟨x, hx, hk⟩ := e1
          exact ⟨x, List.mem_cons_of_mem _ hx, hk⟩
        rw [if_pos e1, if_pos this]
      · rw [if_neg e1]
        by_cases e2 : k + 1 = s ∨ (k = s + 1 ∧ k < c.raw_path_size)
        · have : ∃ x ∈ s :: rest, k + 1 = x ∨ (k = x + 1 ∧ k < c.raw_path_size) :=
            ⟨s, List.mem_cons_self _ _, e2⟩
          rw [if_pos e2, if_pos this]
        · have : ¬ ∃ x ∈ s :: rest, k + 1 = x ∨ (k = x + 1 ∧ k < c.raw_path_size) := by
            rintro ⟨x, hx, hk⟩
            rcases List.mem_cons.mp hx with rfl | hx
            · exact e2 hk
            · exact e1 ⟨x, hx, hk⟩
          rw [if_neg e2, if_neg this]

theorem rewriteCurrent_nonneg (vm : VehicleModel) (hsp : SpeedsNonneg vm)
    (prev current next : State2D) : 0 ≤ (rewriteCurrent vm prev current next).v := by
  unfold rewriteCurrent
  split
  · split
    · exact hsp.1 _ _ _
    · exact hsp.2 _ _ _
  · exact le_refl _

theorem consolidateLoop_nonneg (vm : VehicleModel) (hsp : SpeedsNonneg vm) :
    ∀ (L : List State2D) (prev : State2D) (index : Nat) (c : StanleyController)
      (r : StanleyController × Nat × List State2D × State2D),
      consolidateLoop vm prev L index c = some r →
      (∀ p ∈ c.raw_path, 0 ≤ p.v) → ∀ p ∈ r.1.raw_path, 0 ≤ p.v := by
  intro L
  induction L with
  | nil => intro prev index c r h; simp [consolidateLoop] at h
  | cons current L' ih =>
    intro prev index c r h hc
    cases L' with
    | nil => simp [consolidateLoop] at h
    | cons next rest =>
      cases rest with
      | nil =>
        simp only [consolidateLoop, Option.some.injEq] at h
        rw [← h]
        exact hc
      | cons x rest' =>
        rw [consolidateLoop_step] at h
        split at h
        · cases h
        · rename_i c2 i2 t2 l2 hrec
          cases h
          refine ih _ _ _ (c2, i2, t2, l2) hrec ?_
          intro p hp
          have hp' : p ∈ (if current.gear = prev.gear then c
              else { c with stopping := c.stopping ++ [index] }).raw_path
              ++ [rewriteCurrent vm prev current next] := hp
          have hraw : (if current.gear = prev.gear then c
              else { c with stopping := c.stopping ++ [index] }).raw_path = c.raw_path := by
            split <;> rfl
          rw [hraw, List.mem_append, List.mem_singleton] at hp'
          rcases hp' with hp' | rfl
          · exact hc p hp'
          · exact rewriteCurrent_nonneg vm hsp prev current next

theorem consolidatePush_nonneg (vm : VehicleModel) (hsp : SpeedsNonneg vm)
    (c : StanleyController) (input out : List State2D) (c1 : StanleyController)
    (hin : ∀ s ∈ input, 0 ≤ s.v) (h : consolidatePush vm c input = some (out, c1)) :
    ∀ p ∈ c1.raw_path, 0 ≤ p.v := by
  cases input with
  | nil => simp [consolidatePush] at h
  | cons first tail =>
    simp only [consolidatePush] at h
    split at h
    · cases h
    · rename_i c2 index t2 last hrec
      cases h
      have h2 := consolidateLoop_nonneg vm hsp tail first 1 _ _ hrec (by
        intro p hp
        have : (consolidateFirst vm c first).raw_path = [first] := by
          unfold consolidateFirst; split <;> [skip; split] <;> rfl
        rw [this, List.mem_singleton] at hp
        rw [hp]
        exact hin first (List.mem_cons_self _ _))
      have hlast : last = tail.getLast?.getD first := by
        by_cases ht : 2 ≤ tail.length
        · obtain ⟨c', P, hrun, -⟩ :=
            consolidateLoop_spec vm tail first 1 (consolidateFirst vm c first) ht
          rw [hrec] at hrun
          simp only [Option.some.injEq, Prod.mk.injEq] at hrun
          exact hrun.2.2.2
        · exfalso
          match tail, ht, hrec with
          | [], _, hrec => simp [consolidateLoop] at hrec
          | [_], _, hrec => simp [consolidateLoop] at hrec
          | _ :: _ :: _, ht, _ => simp at ht
      intro p hp
      have hp' : p ∈ c2.raw_path ++ [last] := hp
      rw [List.mem_append, List.mem_singleton] at hp'
      rcases hp' with hp' | rfl
      · exact h2 p hp'
      · rw [hlast]
        cases hgl : tail.getLast? with
        | none => exact hin first (List.mem_cons_self _ _)
        | some l =>
          exact hin l (List.mem_cons_of_mem _ (List.mem_of_getLast?_eq_some hgl))

/-- C4, the code at the failing input: with gear changes at the indices 1 and
2 the loop of the consolidation writes `v = 0` at both cusps (line 222) and
pushes the goal at rest, so the stop indices 1, 2, 3 hold `v = 0`; the
low-speed update then writes `0.2` at the neighbours of every stop, stops
included, and every stop ends with `v = 0.2`.  On three forward states that
start and end at rest the terminal state, pushed with `v = 0`, ends with
`v = 0.2`; on three forward states with goal speed `1` it keeps `v = 1`. -/
theorem consolidate_speeds_overwritten :
    (consolidatePush unitVehicle newController zigzagPath5).map
        (fun r => (r.2.stopping, r.2.raw_path.map State2D.v))
      = some ([1, 2, 3], [1, 0, 0, 0]) ∧
    (ConsolidateStateList exactMath unitVehicle newController zigzagPath5).map
        (fun r => (r.2.2.stopping, r.2.2.raw_path_last_index, r.2.2.raw_path.map State2D.v))
      = some ([1, 2, 3], 3, [1 / 5, 1 / 5, 1 / 5, 1 / 5]) ∧
    (consolidatePush unitVehicle newController restPath3).map
        (fun r => (r.2.stopping, r.2.raw_path.map State2D.v))
      = some ([0, 1], [0, 0]) ∧
    (ConsolidateStateList exactMath unitVehicle newController restPath3).map
        (fun r => (r.2.2.stopping, r.2.2.raw_path_last_index, r.2.2.raw_path.map State2D.v))
      = some ([0, 1], 1, [1 / 5, 1 / 5]) ∧
    (ConsolidateStateList exactMath unitVehicle newController cruisePath3).map
        (fun r => (r.2.2.stopping, r.2.2.raw_path_last_index, r.2.2.raw_path.map State2D.v))
      = some ([1], 1, [1 / 5, 1]) := by
  refine ⟨?_, ?_, ?_, ?_, ?_⟩
  · simp [consolidatePush, consolidateLoop, consolidateFirst, consolidateLast, pushState,
      zigzagPath5, stateAt, newController, rewriteCurrent, unitVehicle]
  · simp [ConsolidateStateList, consolidatePush, consolidateLoop, consolidateFirst,
      consolidateLast, pushState, zigzagPath5, stateAt, UpdateLowSpeedRegions, lowSpeedStops,
      lowSpeedStop, lowSpeedLeft, lowSpeedRight, walkLeft, walkRight, writeV,
      writeComingToStop, newController, rewriteCurrent, unitVehicle, exactMath,
      Vector2D.Distance]
    norm_num
  · simp [consolidatePush, consolidateLoop, consolidateFirst, consolidateLast, pushState,
      restPath3, stateAt, newController, unitVehicle]
  · simp [ConsolidateStateList, consolidatePush, consolidateLoop, consolidateFirst,
      consolidateLast, pushState, restPath3, stateAt, UpdateLowSpeedRegions, lowSpeedStops,
      lowSpeedStop, lowSpeedLeft, lowSpeedRight, walkLeft, walkRight, writeV,
      writeComingToStop, newController]
    norm_num
  · simp [ConsolidateStateList, consolidatePush, consolidateLoop, consolidateFirst,
      consolidateLast, pushState, cruisePath3, stateAt, UpdateLowSpeedRegions, lowSpeedStops,
      lowSpeedStop, lowSpeedLeft, lowSpeedRight, walkLeft, walkRight, writeV,
      writeComingToStop, newController]
    norm_num

/-- How far the overwrite of the stop speeds goes when both walks stop at
their first test: for an input of `N ≥ 3` states with non-negative speeds and
a vehicle model whose speed functions are non-negative and whose constraint
functions never return less than their reference speed, the consolidation
returns and afterwards every raw state has `v ≥ 0`, a cusp index of
`stopping` keeps `v = 0` only when no stop index is next to it, and the
terminal raw state holds `0.2` when the index before it is a stop and the
goal speed `input[N-1].v` otherwise. -/
theorem consolidate_speeds (m : Libm) (vm : VehicleModel) (c : StanleyController)
    (input : List State2D) (h : 3 ≤ input.length)
    (hvm : ConstraintsAboveReference vm) (hsp : SpeedsNonneg vm)
    (hin : ∀ s ∈ input, 0 ≤ s.v) :
    ∃ (out : List State2D) (c' : StanleyController) (last : State2D),
      ConsolidateStateList m vm c input = some (true, out, c') ∧
      input[input.length - 1]? = some last ∧
      (∀ s ∈ c'.raw_path, 0 ≤ s.v) ∧
      (∀ s ∈ c'.stopping, 0 < s → s < c'.raw_path_last_index →
        s - 1 ∉ c'.stopping → s + 1 ∉ c'.stopping → speedAt c' s = some 0) ∧
      speedAt c' c'.raw_path_last_index
        = some (if c'.raw_path_last_index - 1 ∈ c'.stopping then 0.2 else last.v) := by
  obtain ⟨first, tail, rfl, ht⟩ := input_split input h
  obtain ⟨out, c1, c2, hpush, hupd, hf, hrun⟩ := ConsolidateStateList_run m vm c first tail ht
  obtain ⟨c1', P, hpush', hP, hraw, -, -, hstop, hsize, hlast, -, hcusp⟩ :=
    consolidatePush_spec vm c first tail ht
  rw [hpush] at hpush'
  cases hpush'
  obtain ⟨ha, hstops⟩ := consolidatePush_stops_lt vm c first tail ht hpush
  have hnn := consolidatePush_nonneg vm hsp c (first :: tail) _ c1 hin hpush
  have hst : c2.stopping = c1.stopping := by
    simpa using congrArg StanleyController.stopping hf.others
  have hli : c2.raw_path_last_index = tail.length - 1 := by
    rw [← hlast]
    simpa using congrArg StanleyController.raw_path_last_index hf.others
  have hspeed : ∀ k, speedAt c2 k =
      if (∃ s ∈ c1.stopping, k + 1 = s ∨ (k = s + 1 ∧ k < c1.raw_path_size)) then some 0.2
      else speedAt c1 k :=
    fun k => lowSpeedStops_speedAt m vm hvm k c1.stopping c1 c2 hupd
  have hne : tail ≠ [] := by
    intro e; rw [e] at ht; simp at ht
  have hgl : tail.getLast? = some (tail.getLast hne) := List.getLast?_eq_getLast _ hne
  have hinl : (first :: tail)[(first :: tail).length - 1]? = some (tail.getLast hne) := by
    have e : (first :: tail).length - 1 = (tail.length - 1) + 1 := by
      simp only [List.length_cons]; omega
    rw [e, List.getElem?_cons_succ, ← List.getLast?_eq_getElem?, hgl]
  have hc1last : c1.raw_path[tail.length - 1]? = some (tail.getLast hne) := by
    have e : tail.length - 1 = P.length + 1 := by omega
    rw [hraw, e, List.getElem?_cons_succ, hgl,
      List.getElem?_append_right (Nat.le_refl _)]
    simp
  refine ⟨_, _, tail.getLast hne, hrun, hinl, ?_, ?_, ?_⟩
  · intro s hs
    have hs2 : s ∈ c2.raw_path := hs
    obtain ⟨k, hk, rfl⟩ := List.getElem_of_mem hs2
    have h1 := hspeed k
    simp only [speedAt, List.getElem?_eq_getElem hk, Option.map_some'] at h1
    split at h1
    · simp only [Option.some.injEq] at h1
      rw [h1]; norm_num
    · have hk1 : k < c1.raw_path.length := by
        have := congrArg List.length hf.raw
        simp only [List.length_map] at this
        omega
      simp only [List.getElem?_eq_getElem hk1, Option.map_some', Option.some.injEq] at h1
      rw [h1]
      exact hnn _ (List.getElem_mem _)
  · intro s hs hpos hlt hprev hnext
    have hs1 : s ∈ c1.stopping := hst ▸ hs
    have hlt' : s < tail.length - 1 := hli ▸ hlt
    have hprev' : s - 1 ∉ c1.stopping := hst ▸ hprev
    have hnext' : s + 1 ∉ c1.stopping := hst ▸ hnext
    have hmem : s ∈ cuspsFrom first.gear (tail.map State2D.gear) 1 := by
      rw [hstop] at hs1
      simp only [List.mem_append, List.mem_singleton] at hs1
      rcases hs1 with (h0 | h0) | h0
      · split at h0
        · simp only [List.mem_singleton] at h0; omega
        · simp at h0
      · exact h0
      · omega
    obtain ⟨p, hp, hv⟩ := hcusp s hmem
    show speedAt c2 s = some 0
    rw [hspeed s, if_neg]
    · simp only [speedAt, hp, Option.map_some', hv]
    · rintro ⟨x, hx, hadj | ⟨hadj, -⟩⟩
      · exact hnext' (hadj ▸ hx)
      · apply hprev'
        have : s - 1 = x := by omega
        rw [this]; exact hx
  · show speedAt c2 c2.raw_path_last_index = _
    rw [hli, hspeed]
    have hiff : (∃ s ∈ c1.stopping, tail.length - 1 + 1 = s ∨
        (tail.length - 1 = s + 1 ∧ tail.length - 1 < c1.raw_path_size))
        ↔ tail.length - 1 - 1 ∈ c2.stopping := by
      rw [hst]
      constructor
      · rintro ⟨x, hx, hadj | ⟨hadj, -⟩⟩
        · have := hstops x hx; omega
        · have : tail.length - 1 - 1 = x := by omega
          rw [this]; exact hx
      · intro hx
        exact ⟨_, hx, Or.inr ⟨by omega, by omega⟩⟩
    by_cases hx : tail.length - 1 - 1 ∈ c2.stopping
    · rw [if_pos (hiff.mpr hx)]
      simp only [Option.some.injEq]
      exact (if_pos hx).symm
    · rw [if_neg (fun e => hx (hiff.mp e))]
      simp only [speedAt, hc1last, Option.map_some', Option.some.injEq]
      exact (if_neg hx).symm

theorem consolidate_speeds_witness :
    3 ≤ cuspPath6.length ∧ ConstraintsAboveReference unitVehicle ∧ SpeedsNonneg unitVehicle ∧
    (∀ s ∈ cuspPath6, 0 ≤ s.v) ∧
    ∃ (out : List State2D) (c' : StanleyController) (last : State2D),
      ConsolidateStateList exactMath unitVehicle newController cuspPath6
        = some (true, out, c') ∧
      cuspPath6[cuspPath6.length - 1]? = some last ∧
      (∀ s ∈ c'.raw_path, 0 ≤ s.v) ∧
      (∀ s ∈ c'.stopping, 0 < s → s < c'.raw_path_last_index →
        s - 1 ∉ c'.stopping → s + 1 ∉ c'.stopping → speedAt c' s = some 0) ∧
      speedAt c' c'.raw_path_last_index
        = some (if c'.raw_path_last_index - 1 ∈ c'.stopping then 0.2 else last.v) :=
  have h1 : ConstraintsAboveReference unitVehicle :=
    ⟨fun _ _ _ => le_refl _, fun _ _ _ => le_refl _⟩
  have h2 : SpeedsNonneg unitVehicle := ⟨fun _ _ _ => abs_nonneg _, fun _ _ _ => abs_nonneg _⟩
  have h3 : ∀ s ∈ cuspPath6, 0 ≤ s.v := by
    simp [cuspPath6, stateAt]
  ⟨by decide, h1, h2, h3,
    consolidate_speeds exactMath unitVehicle newController cuspPath6 (by decide) h1 h2 h3⟩

/-! ## Inputs of fewer than three states -/

/-- C5, the code at the failing input: for a one-state path the consolidation
does not report failure; it moves its iterators beyond `input.end()`
(line 155) and has no result, and so have `BuildAndFollowPath` and
`RebuildCommandList`, which call it unguarded; only the empty path given to
`BuildAndFollowPath` clears `consolidated_path` and keeps `cs`. -/
theorem consolidate_singleton (m : Libm) (vm : VehicleModel) (u : Uninitialised)
    (c : StanleyController) (s start : State2D) :
    ConsolidateStateList m vm c [s] = none ∧
    ConsolidateStateList m vm c [] = none ∧
    BuildAndFollowPath m vm c [s] = none ∧
    RebuildCommandList m vm u c start [s] = none ∧
    RebuildCommandList m vm u c start [] = none ∧
    BuildAndFollowPath m vm c [] = some ([], { c with consolidated_path := false }) := by
  simp [ConsolidateStateList, consolidatePush, consolidateLoop, BuildAndFollowPath,
    RebuildCommandList]

/-- C6, the code at the failing input: for a two-state path the loop test
`next != last` (line 194) is true with `next` at `input.end()`, the body
reads outside the input, and the consolidation has no result. -/
theorem consolidate_pair (m : Libm) (vm : VehicleModel) (c : StanleyController)
    (a b : State2D) :
    ConsolidateStateList m vm c [a, b] = none ∧ BuildAndFollowPath m vm c [a, b] = none := by
  simp [ConsolidateStateList, consolidatePush, consolidateLoop, BuildAndFollowPath]

/-! ## The drivers -/

theorem driveCommand_time (c : StanleyController) (s : State2D) (next_index : Nat)
    (coming_to_stop : Bool) (how_far steer dv : ℚ) :
    (driveCommand c s next_index coming_to_stop how_far steer dv).1.t = c.dt := by
  unfold driveCommand
  split
  · dsimp only
    split <;> rfl
  · rfl

theorem driveStep_time (m : Libm) (vm : VehicleModel) (c : StanleyController) (s : State2D)
    (next_index : Nat) (reverse_mode : Bool) (prev next : State2D) (heading : Vector2D)
    (next_heading : ℚ) :
    (driveStep m vm c s next_index reverse_mode prev next heading next_heading).1.t = c.dt := by
  unfold driveStep
  dsimp only
  rw [driveCommand_time]

theorem ForwardDrive_time (m : Libm) (vm : VehicleModel) (c : StanleyController)
    (s : State2D) :
    (ForwardDrive m vm c s).map (fun r => r.1.t) = (ForwardDrive m vm c s).map (fun _ => c.dt) := by
  unfold ForwardDrive
  split
  · rfl
  · dsimp only
    split
    · rfl
    · split
      · split
        · simp only [Option.map_some', driveStep_time]
        · rfl
      · rfl

theorem stoppedStep_time (m : Libm) (vm : VehicleModel) (u : Uninitialised)
    (c : StanleyController) (s : State2D) (reverse_mode : Bool) (prev next : State2D) :
    (stoppedStep m vm u c s reverse_mode prev next).1.t = c.dt := by
  cases reverse_mode <;> unfold stoppedStep <;> dsimp only <;> split_ifs <;> rfl

theorem Stopped_time (m : Libm) (vm : VehicleModel) (u : Uninitialised)
    (c : StanleyController) (s : State2D) :
    (Stopped m vm u c s).map (fun r => r.1.t) = (Stopped m vm u c s).map (fun _ => c.dt) := by
  unfold Stopped
  split
  · rfl
  · dsimp only
    split
    · simp only [Option.map_some', stoppedStep_time]
    · rfl

/-- C7, the code at the failing input: for a three-state path
`BuildAndFollowPath` returns the three states of the input path, whatever
the controller and the vehicle model, and no handler runs; a command of
`Stopped` or `ForwardDrive` has `t = dt`, which the states of the input need
not have.  For the empty path the result is the empty list and
`consolidated_path` is cleared. -/
theorem buildAndFollow_returns_input (m : Libm) (vm : VehicleModel) (u : Uninitialised)
    (c : StanleyController) (a b d s : State2D) :
    (BuildAndFollowPath m vm c [a, b, d]).map Prod.fst = some [a, b, d] ∧
    (Stopped m vm u c s).map (fun r => r.1.t) = (Stopped m vm u c s).map (fun _ => c.dt) ∧
    (ForwardDrive m vm c s).map (fun r => r.1.t)
      = (ForwardDrive m vm c s).map (fun _ => c.dt) ∧
    BuildAndFollowPath m vm c [] = some ([], { c with consolidated_path := false }) := by
  refine ⟨?_, Stopped_time m vm u c s, ForwardDrive_time m vm c s, ?_⟩
  · obtain ⟨out, c1, c2, hpush, -, -, hrun⟩ :=
      ConsolidateStateList_run m vm c a [b, d] (by simp)
    have hout : out = [a, b, d] := by
      simp only [consolidatePush, consolidateLoop, Option.some.injEq, Prod.mk.injEq] at hpush
      exact hpush.1.symm
    simp only [BuildAndFollowPath, List.length_cons, List.length_nil, hrun, hout,
      FollowPathSimulation]
    simp
  · simp [BuildAndFollowPath]

theorem getCommandLoop_nonempty (m : Libm) (vm : VehicleModel) (u : Uninitialised)
    (fuel : Nat) (c : StanleyController) (cmd : State2D) :
    getCommandLoop m vm u (fuel + 1) c [cmd] = some ([cmd], c) := by
  simp [getCommandLoop]

theorem getCommandLoop_handler (m : Libm) (vm : VehicleModel) (u : Uninitialised)
    (fuel : Nat) (c : StanleyController) (h1 : c.cs ≠ ControllerState.CSComplete)
    (h2 : c.cs ≠ ControllerState.CSStandby) :
    getCommandLoop m vm u (fuel + 2) c [] =
      (handlerTick m vm u c).map (fun r => ([r.1], { r.2 with car := vm.NextState r.1 })) := by
  unfold handlerTick
  cases hcs : c.cs with
  | CSStandby => exact absurd hcs h2
  | CSComplete => exact absurd hcs h1
  | CSStopped =>
    conv_lhs => unfold getCommandLoop
    simp only [hcs, ne_eq, reduceCtorEq, not_false_eq_true, and_self, if_true]
    cases Stopped m vm u c c.car with
    | none => rfl
    | some r => simp [getCommandLoop_nonempty]
  | CSForwardDrive =>
    conv_lhs => unfold getCommandLoop
    simp only [hcs, ne_eq, reduceCtorEq, not_false_eq_true, and_self, if_true]
    cases ForwardDrive m vm c c.car with
    | none => rfl
    | some r => simp [getCommandLoop_nonempty]
  | CSReverseDrive =>
    conv_lhs => unfold getCommandLoop
    simp only [hcs, ne_eq, reduceCtorEq, not_false_eq_true, and_self, if_true]
    cases ForwardDrive m vm c c.car with
    | none => rfl
    | some r => simp [getCommandLoop_nonempty]

theorem getCommandLoop_standby (m : Libm) (vm : VehicleModel) (u : Uninitialised)
    (fuel : Nat) (c : StanleyController) (h : c.cs = ControllerState.CSStandby) :
    getCommandLoop m vm u (fuel + 1) c [] =
      getCommandLoop m vm u fuel { c with cs := ControllerState.CSStopped } [] := by
  conv_lhs => unfold getCommandLoop
  simp only [h, ne_eq, reduceCtorEq, not_false_eq_true, and_self, if_true]

theorem getCommandLoop_complete (m : Libm) (vm : VehicleModel) (u : Uninitialised)
    (fuel : Nat) (c : StanleyController) (h : c.cs = ControllerState.CSComplete) :
    getCommandLoop m vm u (fuel + 1) c [] = some ([], c) := by
  conv_lhs => unfold getCommandLoop
  simp only [h, ne_eq, not_true_eq_false, false_and, if_false]

theorem getCommandLoop_value (m : Libm) (vm : VehicleModel) (u : Uninitialised)
    (c : StanleyController) (fuel : Nat) :
    getCommandLoop m vm u (fuel + 3) c [] =
      if c.cs = ControllerState.CSComplete then some ([], c)
      else (handlerTick m vm u c).map
        (fun r => ([r.1], { r.2 with car := vm.NextState r.1 })) := by
  by_cases h1 : c.cs = ControllerState.CSComplete
  · rw [if_pos h1, getCommandLoop_complete m vm u _ c h1]
  · rw [if_neg h1]
    by_cases h2 : c.cs = ControllerState.CSStandby
    · rw [getCommandLoop_standby m vm u _ c h2, getCommandLoop_handler m vm u fuel _
        (by simp) (by simp)]
      simp only [handlerTick, h2]
    · exact getCommandLoop_handler m vm u (fuel + 1) c h1 h2

theorem getCommandLoop_fuel (m : Libm) (vm : VehicleModel) (u : Uninitialised)
    (c : StanleyController) (fuel : Nat) :
    getCommandLoop m vm u (fuel + 3) c [] = getCommandLoop m vm u 3 c [] := by
  rw [getCommandLoop_value, getCommandLoop_value m vm u c 0]

/-! ## The handler `Stopped` -/

theorem Stopped_eq (m : Libm) (vm : VehicleModel) (u : Uninitialised)
    (c : StanleyController) (s at_prev prev next : State2D)
    (hraw : c.raw_path[c.prev_waypoint]? = some at_prev)
    (hnext : (if decide (Gear.BackwardGear = at_prev.gear) = true then c.reverse_path
      else c.forward_path)[c.next_waypoint]? = some next)
    (hprev : (if decide (Gear.BackwardGear = at_prev.gear) = true then c.reverse_path
      else c.forward_path)[c.prev_waypoint]? = some prev) :
    Stopped m vm u c s
      = some (stoppedStep m vm u c s (decide (Gear.BackwardGear = at_prev.gear)) prev next) := by
  simp only [Stopped, hraw, hnext, hprev]

theorem stoppedStep_release (m : Libm) (vm : VehicleModel) (u : Uninitialised)
    (c : StanleyController) (s prev next : State2D) (reverse_mode : Bool)
    (hnt : ¬ (c.raw_path_last_index = c.next_waypoint ∧
      c.raw_path_last_index = c.prev_waypoint))
    (hrel : releaseCondition m vm s prev next) :
    (stoppedStep m vm u c s reverse_mode prev next).2.cs = ControllerState.CSForwardDrive ∧
    (stoppedStep m vm u c s reverse_mode prev next).2.prev_wheel_angle_error = 0 := by
  have ht : decide (c.raw_path_last_index = c.next_waypoint ∧
      c.raw_path_last_index = c.prev_waypoint) = false := decide_eq_false hnt
  unfold releaseCondition at hrel
  unfold stoppedStep
  simp only [ht, Bool.false_eq_true, if_false]
  rw [decide_eq_true hrel]
  cases reverse_mode <;> simp

theorem stoppedStep_hold (m : Libm) (vm : VehicleModel) (u : Uninitialised)
    (c : StanleyController) (s prev next : State2D) (reverse_mode : Bool)
    (hnt : ¬ (c.raw_path_last_index = c.next_waypoint ∧
      c.raw_path_last_index = c.prev_waypoint))
    (hrel : ¬ releaseCondition m vm s prev next) :
    (stoppedStep m vm u c s reverse_mode prev next).2 = c := by
  have ht : decide (c.raw_path_last_index = c.next_waypoint ∧
      c.raw_path_last_index = c.prev_waypoint) = false := decide_eq_false hnt
  unfold releaseCondition at hrel
  unfold stoppedStep
  simp only [ht, Bool.false_eq_true, if_false]
  rw [decide_eq_false hrel]
  simp

theorem abs_half : |(1 : ℚ) / 2| = 1 / 2 := abs_of_pos (by norm_num)

/-- C9, the code at the failing input: with the cursor at the last index of
the path and the car at rest on it with heading and steering `0`, the tick
of `Stopped` leaves `cs = CSStopped` when the unassigned local
`desired_heading` holds `1`, and sets `CSComplete` when it holds `0`. -/
theorem stopped_terminal_uninitialised :
    (Stopped exactMath unitVehicle ⟨1, 0⟩ (stoppedController Gear.ForwardGear 1 1)
        (carAt 2 0 0)).map (fun r => r.2.cs) = some ControllerState.CSStopped ∧
    (Stopped exactMath unitVehicle ⟨0, 0⟩ (stoppedController Gear.ForwardGear 1 1)
        (carAt 2 0 0)).map (fun r => r.2.cs) = some ControllerState.CSComplete := by
  constructor
  · rw [Stopped_eq exactMath unitVehicle ⟨1, 0⟩ (stoppedController Gear.ForwardGear 1 1)
      (carAt 2 0 0) (stateAt 2 Gear.ForwardGear 0) (stateAt 3 Gear.ForwardGear 0)
      (stateAt 3 Gear.ForwardGear 0) rfl rfl rfl]
    simp only [stoppedStep, stoppedController, newController, stateAt, carAt,
      exactMath, unitVehicle, Option.map_some']
    norm_num [abs_half]
  · rw [Stopped_eq exactMath unitVehicle ⟨0, 0⟩ (stoppedController Gear.ForwardGear 1 1)
      (carAt 2 0 0) (stateAt 2 Gear.ForwardGear 0) (stateAt 3 Gear.ForwardGear 0)
      (stateAt 3 Gear.ForwardGear 0) rfl rfl rfl]
    simp only [stoppedStep, stoppedController, newController, stateAt, carAt,
      exactMath, unitVehicle, Option.map_some']
    norm_num [abs_half]

/-- C10, against the claim as stated: on a segment whose gear is
`BackwardGear`, with the release condition true (the heading error is `0`),
the tick of `Stopped` sets `cs = CSForwardDrive`, not `CSReverseDrive`. -/
theorem stopped_release_counterexample :
    ((stoppedController Gear.BackwardGear 0 1).raw_path[0]?).map State2D.gear
      = some Gear.BackwardGear ∧
    releaseCondition exactMath unitVehicle (carAt 1 0 0)
      (stateAt (-1) Gear.BackwardGear 0.2) (stateAt 1 Gear.BackwardGear 0) ∧
    (Stopped exactMath unitVehicle ⟨0, 0⟩ (stoppedController Gear.BackwardGear 0 1)
        (carAt 1 0 0)).map (fun r => r.2.cs) = some ControllerState.CSForwardDrive := by
  refine ⟨by simp [stoppedController, stateAt], ?_, ?_⟩
  · simp only [releaseCondition, stateAt, carAt, exactMath, unitVehicle]
    norm_num [abs_half]
  · rw [Stopped_eq exactMath unitVehicle ⟨0, 0⟩ (stoppedController Gear.BackwardGear 0 1)
      (carAt 1 0 0) (stateAt 0 Gear.BackwardGear 0.2) (stateAt (-1) Gear.BackwardGear 0.2)
      (stateAt 1 Gear.BackwardGear 0) rfl rfl rfl]
    simp only [stoppedStep, stoppedController, newController, stateAt, carAt,
      exactMath, unitVehicle, Option.map_some']
    norm_num [abs_half]

/-- C10 (as the code has it): on a tick of `Stopped` that is not the terminal
one and whose reads are inside the paths, if the release condition holds
then `cs` becomes `CSForwardDrive` (whatever the gear of the segment) and
`prev_wheel_angle_error` becomes `0`; if it does not hold the controller is
left as it was, so `cs` stays `CSStopped`. -/
theorem stopped_release (m : Libm) (vm : VehicleModel) (u : Uninitialised)
    (c : StanleyController) (s at_prev prev next : State2D)
    (hraw : c.raw_path[c.prev_waypoint]? = some at_prev)
    (hnext : (if decide (Gear.BackwardGear = at_prev.gear) = true then c.reverse_path
      else c.forward_path)[c.next_waypoint]? = some next)
    (hprev : (if decide (Gear.BackwardGear = at_prev.gear) = true then c.reverse_path
      else c.forward_path)[c.prev_waypoint]? = some prev)
    (hnt : ¬ (c.raw_path_last_index = c.next_waypoint ∧
      c.raw_path_last_index = c.prev_waypoint)) :
    ∃ (cmd : State2D) (c' : StanleyController),
      Stopped m vm u c s = some (cmd, c') ∧
      (releaseCondition m vm s prev next →
        c'.cs = ControllerState.CSForwardDrive ∧ c'.prev_wheel_angle_error = 0) ∧
      (¬ releaseCondition m vm s prev next → c' = c) :=
  ⟨(stoppedStep m vm u c s (decide (Gear.BackwardGear = at_prev.gear)) prev next).1,
    (stoppedStep m vm u c s (decide (Gear.BackwardGear = at_prev.gear)) prev next).2,
    Stopped_eq m vm u c s at_prev prev next hraw hnext hprev,
    stoppedStep_release m vm u c s prev next _ hnt,
    stoppedStep_hold m vm u c s prev next _ hnt⟩

theorem stopped_release_witness :
    (stoppedController Gear.ForwardGear 0 1).raw_path[
        (stoppedController Gear.ForwardGear 0 1).prev_waypoint]?
      = some (stateAt 0 Gear.ForwardGear 0.2) ∧
    ¬ ((stoppedController Gear.ForwardGear 0 1).raw_path_last_index
        = (stoppedController Gear.ForwardGear 0 1).next_waypoint ∧
      (stoppedController Gear.ForwardGear 0 1).raw_path_last_index
        = (stoppedController Gear.ForwardGear 0 1).prev_waypoint) ∧
    releaseCondition exactMath unitVehicle (carAt 0 (-1) (1 / 2))
      (stateAt 1 Gear.ForwardGear 0.2) (stateAt 3 Gear.ForwardGear 0) ∧
    ∃ (cmd : State2D) (c' : StanleyController),
      Stopped exactMath unitVehicle ⟨0, 0⟩ (stoppedController Gear.ForwardGear 0 1)
        (carAt 0 (-1) (1 / 2)) = some (cmd, c') ∧
      (releaseCondition exactMath unitVehicle (carAt 0 (-1) (1 / 2))
          (stateAt 1 Gear.ForwardGear 0.2) (stateAt 3 Gear.ForwardGear 0) →
        c'.cs = ControllerState.CSForwardDrive ∧ c'.prev_wheel_angle_error = 0) ∧
      (¬ releaseCondition exactMath unitVehicle (carAt 0 (-1) (1 / 2))
          (stateAt 1 Gear.ForwardGear 0.2) (stateAt 3 Gear.ForwardGear 0) →
        c' = stoppedController Gear.ForwardGear 0 1) :=
  have h1 : (stoppedController Gear.ForwardGear 0 1).raw_path[
      (stoppedController Gear.ForwardGear 0 1).prev_waypoint]?
      = some (stateAt 0 Gear.ForwardGear 0.2) := rfl
  have h2 : ¬ ((stoppedController Gear.ForwardGear 0 1).raw_path_last_index
        = (stoppedController Gear.ForwardGear 0 1).next_waypoint ∧
      (stoppedController Gear.ForwardGear 0 1).raw_path_last_index
        = (stoppedController Gear.ForwardGear 0 1).prev_waypoint) := by
    simp [stoppedController]
  have h3 : releaseCondition exactMath unitVehicle (carAt 0 (-1) (1 / 2))
      (stateAt 1 Gear.ForwardGear 0.2) (stateAt 3 Gear.ForwardGear 0) := by
    simp only [releaseCondition, stateAt, carAt, exactMath, unitVehicle]
    norm_num [abs_half]
  ⟨h1, h2, h3,
    stopped_release exactMath unitVehicle ⟨0, 0⟩ (stoppedController Gear.ForwardGear 0 1)
      (carAt 0 (-1) (1 / 2)) (stateAt 0 Gear.ForwardGear 0.2)
      (stateAt 1 Gear.ForwardGear 0.2) (stateAt 3 Gear.ForwardGear 0) h1 rfl rfl h2⟩

/-! ## The handler `ForwardDrive` -/

theorem ForwardDrive_eq (m : Libm) (vm : VehicleModel) (c : StanleyController)
    (s at_prev prev next : State2D) (prev_index next_index : Nat) (heading : Vector2D)
    (next_heading : ℚ)
    (hloc : Localize m c s = some (prev_index, next_index))
    (hraw : c.raw_path[prev_index]? = some at_prev)
    (hnext : (if decide (Gear.BackwardGear = at_prev.gear) = true then c.reverse_path
      else c.forward_path)[next_index]? = some next)
    (hprev : (if decide (Gear.BackwardGear = at_prev.gear) = true then c.reverse_path
      else c.forward_path)[prev_index]? = some prev)
    (hhead : (if 0 < prev_index then
        ((if decide (Gear.BackwardGear = at_prev.gear) = true then c.reverse_path
          else c.forward_path)[prev_index - 1]?).map
          (fun p => Vector2D.sub next.position p.position)
      else some (Vector2D.sub next.position prev.position)) = some heading)
    (hnh : (if (0 : ℚ) = next.v then
        some (next.orientation
          + (if decide (Gear.BackwardGear = at_prev.gear) = true then m.M_PI else 0))
      else
        ((if decide (Gear.BackwardGear = at_prev.gear) = true then c.reverse_path
          else c.forward_path)[next_index + 1]?).map (fun p =>
            m.atan2 (Vector2D.sub p.position prev.position).y
              (Vector2D.sub p.position prev.position).x)) = some next_heading) :
    ForwardDrive m vm c s
      = some (driveStep m vm
          { c with prev_waypoint := prev_index, next_waypoint := next_index,
                   reverse_mode := decide (Gear.BackwardGear = at_prev.gear) }
          s next_index (decide (Gear.BackwardGear = at_prev.gear)) prev next heading
          next_heading) := by
  simp only [ForwardDrive, hloc, hraw, hnext, hprev, hhead, hnh]

theorem driveCommand_stop (c : StanleyController) (s : State2D) (next_index : Nat)
    (how_far steer dv : ℚ) (h : (0.95 : ℚ) ≤ how_far) :
    (driveCommand c s next_index true how_far steer dv).2.cs = ControllerState.CSStopped ∧
    (driveCommand c s next_index true how_far steer dv).2.last_cusp = next_index ∧
    (driveCommand c s next_index true how_far steer dv).1.v = 0 ∧
    (driveCommand c s next_index true how_far steer dv).1.t = c.dt ∧
    ((driveCommand c s next_index true how_far steer dv).2.prev_waypoint,
      (driveCommand c s next_index true how_far steer dv).2.next_waypoint)
      = (if next_index < c.raw_path_last_index then (c.prev_waypoint + 1, c.next_waypoint + 1)
         else (c.raw_path_last_index, c.raw_path_last_index)) := by
  unfold driveCommand
  rw [if_pos ⟨rfl, h⟩]
  dsimp only
  split <;> exact ⟨rfl, rfl, rfl, rfl, rfl⟩

theorem driveCommand_go (c : StanleyController) (s : State2D) (next_index : Nat)
    (coming_to_stop : Bool) (how_far steer dv : ℚ)
    (h : ¬ (coming_to_stop = true ∧ (0.95 : ℚ) ≤ how_far)) :
    driveCommand c s next_index coming_to_stop how_far steer dv
      = ({ s with v := s.v + milli dv, phi := steer, t := c.dt }, c) := by
  unfold driveCommand
  rw [if_neg h]

/-- C11: on a tick of `ForwardDrive` (and of `ReverseDrive`, the same
function) whose reads are inside the paths, with `(prev_i, next_i)` the
bracket of `Localize` and `how_far` the clamped `HowFarAlong`: if
`the_path[next_i].v = 0` and `how_far ≥ 0.95` then afterwards
`cs = CSStopped`, `last_cusp = next_i`, the command has `v = 0` and `t = dt`,
and the waypoints are `(prev_i + 1, next_i + 1)` when
`next_i < raw_path_last_index` and `(raw_path_last_index,
raw_path_last_index)` otherwise; in every other tick `cs` and `last_cusp`
are unchanged and the waypoints are `(prev_i, next_i)`. -/
theorem forwardDrive_stop_trigger (m : Libm) (vm : VehicleModel) (c : StanleyController)
    (s at_prev prev next : State2D) (prev_i next_i : Nat) (heading : Vector2D)
    (next_heading : ℚ)
    (hloc : Localize m c s = some (prev_i, next_i))
    (hraw : c.raw_path[prev_i]? = some at_prev)
    (hnext : (if decide (Gear.BackwardGear = at_prev.gear) = true then c.reverse_path
      else c.forward_path)[next_i]? = some next)
    (hprev : (if decide (Gear.BackwardGear = at_prev.gear) = true then c.reverse_path
      else c.forward_path)[prev_i]? = some prev)
    (hhead : (if 0 < prev_i then
        ((if decide (Gear.BackwardGear = at_prev.gear) = true then c.reverse_path
          else c.forward_path)[prev_i - 1]?).map
          (fun p => Vector2D.sub next.position p.position)
      else some (Vector2D.sub next.position prev.position)) = some heading)
    (hnh : (if (0 : ℚ) = next.v then
        some (next.orientation
          + (if decide (Gear.BackwardGear = at_prev.gear) = true then m.M_PI else 0))
      else
        ((if decide (Gear.BackwardGear = at_prev.gear) = true then c.reverse_path
          else c.forward_path)[next_i + 1]?).map (fun p =>
            m.atan2 (Vector2D.sub p.position prev.position).y
              (Vector2D.sub p.position prev.position).x)) = some next_heading) :
    ∃ (cmd : State2D) (c' : StanleyController),
      ForwardDrive m vm c s = some (cmd, c') ∧ ReverseDrive m vm c s = some (cmd, c') ∧
      (next.v = 0 ∧ (0.95 : ℚ) ≤ min (max 0 (HowFarAlong s prev next)) 1 →
        c'.cs = ControllerState.CSStopped ∧ c'.last_cusp = next_i ∧
        cmd.v = 0 ∧ cmd.t = c.dt ∧
        (c'.prev_waypoint, c'.next_waypoint)
          = (if next_i < c.raw_path_last_index then (prev_i + 1, next_i + 1)
             else (c.raw_path_last_index, c.raw_path_last_index))) ∧
      (¬ (next.v = 0 ∧ (0.95 : ℚ) ≤ min (max 0 (HowFarAlong s prev next)) 1) →
        c'.cs = c.cs ∧ c'.last_cusp = c.last_cusp ∧
        (c'.prev_waypoint, c'.next_waypoint) = (prev_i, next_i)) := by
  have hrun := ForwardDrive_eq m vm c s at_prev prev next prev_i next_i heading next_heading
    hloc hraw hnext hprev hhead hnh
  refine ⟨(driveStep m vm
      { c with prev_waypoint := prev_i, next_waypoint := next_i,
               reverse_mode := decide (Gear.BackwardGear = at_prev.gear) }
      s next_i (decide (Gear.BackwardGear = at_prev.gear)) prev next heading next_heading).1,
    (driveStep m vm
      { c with prev_waypoint := prev_i, next_waypoint := next_i,
               reverse_mode := decide (Gear.BackwardGear = at_prev.gear) }
      s next_i (decide (Gear.BackwardGear = at_prev.gear)) prev next heading next_heading).2,
    hrun, hrun, ?_, ?_⟩
  · rintro ⟨hv, hfar⟩
    have hd : decide (0 = next.v) = true := decide_eq_true hv.symm
    unfold driveStep
    dsimp only
    rw [hd]
    exact driveCommand_stop _ s next_i _ _ _ hfar
  · intro hno
    have hno' : ¬ (decide (0 = next.v) = true ∧
        (0.95 : ℚ) ≤ min (max 0 (HowFarAlong s prev next)) 1) := by
      rintro ⟨h1, h2⟩
      exact hno ⟨(of_decide_eq_true h1).symm, h2⟩
    unfold driveStep
    dsimp only
    rw [driveCommand_go _ s next_i _ _ _ _ hno']
    exact ⟨rfl, rfl, rfl⟩

theorem forwardDrive_stop_trigger_witness :
    Localize exactMath drivingController (carAt 2.92 0 0) = some (0, 1) ∧
    drivingController.forward_path[1]? = some (stateAt 3 Gear.ForwardGear 0) ∧
    drivingController.forward_path[0]? = some (stateAt 1 Gear.ForwardGear 0.2) ∧
    min (max 0 (HowFarAlong (carAt 2.92 0 0) (stateAt 1 Gear.ForwardGear 0.2)
      (stateAt 3 Gear.ForwardGear 0))) 1 = 0.96 ∧
    ∃ (cmd : State2D) (c' : StanleyController),
      ForwardDrive exactMath unitVehicle drivingController (carAt 2.92 0 0) = some (cmd, c') ∧
      ReverseDrive exactMath unitVehicle drivingController (carAt 2.92 0 0) = some (cmd, c') ∧
      ((stateAt 3 Gear.ForwardGear 0).v = 0 ∧
        (0.95 : ℚ) ≤ min (max 0 (HowFarAlong (carAt 2.92 0 0) (stateAt 1 Gear.ForwardGear 0.2)
          (stateAt 3 Gear.ForwardGear 0))) 1 →
        c'.cs = ControllerState.CSStopped ∧ c'.last_cusp = 1 ∧
        cmd.v = 0 ∧ cmd.t = drivingController.dt ∧
        (c'.prev_waypoint, c'.next_waypoint)
          = (if 1 < drivingController.raw_path_last_index then (0 + 1, 1 + 1)
             else (drivingController.raw_path_last_index,
               drivingController.raw_path_last_index))) ∧
      (¬ ((stateAt 3 Gear.ForwardGear 0).v = 0 ∧
        (0.95 : ℚ) ≤ min (max 0 (HowFarAlong (carAt 2.92 0 0) (stateAt 1 Gear.ForwardGear 0.2)
          (stateAt 3 Gear.ForwardGear 0))) 1) →
        c'.cs = drivingController.cs ∧ c'.last_cusp = drivingController.last_cusp ∧
        (c'.prev_waypoint, c'.next_waypoint) = (0, 1)) :=
  have hloc : Localize exactMath drivingController (carAt 2.92 0 0) = some (0, 1) := by
    simp [Localize, localizeScan, toUnsigned, drivingController, stoppedController,
      newController]
  have hfar : min (max 0 (HowFarAlong (carAt 2.92 0 0) (stateAt 1 Gear.ForwardGear 0.2)
      (stateAt 3 Gear.ForwardGear 0))) 1 = 0.96 := by
    simp only [HowFarAlong, Vector2D.sub, carAt, stateAt]
    norm_num
  ⟨hloc, rfl, rfl, hfar,
    forwardDrive_stop_trigger exactMath unitVehicle drivingController (carAt 2.92 0 0)
      (stateAt 0 Gear.ForwardGear 0.2) (stateAt 1 Gear.ForwardGear 0.2)
      (stateAt 3 Gear.ForwardGear 0) 0 1
      (Vector2D.sub (stateAt 3 Gear.ForwardGear 0).position
        (stateAt 1 Gear.ForwardGear 0.2).position)
      ((stateAt 3 Gear.ForwardGear 0).orientation + 0)
      hloc rfl rfl rfl rfl (by simp [stateAt])⟩

theorem driveCommand_vpasterror (c : StanleyController) (s : State2D) (next_index : Nat)
    (coming_to_stop : Bool) (how_far steer dv : ℚ) :
    (driveCommand c s next_index coming_to_stop how_far steer dv).2.vpasterror
      = c.vpasterror := by
  unfold driveCommand
  split
  · dsimp only
    split <;> rfl
  · rfl

theorem driveStep_vpasterror (m : Libm) (vm : VehicleModel) (c : StanleyController)
    (s : State2D) (next_index : Nat) (reverse_mode : Bool) (prev next : State2D)
    (heading : Vector2D) (next_heading : ℚ) :
    (driveStep m vm c s next_index reverse_mode prev next heading next_heading).2.vpasterror
      = (s.v - ((1 - howFar s prev next) * prev.v + howFar s prev next * next.v))
          * (0.025 : ℚ) := by
  unfold driveStep
  dsimp only
  rw [driveCommand_vpasterror]
  rfl

/-- C18, the code at the failing input: whatever `vpasterror` holds before the
tick, after the tick it is `verror * 0.025` alone (line 597 assigns, it does
not add); with `vpasterror = 1` before and `verror = -0.04` the tick leaves
`-0.001`, where the claim has `1 - 0.001`. -/
theorem forwardDrive_integrator (m : Libm) (vm : VehicleModel) (c : StanleyController)
    (s : State2D) (next_index : Nat) (reverse_mode : Bool) (prev next : State2D)
    (heading : Vector2D) (next_heading : ℚ) :
    (driveStep m vm c s next_index reverse_mode prev next heading next_heading).2.vpasterror
      = (s.v - ((1 - howFar s prev next) * prev.v + howFar s prev next * next.v))
          * (0.025 : ℚ) ∧
    (ForwardDrive exactMath unitVehicle { drivingController with vpasterror := 1 }
        (carAt 2.6 0 0)).map (fun r => r.2.vpasterror) = some (-0.001) := by
  refine ⟨driveStep_vpasterror m vm c s next_index reverse_mode prev next heading
    next_heading, ?_⟩
  have hloc : Localize exactMath { drivingController with vpasterror := 1 } (carAt 2.6 0 0)
      = some (0, 1) := by
    simp [Localize, localizeScan, toUnsigned, drivingController, stoppedController,
      newController]
  rw [ForwardDrive_eq exactMath unitVehicle { drivingController with vpasterror := 1 }
    (carAt 2.6 0 0) (stateAt 0 Gear.ForwardGear 0.2) (stateAt 1 Gear.ForwardGear 0.2)
    (stateAt 3 Gear.ForwardGear 0) 0 1
    (Vector2D.sub (stateAt 3 Gear.ForwardGear 0).position
      (stateAt 1 Gear.ForwardGear 0.2).position)
    ((stateAt 3 Gear.ForwardGear 0).orientation + 0)
    hloc rfl rfl rfl rfl (by simp [stateAt])]
  simp only [Option.map_some', driveStep_vpasterror, howFar, HowFarAlong, Vector2D.sub,
    carAt, stateAt]
  norm_num

/-! ## Projection on the segment -/

theorem foot_algebra (px py nx ny sx sy k : ℚ) (hk : ny = py + k * (nx - px)) :
    ((k * sy + sx - k * (ny - k * nx)) / (k * k + 1) - px) * (ny - py)
      - ((k * k * sy + k * sx + (ny - k * nx)) / (k * k + 1) - py) * (nx - px) = 0 ∧
    (sx - (k * sy + sx - k * (ny - k * nx)) / (k * k + 1)) * (nx - px)
      + (sy - (k * k * sy + k * sx + (ny - k * nx)) / (k * k + 1)) * (ny - py) = 0 := by
  have h1 : k * k + 1 ≠ 0 := (add_pos_of_nonneg_of_pos (mul_self_nonneg k) one_pos).ne'
  subst hk
  constructor
  · field_simp
    ring
  · field_simp
    ring

/-- C19: for every `s`, `prev` and `next`, the position returned by
`FindClosestPoint s prev next` has an offset from `prev` whose cross product
with `next - prev` is zero, and the vector from it to `s` is orthogonal to
`next - prev`, in both branches; when `prev` and `next` have different
positions this says that it lies on the line through them and is the
perpendicular foot of `s`. -/
theorem findClosestPoint_foot (s prev next : State2D) :
    ((FindClosestPoint s prev next).position.x - prev.position.x)
        * (next.position.y - prev.position.y)
      - ((FindClosestPoint s prev next).position.y - prev.position.y)
        * (next.position.x - prev.position.x) = 0 ∧
    (s.position.x - (FindClosestPoint s prev next).position.x)
        * (next.position.x - prev.position.x)
      + (s.position.y - (FindClosestPoint s prev next).position.y)
        * (next.position.y - prev.position.y) = 0 := by
  unfold FindClosestPoint
  split
  · rename_i hx
    simp only [hx]
    constructor <;> ring
  · rename_i hx
    have hd : next.position.x - prev.position.x ≠ 0 := sub_ne_zero.mpr hx
    have hk : next.position.y = prev.position.y
        + (next.position.y - prev.position.y) / (next.position.x - prev.position.x)
          * (next.position.x - prev.position.x) := by
      field_simp
    exact foot_algebra prev.position.x prev.position.y next.position.x next.position.y
      s.position.x s.position.y _ hk

/-- C20, the code at the failing input: when `next` has the position of
`prev`, `FindClosestPoint` takes its guarded branch, but the divisor of the
division in `HowFarAlong` (line 287) is `0`; with the quotient of a division
by zero taken as `0`, `how_far` is `0`. -/
theorem howFarAlong_degenerate (s prev next : State2D) :
    howFarDivisor prev { next with position := prev.position } = 0 ∧
    HowFarAlong s prev { next with position := prev.position }
      = ((s.position.x - prev.position.x) * (prev.position.x - prev.position.x)
          + (s.position.y - prev.position.y) * (prev.position.y - prev.position.y))
        / howFarDivisor prev { next with position := prev.position } ∧
    (FindClosestPoint s prev { next with position := prev.position }).position
      = ⟨prev.position.x, s.position.y⟩ ∧
    howFar s prev { next with position := prev.position } = 0 := by
  refine ⟨?_, rfl, ?_, ?_⟩
  · simp [howFarDivisor, Vector2D.sub]
  · simp [FindClosestPoint]
  · simp [howFar, HowFarAlong, Vector2D.sub]

/-! ## What the handlers write to the paths -/

theorem driveCommand_paths (c : StanleyController) (s : State2D) (next_index : Nat)
    (coming_to_stop : Bool) (how_far steer dv : ℚ) :
    pathsOf (driveCommand c s next_index coming_to_stop how_far steer dv).2 = pathsOf c := by
  unfold driveCommand
  split
  · dsimp only
    split <;> rfl
  · rfl

theorem driveStep_paths (m : Libm) (vm : VehicleModel) (c : StanleyController) (s : State2D)
    (next_index : Nat) (reverse_mode : Bool) (prev next : State2D) (heading : Vector2D)
    (next_heading : ℚ) :
    pathsOf (driveStep m vm c s next_index reverse_mode prev next heading next_heading).2
      = pathsOf c := by
  unfold driveStep
  dsimp only
  rw [driveCommand_paths]
  rfl

theorem ForwardDrive_paths (m : Libm) (vm : VehicleModel) (c : StanleyController)
    (s : State2D) :
    (ForwardDrive m vm c s).map (fun r => pathsOf r.2)
      = (ForwardDrive m vm c s).map (fun _ => pathsOf c) := by
  unfold ForwardDrive
  split
  · rfl
  · dsimp only
    split
    · rfl
    · split
      · split
        · simp only [Option.map_some', driveStep_paths]
          rfl
        · rfl
      · rfl

theorem stoppedStep_paths (m : Libm) (vm : VehicleModel) (u : Uninitialised)
    (c : StanleyController) (s prev next : State2D) (reverse_mode : Bool) :
    (stoppedStep m vm u c s reverse_mode prev next).2.raw_path = c.raw_path ∧
    (¬ releaseTest m vm u c s prev next →
      (stoppedStep m vm u c s reverse_mode prev next).2.forward_path = c.forward_path ∧
      (stoppedStep m vm u c s reverse_mode prev next).2.reverse_path = c.reverse_path) ∧
    (releaseTest m vm u c s prev next → reverse_mode = false →
      (stoppedStep m vm u c s reverse_mode prev next).2.forward_path
        = c.forward_path.modify (fun p => { p with v := next.v }) c.prev_waypoint ∧
      (stoppedStep m vm u c s reverse_mode prev next).2.reverse_path = c.reverse_path) ∧
    (releaseTest m vm u c s prev next → reverse_mode = true →
      (stoppedStep m vm u c s reverse_mode prev next).2.reverse_path
        = c.reverse_path.modify (fun p => { p with v := next.v }) c.prev_waypoint ∧
      (stoppedStep m vm u c s reverse_mode prev next).2.forward_path = c.forward_path) := by
  unfold releaseTest
  by_cases ht : c.raw_path_last_index = c.next_waypoint ∧
      c.raw_path_last_index = c.prev_waypoint
  · have hd : decide (c.raw_path_last_index = c.next_waypoint ∧
        c.raw_path_last_index = c.prev_waypoint) = true := decide_eq_true ht
    unfold stoppedStep
    simp only [hd, if_true, if_pos ht]
    refine ⟨?_, ?_, ?_, ?_⟩
    · split <;> [(cases reverse_mode <;> rfl); rfl]
    · intro hrel
      rw [decide_eq_false hrel]
      exact ⟨rfl, rfl⟩
    · intro hrel hrm
      rw [decide_eq_true hrel, hrm]
      exact ⟨rfl, rfl⟩
    · intro hrel hrm
      rw [decide_eq_true hrel, hrm]
      exact ⟨rfl, rfl⟩
  · have hd : decide (c.raw_path_last_index = c.next_waypoint ∧
        c.raw_path_last_index = c.prev_waypoint) = false := decide_eq_false ht
    unfold stoppedStep
    simp only [hd, Bool.false_eq_true, if_false, if_neg ht]
    refine ⟨?_, ?_, ?_, ?_⟩
    · split <;> [(cases reverse_mode <;> rfl); rfl]
    · intro hrel
      rw [decide_eq_false hrel]
      exact ⟨rfl, rfl⟩
    · intro hrel hrm
      rw [decide_eq_true hrel, hrm]
      exact ⟨rfl, rfl⟩
    · intro hrel hrm
      rw [decide_eq_true hrel, hrm]
      exact ⟨rfl, rfl⟩

/-- C12, against the claim as stated: a tick of `Stopped` whose release test
succeeds writes `forward_path`: on the two-state forward path the speeds of
`forward_path` are `[0.2, 0]` before the tick and `[0, 0]` after it. -/
theorem handlers_paths_counterexample :
    (stoppedController Gear.ForwardGear 0 1).forward_path.map State2D.v = [1 / 5, 0] ∧
    (Stopped exactMath unitVehicle ⟨0, 0⟩ (stoppedController Gear.ForwardGear 0 1)
        (carAt 0 0 0)).map (fun r => r.2.forward_path.map State2D.v) = some [0, 0] := by
  constructor
  · simp only [stoppedController, stateAt, List.map]
    norm_num
  · have hrel : releaseTest exactMath unitVehicle ⟨0, 0⟩
        (stoppedController Gear.ForwardGear 0 1) (carAt 0 0 0)
        (stateAt 1 Gear.ForwardGear 0.2) (stateAt 3 Gear.ForwardGear 0) := by
      simp only [releaseTest, stoppedController, newController, stateAt, carAt, exactMath,
        unitVehicle]
      norm_num
    rw [Stopped_eq exactMath unitVehicle ⟨0, 0⟩ (stoppedController Gear.ForwardGear 0 1)
      (carAt 0 0 0) (stateAt 0 Gear.ForwardGear 0.2) (stateAt 1 Gear.ForwardGear 0.2)
      (stateAt 3 Gear.ForwardGear 0) rfl rfl rfl]
    simp only [Option.map_some']
    rw [((stoppedStep_paths exactMath unitVehicle ⟨0, 0⟩
      (stoppedController Gear.ForwardGear 0 1) (carAt 0 0 0)
      (stateAt 1 Gear.ForwardGear 0.2) (stateAt 3 Gear.ForwardGear 0)
      (decide (Gear.BackwardGear = (stateAt 0 Gear.ForwardGear 0.2).gear))).2.2.1 hrel rfl).1]
    simp [stoppedController, stateAt, List.modify, List.modifyTailIdx, List.modifyHead]

/-- C12 (as the code has it): a tick of `ForwardDrive` or `ReverseDrive`
leaves `raw_path`, `forward_path` and `reverse_path` as they were.  A tick of
`Stopped` whose reads are inside the paths leaves `raw_path` as it was; when
the release test of line 443 fails it leaves the other two paths as they
were, and when it succeeds it replaces `v` at index `prev_waypoint` by `v`
at index `next_waypoint` in `reverse_path` if `raw_path[prev_waypoint]` has
gear `BackwardGear` and in `forward_path` otherwise, and leaves the other
path as it was. -/
theorem handlers_paths (m : Libm) (vm : VehicleModel) (u : Uninitialised)
    (c : StanleyController) (s at_prev prev next : State2D)
    (hraw : c.raw_path[c.prev_waypoint]? = some at_prev)
    (hnext : (if decide (Gear.BackwardGear = at_prev.gear) = true then c.reverse_path
      else c.forward_path)[c.next_waypoint]? = some next)
    (hprev : (if decide (Gear.BackwardGear = at_prev.gear) = true then c.reverse_path
      else c.forward_path)[c.prev_waypoint]? = some prev) :
    (ForwardDrive m vm c s).map (fun r => pathsOf r.2)
      = (ForwardDrive m vm c s).map (fun _ => pathsOf c) ∧
    (ReverseDrive m vm c s).map (fun r => pathsOf r.2)
      = (ReverseDrive m vm c s).map (fun _ => pathsOf c) ∧
    ∃ (cmd : State2D) (c' : StanleyController),
      Stopped m vm u c s = some (cmd, c') ∧
      c'.raw_path = c.raw_path ∧
      (¬ releaseTest m vm u c s prev next →
        c'.forward_path = c.forward_path ∧ c'.reverse_path = c.reverse_path) ∧
      (releaseTest m vm u c s prev next → Gear.BackwardGear ≠ at_prev.gear →
        c'.forward_path
          = c.forward_path.modify (fun p => { p with v := next.v }) c.prev_waypoint ∧
        c'.reverse_path = c.reverse_path) ∧
      (releaseTest m vm u c s prev next → Gear.BackwardGear = at_prev.gear →
        c'.reverse_path
          = c.reverse_path.modify (fun p => { p with v := next.v }) c.prev_waypoint ∧
        c'.forward_path = c.forward_path) := by
  obtain ⟨h1, h2, h3, h4⟩ :=
    stoppedStep_paths m vm u c s prev next (decide (Gear.BackwardGear = at_prev.gear))
  exact ⟨ForwardDrive_paths m vm c s, ForwardDrive_paths m vm c s,
    (stoppedStep m vm u c s (decide (Gear.BackwardGear = at_prev.gear)) prev next).1,
    (stoppedStep m vm u c s (decide (Gear.BackwardGear = at_prev.gear)) prev next).2,
    Stopped_eq m vm u c s at_prev prev next hraw hnext hprev, h1, h2,
    fun hr hg => h3 hr (decide_eq_false hg),
    fun hr hg => h4 hr (decide_eq_true hg)⟩

theorem handlers_paths_witness :
    (stoppedController Gear.ForwardGear 0 1).raw_path[
        (stoppedController Gear.ForwardGear 0 1).prev_waypoint]?
      = some (stateAt 0 Gear.ForwardGear 0.2) ∧
    releaseTest exactMath unitVehicle ⟨0, 0⟩ (stoppedController Gear.ForwardGear 0 1)
      (carAt 0 0 0) (stateAt 1 Gear.ForwardGear 0.2) (stateAt 3 Gear.ForwardGear 0) ∧
    (ForwardDrive exactMath unitVehicle (stoppedController Gear.ForwardGear 0 1)
        (carAt 0 0 0)).map (fun r => pathsOf r.2)
      = (ForwardDrive exactMath unitVehicle (stoppedController Gear.ForwardGear 0 1)
        (carAt 0 0 0)).map (fun _ => pathsOf (stoppedController Gear.ForwardGear 0 1)) ∧
    (ReverseDrive exactMath unitVehicle (stoppedController Gear.ForwardGear 0 1)
        (carAt 0 0 0)).map (fun r => pathsOf r.2)
      = (ReverseDrive exactMath unitVehicle (stoppedController Gear.ForwardGear 0 1)
        (carAt 0 0 0)).map (fun _ => pathsOf (stoppedController Gear.ForwardGear 0 1)) ∧
    ∃ (cmd : State2D) (c' : StanleyController),
      Stopped exactMath unitVehicle ⟨0, 0⟩ (stoppedController Gear.ForwardGear 0 1)
        (carAt 0 0 0) = some (cmd, c') ∧
      c'.raw_path = (stoppedController Gear.ForwardGear 0 1).raw_path ∧
      (¬ releaseTest exactMath unitVehicle ⟨0, 0⟩ (stoppedController Gear.ForwardGear 0 1)
          (carAt 0 0 0) (stateAt 1 Gear.ForwardGear 0.2) (stateAt 3 Gear.ForwardGear 0) →
        c'.forward_path = (stoppedController Gear.ForwardGear 0 1).forward_path ∧
        c'.reverse_path = (stoppedController Gear.ForwardGear 0 1).reverse_path) ∧
      (releaseTest exactMath unitVehicle ⟨0, 0⟩ (stoppedController Gear.ForwardGear 0 1)
          (carAt 0 0 0) (stateAt 1 Gear.ForwardGear 0.2) (stateAt 3 Gear.ForwardGear 0) →
        Gear.BackwardGear ≠ (stateAt 0 Gear.ForwardGear 0.2).gear →
        c'.forward_path
          = (stoppedController Gear.ForwardGear 0 1).forward_path.modify
              (fun p => { p with v := (stateAt 3 Gear.ForwardGear 0).v })
              (stoppedController Gear.ForwardGear 0 1).prev_waypoint ∧
        c'.reverse_path = (stoppedController Gear.ForwardGear 0 1).reverse_path) ∧
      (releaseTest exactMath unitVehicle ⟨0, 0⟩ (stoppedController Gear.ForwardGear 0 1)
          (carAt 0 0 0) (stateAt 1 Gear.ForwardGear 0.2) (stateAt 3 Gear.ForwardGear 0) →
        Gear.BackwardGear = (stateAt 0 Gear.ForwardGear 0.2).gear →
        c'.reverse_path
          = (stoppedController Gear.ForwardGear 0 1).reverse_path.modify
              (fun p => { p with v := (stateAt 3 Gear.ForwardGear 0).v })
              (stoppedController Gear.ForwardGear 0 1).prev_waypoint ∧
        c'.forward_path = (stoppedController Gear.ForwardGear 0 1).forward_path) :=
  have h1 : (stoppedController Gear.ForwardGear 0 1).raw_path[
      (stoppedController Gear.ForwardGear 0 1).prev_waypoint]?
      = some (stateAt 0 Gear.ForwardGear 0.2) := rfl
  have h2 : releaseTest exactMath unitVehicle ⟨0, 0⟩ (stoppedController Gear.ForwardGear 0 1)
      (carAt 0 0 0) (stateAt 1 Gear.ForwardGear 0.2) (stateAt 3 Gear.ForwardGear 0) := by
    simp only [releaseTest, stoppedController, newController, stateAt, carAt, exactMath,
      unitVehicle]
    norm_num
  ⟨h1, h2,
    handlers_paths exactMath unitVehicle ⟨0, 0⟩ (stoppedController Gear.ForwardGear 0 1)
      (carAt 0 0 0) (stateAt 0 Gear.ForwardGear 0.2) (stateAt 1 Gear.ForwardGear 0.2)
      (stateAt 3 Gear.ForwardGear 0) h1 rfl rfl⟩

/-! ## The steering command -/

theorem clampDeflection_abs (vm : VehicleModel) (h : 0 ≤ vm.max_wheel_deflection) (x : ℚ) :
    |clampDeflection vm x| ≤ vm.max_wheel_deflection := by
  unfold clampDeflection
  split
  · split
    · rw [abs_of_nonneg h]
    · rw [abs_neg, abs_of_nonneg h]
  · rename_i hle
    exact not_lt.mp hle

theorem truncToInt_abs (y : ℚ) : |((truncToInt y : Int) : ℚ)| ≤ |y| := by
  unfold truncToInt
  split
  · rename_i h
    have h1 : (0 : ℚ) ≤ ((⌊y⌋ : Int) : ℚ) := by exact_mod_cast Int.floor_nonneg.mpr h
    rw [abs_of_nonneg h1, abs_of_nonneg h]
    exact Int.floor_le y
  · rename_i h
    have hy : y < 0 := not_le.mp h
    have h1 : ((⌈y⌉ : Int) : ℚ) ≤ 0 := by
      have : ⌈y⌉ ≤ 0 := Int.ceil_le.mpr (by simpa using hy.le)
      exact_mod_cast this
    rw [abs_of_nonpos h1, abs_of_neg hy]
    exact neg_le_neg (Int.le_ceil y)

theorem milli_abs (x : ℚ) : |milli x| ≤ |x| := by
  unfold milli
  have h := truncToInt_abs (x * 1000)
  rw [abs_mul] at h ⊢
  have e1 : |(1000 : ℚ)| = 1000 := abs_of_pos (by norm_num)
  have e2 : |(0.001 : ℚ)| = 0.001 := abs_of_pos (by norm_num)
  rw [e1] at h
  rw [e2]
  have : |((truncToInt (x * 1000) : Int) : ℚ)| * 0.001 ≤ |x| * 1000 * 0.001 :=
    mul_le_mul_of_nonneg_right h (by norm_num)
  calc |((truncToInt (x * 1000) : Int) : ℚ)| * 0.001 ≤ |x| * 1000 * 0.001 := this
    _ = |x| := by ring

theorem milli_multiple (x : ℚ) : ∃ k : Int, milli x = (k : ℚ) * 0.001 :=
  ⟨truncToInt (x * 1000), rfl⟩

theorem steerRate_abs (vm : VehicleModel) (h : 0 ≤ vm.max_wheel_deflection) (s : State2D)
    (phi : ℚ) : |steerRate vm s phi| ≤ vm.max_wheel_deflection :=
  clampDeflection_abs vm h _

theorem driveCommand_phi (c : StanleyController) (s : State2D) (next_index : Nat)
    (coming_to_stop : Bool) (how_far steer dv : ℚ) :
    (driveCommand c s next_index coming_to_stop how_far steer dv).1.phi = steer ∨
    (driveCommand c s next_index coming_to_stop how_far steer dv).1.phi = milli steer := by
  unfold driveCommand
  split
  · right; rfl
  · left; rfl

theorem driveStep_phi (m : Libm) (vm : VehicleModel) (c : StanleyController) (s : State2D)
    (next_index : Nat) (reverse_mode : Bool) (prev next : State2D) (heading : Vector2D)
    (next_heading : ℚ) :
    ∃ x : ℚ,
      (driveStep m vm c s next_index reverse_mode prev next heading next_heading).1.phi
          = milli (steerRate vm s x) ∨
        (driveStep m vm c s next_index reverse_mode prev next heading next_heading).1.phi
          = milli (milli (steerRate vm s x)) := by
  unfold driveStep
  dsimp only
  exact ⟨_, driveCommand_phi _ _ _ _ _ _ _⟩

theorem driveStep_phi_abs (m : Libm) (vm : VehicleModel) (h : 0 ≤ vm.max_wheel_deflection)
    (c : StanleyController) (s : State2D)
    (next_index : Nat) (reverse_mode : Bool) (prev next : State2D) (heading : Vector2D)
    (next_heading : ℚ) :
    |(driveStep m vm c s next_index reverse_mode prev next heading next_heading).1.phi|
      ≤ vm.max_wheel_deflection := by
  obtain ⟨x, hx | hx⟩ :=
    driveStep_phi m vm c s next_index reverse_mode prev next heading next_heading
  · rw [hx]
    exact le_trans (milli_abs _) (steerRate_abs vm h s x)
  · rw [hx]
    exact le_trans (milli_abs _) (le_trans (milli_abs _) (steerRate_abs vm h s x))

theorem stoppedStep_phi (m : Libm) (vm : VehicleModel) (u : Uninitialised)
    (c : StanleyController) (s prev next : State2D) (reverse_mode : Bool) :
    ∃ x : ℚ, (stoppedStep m vm u c s reverse_mode prev next).1.phi = steerRate vm s x := by
  unfold stoppedStep
  exact ⟨_, rfl⟩

theorem ForwardDrive_some (m : Libm) (vm : VehicleModel) (c : StanleyController)
    (s : State2D) (r : State2D × StanleyController) (h : ForwardDrive m vm c s = some r) :
    ∃ (c0 : StanleyController) (next_index : Nat) (reverse_mode : Bool)
      (prev next : State2D) (heading : Vector2D) (next_heading : ℚ),
      r = driveStep m vm c0 s next_index reverse_mode prev next heading next_heading := by
  unfold ForwardDrive at h
  split at h
  · cases h
  · dsimp only at h
    split at h
    · cases h
    · split at h
      · split at h
        · cases h
          exact ⟨_, _, _, _, _, _, _, rfl⟩
        · cases h
      · cases h

theorem Stopped_some (m : Libm) (vm : VehicleModel) (u : Uninitialised)
    (c : StanleyController) (s : State2D) (r : State2D × StanleyController)
    (h : Stopped m vm u c s = some r) :
    ∃ (reverse_mode : Bool) (prev next : State2D),
      r = stoppedStep m vm u c s reverse_mode prev next := by
  unfold Stopped at h
  split at h
  · cases h
  · dsimp only at h
    split at h
    · cases h
      exact ⟨_, _, _, rfl⟩
    · cases h

/-- C13: with `max_wheel_deflection ≥ 0`, the command returned by
`ForwardDrive` and the command returned by `Stopped` have
`|phi| ≤ max_wheel_deflection`, whatever the vehicle state, the paths, the
cursor, the stored errors and the unassigned locals; the same holds for the
command computed once the path elements have been read. -/
theorem steering_clamp (m : Libm) (vm : VehicleModel) (u : Uninitialised)
    (c : StanleyController) (s : State2D) (h : 0 ≤ vm.max_wheel_deflection) :
    (∀ r, ForwardDrive m vm c s = some r → |r.1.phi| ≤ vm.max_wheel_deflection) ∧
    (∀ r, Stopped m vm u c s = some r → |r.1.phi| ≤ vm.max_wheel_deflection) ∧
    (∀ (next_index : Nat) (reverse_mode : Bool) (prev next : State2D) (heading : Vector2D)
      (next_heading : ℚ),
      |(driveStep m vm c s next_index reverse_mode prev next heading next_heading).1.phi|
        ≤ vm.max_wheel_deflection) ∧
    (∀ (reverse_mode : Bool) (prev next : State2D),
      |(stoppedStep m vm u c s reverse_mode prev next).1.phi| ≤ vm.max_wheel_deflection) := by
  refine ⟨?_, ?_, ?_, ?_⟩
  · intro r hr
    obtain ⟨c0, ni, rm, prev, next, heading, nh, rfl⟩ := ForwardDrive_some m vm c s r hr
    exact driveStep_phi_abs m vm h c0 s ni rm prev next heading nh
  · intro r hr
    obtain ⟨rm, prev, next, rfl⟩ := Stopped_some m vm u c s r hr
    obtain ⟨x, hx⟩ := stoppedStep_phi m vm u c s prev next rm
    rw [hx]
    exact steerRate_abs vm h s x
  · intro ni rm prev next heading nh
    exact driveStep_phi_abs m vm h c s ni rm prev next heading nh
  · intro rm prev next
    obtain ⟨x, hx⟩ := stoppedStep_phi m vm u c s prev next rm
    rw [hx]
    exact steerRate_abs vm h s x

theorem steering_clamp_witness :
    0 ≤ unitVehicle.max_wheel_deflection ∧
    (∃ r, ForwardDrive exactMath unitVehicle drivingController (carAt 2.92 0 0) = some r) ∧
    (∀ r, ForwardDrive exactMath unitVehicle drivingController (carAt 2.92 0 0) = some r →
      |r.1.phi| ≤ unitVehicle.max_wheel_deflection) ∧
    (∀ r, Stopped exactMath unitVehicle ⟨0, 0⟩ drivingController (carAt 2.92 0 0) = some r →
      |r.1.phi| ≤ unitVehicle.max_wheel_deflection) ∧
    (∀ (next_index : Nat) (reverse_mode : Bool) (prev next : State2D) (heading : Vector2D)
      (next_heading : ℚ),
      |(driveStep exactMath unitVehicle drivingController (carAt 2.92 0 0) next_index
          reverse_mode prev next heading next_heading).1.phi|
        ≤ unitVehicle.max_wheel_deflection) ∧
    (∀ (reverse_mode : Bool) (prev next : State2D),
      |(stoppedStep exactMath unitVehicle ⟨0, 0⟩ drivingController (carAt 2.92 0 0)
          reverse_mode prev next).1.phi| ≤ unitVehicle.max_wheel_deflection) :=
  have h : 0 ≤ unitVehicle.max_wheel_deflection := by
    simp only [unitVehicle]
    norm_num
  have hloc : Localize exactMath drivingController (carAt 2.92 0 0) = some (0, 1) := by
    simp [Localize, localizeScan, toUnsigned, drivingController, stoppedController,
      newController]
  ⟨h,
    ⟨_, ForwardDrive_eq exactMath unitVehicle drivingController (carAt 2.92 0 0)
      (stateAt 0 Gear.ForwardGear 0.2) (stateAt 1 Gear.ForwardGear 0.2)
      (stateAt 3 Gear.ForwardGear 0) 0 1
      (Vector2D.sub (stateAt 3 Gear.ForwardGear 0).position
        (stateAt 1 Gear.ForwardGear 0.2).position)
      ((stateAt 3 Gear.ForwardGear 0).orientation + 0)
      hloc rfl rfl rfl rfl (by simp [stateAt])⟩,
    steering_clamp exactMath unitVehicle ⟨0, 0⟩ drivingController (carAt 2.92 0 0) h⟩

theorem driveCommand_v (c : StanleyController) (s : State2D) (next_index : Nat)
    (coming_to_stop : Bool) (how_far steer dv : ℚ) :
    (driveCommand c s next_index coming_to_stop how_far steer dv).1.v = 0 ∨
    (driveCommand c s next_index coming_to_stop how_far steer dv).1.v = s.v + milli dv := by
  unfold driveCommand
  split
  · left; rfl
  · right; rfl

/-- C14, the code at the failing input: the steering angle of a command of
`ForwardDrive` is an integer multiple of `0.001` and its speed is `0` or
`s.v` plus an integer multiple of `0.001`, but `Stopped` does not truncate:
with the steering at `0.0005` and no heading error its command has
`phi = 0.0004`, which is not an integer multiple of `0.001`. -/
theorem stopped_not_quantized (m : Libm) (vm : VehicleModel) (c : StanleyController)
    (s : State2D) (next_index : Nat) (reverse_mode : Bool) (prev next : State2D)
    (heading : Vector2D) (next_heading : ℚ) :
    (∃ k : Int,
      (driveStep m vm c s next_index reverse_mode prev next heading next_heading).1.phi
        = (k : ℚ) * 0.001) ∧
    ((driveStep m vm c s next_index reverse_mode prev next heading next_heading).1.v = 0 ∨
      ∃ k : Int,
        (driveStep m vm c s next_index reverse_mode prev next heading next_heading).1.v
          = s.v + (k : ℚ) * 0.001) ∧
    (Stopped exactMath unitVehicle ⟨0, 0⟩ (stoppedController Gear.ForwardGear 0 1)
        (carAt 0 0 0.0005)).map (fun r => r.1.phi) = some 0.0004 ∧
    ¬ ∃ k : Int, (0.0004 : ℚ) = (k : ℚ) * 0.001 := by
  refine ⟨?_, ?_, ?_, ?_⟩
  · obtain ⟨x, hx | hx⟩ :=
      driveStep_phi m vm c s next_index reverse_mode prev next heading next_heading
    · rw [hx]; exact milli_multiple _
    · rw [hx]; exact milli_multiple _
  · unfold driveStep
    dsimp only
    rcases driveCommand_v _ s next_index _ _ _ _ with h | h
    · left; exact h
    · right
      rw [h]
      obtain ⟨k, hk⟩ := milli_multiple _
      exact ⟨k, by rw [hk]⟩
  · rw [Stopped_eq exactMath unitVehicle ⟨0, 0⟩ (stoppedController Gear.ForwardGear 0 1)
      (carAt 0 0 0.0005) (stateAt 0 Gear.ForwardGear 0.2) (stateAt 1 Gear.ForwardGear 0.2)
      (stateAt 3 Gear.ForwardGear 0) rfl rfl rfl]
    have e1 : |(1 : ℚ) / 2500| = 1 / 2500 := abs_of_pos (by norm_num)
    have e2 : max (-1 : ℚ) (min 1 (-1 / 250)) = -1 / 250 := by
      rw [min_eq_right (by norm_num), max_eq_right (by norm_num)]
    simp only [stoppedStep, steerRate, clampDeflection, stoppedController, newController,
      stateAt, carAt, exactMath, unitVehicle, Option.map_some']
    norm_num [e1, e2]
  · rintro ⟨k, hk⟩
    have h5 : ((5 * k : Int) : ℚ) = 2 := by
      push_cast
      linarith
    have : (5 * k : Int) = 2 := by exact_mod_cast h5
    omega

/-! ## The bracket of `Localize` -/

theorem localizeScan_range (m : Libm) (c : StanleyController) (s : State2D) :
    ∀ (k : Nat) (i : Int) (bestd : Option ℚ) (besti : Int),
      1 ≤ i → (0 < k → i + (k : Int) ≤ (c.raw_path.length : Int) - 1) →
      ∃ b, localizeScan m c s k i bestd besti = some b ∧
        (b = besti ∨ (i ≤ b ∧ b < i + (k : Int))) := by
  intro k
  induction k with
  | zero => intro i bestd besti _ _; exact ⟨besti, rfl, Or.inl rfl⟩
  | succ k ih =>
    intro i bestd besti hi hk
    have hk' := hk (Nat.succ_pos k)
    push_cast at hk'
    have h1 : (i - 1).toNat < c.raw_path.length := by omega
    have h2 : i.toNat < c.raw_path.length := by omega
    simp only [localizeScan, List.getElem?_eq_getElem h1, List.getElem?_eq_getElem h2]
    split
    · exact ⟨besti, rfl, Or.inl rfl⟩
    · split
      · obtain ⟨b, hb, hr⟩ := ih (i + 1) (some (Vector2D.Distance m s.position
          (c.raw_path[i.toNat]).position)) i (by omega) (fun _ => by omega)
        refine ⟨b, hb, Or.inr ?_⟩
        push_cast
        omega
      · obtain ⟨b, hb, hr⟩ := ih (i + 1) bestd besti (by omega) (fun _ => by omega)
        refine ⟨b, hb, ?_⟩
        push_cast
        omega

theorem toUnsigned_small (z : Int) (h0 : 0 ≤ z) (h1 : z < 2 ^ 32) : toUnsigned z = z.toNat := by
  unfold toUnsigned
  rw [Int.emod_eq_of_lt h0 h1]

theorem localize_backoff (c : StanleyController) (p n : Nat) (hn : n = p + 1)
    (hle : n ≤ c.raw_path.length - 1) (hbig : c.raw_path.length < 2 ^ 31) :
    ∃ pi ni,
      (if 0 < p then
        c.raw_path[p - 1]?.bind fun a =>
          if a.coming_to_stop = true ∧ p ≠ c.prev_waypoint then
            some (p - 1, toUnsigned ((n : Int) - 1))
          else some (p, n)
      else some (p, n)) = some (pi, ni) ∧ ni = pi + 1 ∧ ni ≤ c.raw_path.length - 1 := by
  by_cases hp : 0 < p
  · rw [if_pos hp]
    have h1 : p - 1 < c.raw_path.length := by omega
    rw [List.getElem?_eq_getElem h1, Option.some_bind]
    split
    · have e : toUnsigned ((n : Int) - 1) = p := by
        rw [toUnsigned_small _ (by omega) (by omega)]
        omega
      exact ⟨p - 1, _, rfl, by rw [e]; omega, by rw [e]; omega⟩
    · exact ⟨p, n, rfl, hn, hle⟩
  · rw [if_neg hp]
    exact ⟨p, n, rfl, hn, hle⟩

/-- C15: for a controller whose `raw_path` has `M ≥ 2` states (fewer than
`2^31`), with `raw_path_size = M`, `raw_path_last_index = M - 1`,
`next_waypoint ≤ M - 1` and `last_cusp ≤ M - 1`, and for every vehicle state,
`Localize` reads only indices of `raw_path` (it has a result) and returns
`(prev_index, next_index)` with `next_index = prev_index + 1` and
`next_index ≤ M - 1`. -/
theorem localize_bracket (m : Libm) (c : StanleyController) (s : State2D)
    (hM : 2 ≤ c.raw_path.length) (hbig : c.raw_path.length < 2 ^ 31)
    (hsz : c.raw_path_size = c.raw_path.length)
    (hli : c.raw_path_last_index = c.raw_path.length - 1)
    (hnw : c.next_waypoint ≤ c.raw_path.length - 1)
    (hlc : c.last_cusp ≤ c.raw_path.length - 1) :
    ∃ prev_index next_index,
      Localize m c s = some (prev_index, next_index) ∧
      next_index = prev_index + 1 ∧ next_index ≤ c.raw_path.length - 1 := by
  have hs0 : (0 : Int) ≤ max (c.last_cusp : Int) (max 0 ((c.next_waypoint : Int) - 2)) :=
    le_max_of_le_right (le_max_left _ _)
  have hs1 : max (c.last_cusp : Int) (max 0 ((c.next_waypoint : Int) - 2))
      ≤ (c.raw_path.length : Int) - 1 :=
    max_le (by omega) (max_le (by omega) (by omega))
  have he1 : min (c.raw_path_last_index : Int) ((c.next_waypoint : Int) + 2)
      ≤ (c.raw_path.length : Int) - 1 :=
    le_trans (min_le_left _ _) (by omega)
  obtain ⟨b, hb, hr⟩ := localizeScan_range m c s
    (min (c.raw_path_last_index : Int) ((c.next_waypoint : Int) + 2)
      - (max (c.last_cusp : Int) (max 0 ((c.next_waypoint : Int) - 2)) + 1)).toNat
    (max (c.last_cusp : Int) (max 0 ((c.next_waypoint : Int) - 2)) + 1) none
    (max (c.last_cusp : Int) (max 0 ((c.next_waypoint : Int) - 2)))
    (by omega) (by intro hpos; omega)
  have hb0 : 0 ≤ b := by omega
  have hb1 : b ≤ (c.raw_path.length : Int) - 1 := by omega
  unfold Localize
  simp only [hb, Option.some_bind, Option.pure_def, Option.bind_eq_bind]
  have eb : toUnsigned b = b.toNat := toUnsigned_small b hb0 (by omega)
  by_cases hA : (c.raw_path_size : Int) ≤ b + 1
  · rw [if_pos hA]
    have e1 : toUnsigned (b - 1) = b.toNat - 1 := by
      rw [toUnsigned_small _ (by omega) (by omega)]
      omega
    rw [e1, eb]
    exact localize_backoff c (b.toNat - 1) b.toNat (by omega) (by omega) hbig
  · rw [if_neg hA]
    have e2 : toUnsigned (b + 1) = b.toNat + 1 := by
      rw [toUnsigned_small _ (by omega) (by omega)]
      omega
    by_cases hB : 0 > b - 1
    · rw [if_pos hB, eb, e2]
      exact localize_backoff c b.toNat (b.toNat + 1) rfl (by omega) hbig
    · rw [if_neg hB]
      by_cases hC : b = (c.last_cusp : Int)
      · rw [if_pos hC, eb, e2]
        exact localize_backoff c b.toNat (b.toNat + 1) rfl (by omega) hbig
      · rw [if_neg hC]
        have h1 : (b - 1).toNat < c.raw_path.length := by omega
        have h2 : (b + 1).toNat < c.raw_path.length := by omega
        rw [List.getElem?_eq_getElem h1, Option.some_bind, List.getElem?_eq_getElem h2,
          Option.some_bind]
        have e1 : toUnsigned (b - 1) = b.toNat - 1 := by
          rw [toUnsigned_small _ (by omega) (by omega)]
          omega
        split
        · rw [e1, eb]
          exact localize_backoff c (b.toNat - 1) b.toNat (by omega) (by omega) hbig
        · rw [eb, e2]
          exact localize_backoff c b.toNat (b.toNat + 1) rfl (by omega) hbig

theorem localize_bracket_witness :
    2 ≤ drivingController.raw_path.length ∧
    drivingController.raw_path.length < 2 ^ 31 ∧
    drivingController.raw_path_size = drivingController.raw_path.length ∧
    drivingController.raw_path_last_index = drivingController.raw_path.length - 1 ∧
    drivingController.next_waypoint ≤ drivingController.raw_path.length - 1 ∧
    drivingController.last_cusp ≤ drivingController.raw_path.length - 1 ∧
    ∃ prev_index next_index,
      Localize exactMath drivingController (carAt 2.92 0 0) = some (prev_index, next_index) ∧
      next_index = prev_index + 1 ∧ next_index ≤ drivingController.raw_path.length - 1 :=
  have h1 : 2 ≤ drivingController.raw_path.length := by decide
  have h2 : drivingController.raw_path.length < 2 ^ 31 := by decide
  have h3 : drivingController.raw_path_size = drivingController.raw_path.length := by decide
  have h4 : drivingController.raw_path_last_index = drivingController.raw_path.length - 1 := by
    decide
  have h5 : drivingController.next_waypoint ≤ drivingController.raw_path.length - 1 := by
    decide
  have h6 : drivingController.last_cusp ≤ drivingController.raw_path.length - 1 := by decide
  ⟨h1, h2, h3, h4, h5, h6,
    localize_bracket exactMath drivingController (carAt 2.92 0 0) h1 h2 h3 h4 h5 h6⟩

/-! ## The neighbours of a stop after the low-speed update -/

theorem modify_getElem_self (l : List State2D) (f : State2D → State2D) (i : Nat)
    (h : i < l.length) : (l.modify f i)[i]? = some (f l[i]) := by
  rw [List.getElem?_modify, List.getElem?_eq_getElem h]
  simp

theorem modify_getElem_other (l : List State2D) (f : State2D → State2D) (i k : Nat)
    (h : k ≠ i) : (l.modify f i)[k]? = l[k]? := by
  rw [List.getElem?_modify]
  have : ¬ i = k := fun e => h e.symm
  cases l[k]? <;> simp [this]

theorem writeV_slow {c c' : StanleyController} {i : Nat} {a : ℚ}
    (h : writeV c i a = some c') (ha : a ≤ 0.2) (k : Nat) (hk : k = i ∨ SlowAt c k) :
    SlowAt c' k := by
  unfold writeV at h
  split at h
  · rename_i hlt
    cases h
    by_cases e : k = i
    · subst e
      exact ⟨_, _, _, modify_getElem_self _ _ _ hlt.1, modify_getElem_self _ _ _ hlt.2.1,
        modify_getElem_self _ _ _ hlt.2.2, ha, rfl, rfl⟩
    · obtain ⟨r, f, b, h1, h2, h3, h4⟩ := hk.resolve_left e
      exact ⟨r, f, b, by rw [← h1]; exact modify_getElem_other _ _ _ _ e,
        by rw [← h2]; exact modify_getElem_other _ _ _ _ e,
        by rw [← h3]; exact modify_getElem_other _ _ _ _ e, h4⟩
  · cases h

theorem writeV_flagged {c c' : StanleyController} {i : Nat} {a : ℚ}
    (h : writeV c i a = some c') (k : Nat) (hk : FlaggedAt c k) : FlaggedAt c' k := by
  unfold writeV at h
  split at h
  · rename_i hlt
    cases h
    obtain ⟨r, f, b, h1, h2, h3, h4, h5, h6⟩ := hk
    by_cases e : k = i
    · subst e
      have e1 : c.raw_path[k] = r := by
        rw [List.getElem?_eq_getElem hlt.1] at h1; exact Option.some.inj h1
      have e2 : c.forward_path[k] = f := by
        rw [List.getElem?_eq_getElem hlt.2.1] at h2; exact Option.some.inj h2
      have e3 : c.reverse_path[k] = b := by
        rw [List.getElem?_eq_getElem hlt.2.2] at h3; exact Option.some.inj h3
      exact ⟨_, _, _, modify_getElem_self _ _ _ hlt.1, modify_getElem_self _ _ _ hlt.2.1,
        modify_getElem_self _ _ _ hlt.2.2, by rw [e1]; exact h4, by rw [e2]; exact h5,
        by rw [e3]; exact h6⟩
    · exact ⟨r, f, b, by rw [← h1]; exact modify_getElem_other _ _ _ _ e,
        by rw [← h2]; exact modify_getElem_other _ _ _ _ e,
        by rw [← h3]; exact modify_getElem_other _ _ _ _ e, h4, h5, h6⟩
  · cases h

theorem writeComingToStop_slow {c c' : StanleyController} {i : Nat}
    (h : writeComingToStop c i = some c') (k : Nat) (hk : SlowAt c k) : SlowAt c' k := by
  unfold writeComingToStop at h
  split at h
  · rename_i hlt
    cases h
    obtain ⟨r, f, b, h1, h2, h3, h4, h5, h6⟩ := hk
    by_cases e : k = i
    · subst e
      have e1 : c.raw_path[k] = r := by
        rw [List.getElem?_eq_getElem hlt.1] at h1; exact Option.some.inj h1
      have e2 : c.forward_path[k] = f := by
        rw [List.getElem?_eq_getElem hlt.2.1] at h2; exact Option.some.inj h2
      have e3 : c.reverse_path[k] = b := by
        rw [List.getElem?_eq_getElem hlt.2.2] at h3; exact Option.some.inj h3
      exact ⟨_, _, _, modify_getElem_self _ _ _ hlt.1, modify_getElem_self _ _ _ hlt.2.1,
        modify_getElem_self _ _ _ hlt.2.2, by rw [e1]; exact h4, by rw [e1, e2]; exact h5,
        by rw [e1, e3]; exact h6⟩
    · exact ⟨r, f, b, by rw [← h1]; exact modify_getElem_other _ _ _ _ e,
        by rw [← h2]; exact modify_getElem_other _ _ _ _ e,
        by rw [← h3]; exact modify_getElem_other _ _ _ _ e, h4, h5, h6⟩
  · cases h

theorem writeComingToStop_flagged {c c' : StanleyController} {i : Nat}
    (h : writeComingToStop c i = some c') (k : Nat) (hk : k = i ∨ FlaggedAt c k) :
    FlaggedAt c' k := by
  unfold writeComingToStop at h
  split at h
  · rename_i hlt
    cases h
    by_cases e : k = i
    · subst e
      exact ⟨_, _, _, modify_getElem_self _ _ _ hlt.1, modify_getElem_self _ _ _ hlt.2.1,
        modify_getElem_self _ _ _ hlt.2.2, rfl, rfl, rfl⟩
    · obtain ⟨r, f, b, h1, h2, h3, h4⟩ := hk.resolve_left e
      exact ⟨r, f, b, by rw [← h1]; exact modify_getElem_other _ _ _ _ e,
        by rw [← h2]; exact modify_getElem_other _ _ _ _ e,
        by rw [← h3]; exact modify_getElem_other _ _ _ _ e, h4⟩
  · cases h

theorem walkLeft_slow (m : Libm) (vm : VehicleModel) :
    ∀ (n : Nat) (c c' : StanleyController), walkLeft m vm n c = some c' → SlowAt c n →
      (∀ k, SlowAt c k → SlowAt c' k) ∧ (∀ k, FlaggedAt c k → FlaggedAt c' k) := by
  intro n
  induction n with
  | zero =>
    intro c c' h _
    simp only [walkLeft] at h
    cases h
    exact ⟨fun _ hk => hk, fun _ hk => hk⟩
  | succ prev ih =>
    intro c c' h hn
    simp only [walkLeft] at h
    split at h
    · rename_i x atNext hx hnext
      split at h
      · rename_i hlt
        split at h
        · rename_i c1 hw
          obtain ⟨r, f, b, hr, -, -, hrv, -, -⟩ := hn
          rw [hnext] at hr
          cases hr
          have ha : vm.GetDecelerationConstraint atNext.v
              (Vector2D.Distance m atNext.position atNext.position) atNext.gear ≤ 0.2 :=
            le_trans (le_of_lt hlt) hrv
          obtain ⟨ih1, ih2⟩ := ih c1 c' h (writeV_slow hw ha prev (Or.inl rfl))
          exact ⟨fun k hk => ih1 k (writeV_slow hw ha k (Or.inr hk)),
            fun k hk => ih2 k (writeV_flagged hw k hk)⟩
        · cases h
      · cases h
        exact ⟨fun _ hk => hk, fun _ hk => hk⟩
    · cases h

theorem walkRight_slow (m : Libm) (vm : VehicleModel) :
    ∀ (n next : Nat) (c c' : StanleyController), walkRight m vm n next c = some c' →
      (∀ k, SlowAt c k → SlowAt c' k) ∧ (∀ k, FlaggedAt c k → FlaggedAt c' k) := by
  intro n
  induction n with
  | zero =>
    intro next c c' h
    simp only [walkRight] at h
    cases h
    exact ⟨fun _ hk => hk, fun _ hk => hk⟩
  | succ n ih =>
    intro next c c' h
    simp only [walkRight] at h
    split at h
    · rename_i x atNext hx hnext
      split at h
      · rename_i hlt
        split at h
        · rename_i c1 hw
          obtain ⟨ih1, ih2⟩ := ih (next + 1) c1 c' h
          refine ⟨fun k hk => ih1 k ?_, fun k hk => ih2 k (writeV_flagged hw k hk)⟩
          by_cases e : k = next
          · subst e
            obtain ⟨r, f, b, hr, -, -, hrv, -, -⟩ := hk
            rw [hnext] at hr
            cases hr
            exact writeV_slow hw (le_trans (le_of_lt hlt) hrv) k (Or.inl rfl)
          · obtain ⟨r, f, b, hr, hf, hb, hrv, hfv, hbv⟩ := hk
            unfold writeV at hw
            split at hw
            · cases hw
              exact ⟨r, f, b, by rw [← hr]; exact modify_getElem_other _ _ _ _ e,
                by rw [← hf]; exact modify_getElem_other _ _ _ _ e,
                by rw [← hb]; exact modify_getElem_other _ _ _ _ e, hrv, hfv, hbv⟩
            · cases hw
        · cases h
      · cases h
        exact ⟨fun _ hk => hk, fun _ hk => hk⟩
    · cases h

theorem lowSpeedStop_slow (m : Libm) (vm : VehicleModel) (current_stop : Nat)
    (c c' : StanleyController) (h : lowSpeedStop m vm current_stop c = some c') :
    (∀ k, SlowAt c k → SlowAt c' k) ∧ (∀ k, FlaggedAt c k → FlaggedAt c' k) ∧
    (0 < current_stop → SlowAt c' (current_stop - 1) ∧ FlaggedAt c' (current_stop - 1)) ∧
    (current_stop + 1 < c.raw_path_size → SlowAt c' (current_stop + 1)) := by
  unfold lowSpeedStop at h
  split at h
  · cases h
  · rename_i c1 hleft
    have hsz : c1.raw_path_size = c.raw_path_size :=
      (lowSpeedLeft_frame m vm current_stop c c1 hleft).size
    have hL : (∀ k, SlowAt c k → SlowAt c1 k) ∧ (∀ k, FlaggedAt c k → FlaggedAt c1 k) ∧
        (0 < current_stop → SlowAt c1 (current_stop - 1) ∧ FlaggedAt c1 (current_stop - 1)) := by
      unfold lowSpeedLeft at hleft
      split at hleft
      · cases hleft
        exact ⟨fun _ hk => hk, fun _ hk => hk, fun h0 => absurd h0 (lt_irrefl 0)⟩
      · rename_i prev
        split at hleft
        · cases hleft
        · rename_i ca hwa
          split at hleft
          · cases hleft
          · rename_i cb hwb
            have hs : SlowAt cb prev :=
              writeComingToStop_slow hwb prev (writeV_slow hwa (le_refl _) prev (Or.inl rfl))
            have hf : FlaggedAt cb prev := writeComingToStop_flagged hwb prev (Or.inl rfl)
            obtain ⟨w1, w2⟩ := walkLeft_slow m vm prev cb c1 hleft hs
            refine ⟨fun k hk => w1 k (writeComingToStop_slow hwb k
                (writeV_slow hwa (le_refl _) k (Or.inr hk))),
              fun k hk => w2 k (writeComingToStop_flagged hwb k
                (Or.inr (writeV_flagged hwa k hk))),
              fun _ => ⟨w1 prev hs, w2 prev hf⟩⟩
    obtain ⟨hL1, hL2, hL3⟩ := hL
    unfold lowSpeedRight at h
    split at h
    · split at h
      · cases h
      · rename_i ca hwa
        obtain ⟨w1, w2⟩ := walkRight_slow m vm _ _ ca c' h
        refine ⟨fun k hk => w1 k (writeV_slow hwa (le_refl _) k (Or.inr (hL1 k hk))),
          fun k hk => w2 k (writeV_flagged hwa k (hL2 k hk)),
          fun h0 => ⟨w1 _ (writeV_slow hwa (le_refl _) _ (Or.inr (hL3 h0).1)),
            w2 _ (writeV_flagged hwa _ (hL3 h0).2)⟩,
          fun _ => w1 _ (writeV_slow hwa (le_refl _) _ (Or.inl rfl))⟩
    · rename_i hgt
      cases h
      exact ⟨hL1, hL2, hL3, fun hlt => absurd (hsz ▸ hlt) (by omega)⟩

theorem lowSpeedStops_slow (m : Libm) (vm : VehicleModel) :
    ∀ (stops : List Nat) (c c' : StanleyController), lowSpeedStops m vm stops c = some c' →
      (∀ k, SlowAt c k → SlowAt c' k) ∧ (∀ k, FlaggedAt c k → FlaggedAt c' k) ∧
      ∀ s ∈ stops,
        (0 < s → SlowAt c' (s - 1) ∧ FlaggedAt c' (s - 1)) ∧
        (s + 1 < c.raw_path_size → SlowAt c' (s + 1)) := by
  intro stops
  induction stops with
  | nil =>
    intro c c' h
    simp only [lowSpeedStops] at h
    cases h
    exact ⟨fun _ hk => hk, fun _ hk => hk, fun s hs => absurd hs (List.not_mem_nil s)⟩
  | cons s rest ih =>
    intro c c' h
    simp only [lowSpeedStops] at h
    split at h
    · cases h
    · rename_i c1 h1
      obtain ⟨a1, a2, a3, a4⟩ := lowSpeedStop_slow m vm s c c1 h1
      obtain ⟨b1, b2, b3⟩ := ih c1 c' h
      have hsz : c1.raw_path_size = c.raw_path_size := (lowSpeedStop_frame m vm s c c1 h1).size
      refine ⟨fun k hk => b1 k (a1 k hk), fun k hk => b2 k (a2 k hk), ?_⟩
      intro x hx
      rcases List.mem_cons.mp hx with rfl | hx
      · exact ⟨fun h0 => ⟨b1 _ (a3 h0).1, b2 _ (a3 h0).2⟩, fun hlt => b1 _ (a4 hlt)⟩
      · exact ⟨(b3 x hx).1, fun hlt => (b3 x hx).2 (hsz ▸ hlt)⟩

/-- C16: for an input of `N ≥ 3` states and every vehicle model, the
consolidation returns and afterwards, for every index `s` of `stopping`: if
`s ≥ 1` then at index `s - 1` the three paths carry the same speed, it is at
most `0.2`, and `coming_to_stop` is set in the three paths; if
`s + 1 < |raw_path|` then at index `s + 1` the three paths carry the same
speed and it is at most `0.2`. -/
theorem consolidate_low_speed_neighbours (m : Libm) (vm : VehicleModel)
    (c : StanleyController) (input : List State2D) (h : 3 ≤ input.length) :
    ∃ (out : List State2D) (c' : StanleyController),
      ConsolidateStateList m vm c input = some (true, out, c') ∧
      ∀ s ∈ c'.stopping,
        (1 ≤ s → SlowAt c' (s - 1) ∧ FlaggedAt c' (s - 1)) ∧
        (s + 1 < c'.raw_path.length → SlowAt c' (s + 1)) := by
  obtain ⟨first, tail, rfl, ht⟩ := input_split input h
  obtain ⟨out, c1, c2, hpush, hupd, hf, hrun⟩ := ConsolidateStateList_run m vm c first tail ht
  obtain ⟨ha, -⟩ := consolidatePush_stops_lt vm c first tail ht hpush
  obtain ⟨-, -, hs⟩ := lowSpeedStops_slow m vm c1.stopping c1 c2 hupd
  have hst : c2.stopping = c1.stopping := by
    simpa using congrArg StanleyController.stopping hf.others
  have hlen : c2.raw_path.length = c1.raw_path_size := by
    rw [(hf.aligned ha).1, ha.2.2.2]
  refine ⟨out, _, hrun, ?_⟩
  intro s hs'
  have hs1 : s ∈ c1.stopping := hst ▸ hs'
  exact ⟨fun h1 => (hs s hs1).1 h1, fun hlt => (hs s hs1).2 (hlen ▸ hlt)⟩

theorem consolidate_low_speed_neighbours_witness :
    3 ≤ cuspPath6.length ∧
    ∃ (out : List State2D) (c' : StanleyController),
      ConsolidateStateList exactMath unitVehicle newController cuspPath6
        = some (true, out, c') ∧
      ∀ s ∈ c'.stopping,
        (1 ≤ s → SlowAt c' (s - 1) ∧ FlaggedAt c' (s - 1)) ∧
        (s + 1 < c'.raw_path.length → SlowAt c' (s + 1)) :=
  ⟨by decide,
    consolidate_low_speed_neighbours exactMath unitVehicle newController cuspPath6 (by decide)⟩

/-! ## The leftward walk of the low-speed update -/

/-- C17, the code at the failing input: on five forward states with speeds
`0.01, 5, 5, 5, 0` and the deceleration constraint `v / 2 + d`, the paths
handed to the low-speed update have the speeds `0.01, 5, 5, 0` and the one
stop index `3`.  The left part of the loop body leaves `0.05, 0.1, 0.2, 0` in
the three paths (and so does the whole consolidation): `prev_state` and
`next_state` both name `car`, so the bound at `j` is computed from
`raw[j+1]` alone, with distance `0`, and is compared with `raw[j+1].v`; the
speed at index 0 is raised from `0.01` to `0.05`.  The walk as the
specification words it leaves `0.01, 1.1, 0.2, 0`. -/
theorem walkLeft_aliased :
    (consolidatePush brakingVehicle newController crawlPath5).map
        (fun r => (r.2.stopping, speedsOf r.2))
      = some ([3], [1 / 100, 5, 5, 0], [1 / 100, 5, 5, 0], [1 / 100, 5, 5, 0]) ∧
    ((consolidatePush brakingVehicle newController crawlPath5).bind
        (fun r => lowSpeedLeft exactMath brakingVehicle 3 r.2)).map speedsOf
      = some ([1 / 20, 1 / 10, 1 / 5, 0], [1 / 20, 1 / 10, 1 / 5, 0],
          [1 / 20, 1 / 10, 1 / 5, 0]) ∧
    ((consolidatePush brakingVehicle newController crawlPath5).bind
        (fun r => lowSpeedLeftAsSpecified exactMath brakingVehicle 3 r.2)).map speedsOf
      = some ([1 / 100, 11 / 10, 1 / 5, 0], [1 / 100, 11 / 10, 1 / 5, 0],
          [1 / 100, 11 / 10, 1 / 5, 0]) ∧
    (ConsolidateStateList exactMath brakingVehicle newController crawlPath5).map
        (fun r => speedsOf r.2.2)
      = some ([1 / 20, 1 / 10, 1 / 5, 0], [1 / 20, 1 / 10, 1 / 5, 0],
          [1 / 20, 1 / 10, 1 / 5, 0]) := by
  refine ⟨?_, ?_, ?_, ?_⟩
  · simp [consolidatePush, consolidateLoop, consolidateFirst, consolidateLast, pushState,
      crawlPath5, stateAt, newController, rewriteCurrent, brakingVehicle, unitVehicle,
      speedsOf]
    norm_num
  · simp [consolidatePush, consolidateLoop, consolidateFirst, consolidateLast, pushState,
      crawlPath5, stateAt, newController, rewriteCurrent, brakingVehicle, unitVehicle,
      exactMath, Vector2D.Distance, Vector2D.Distance2, lowSpeedLeft, walkLeft, writeV,
      writeComingToStop, speedsOf]
    norm_num
  · simp [consolidatePush, consolidateLoop, consolidateFirst, consolidateLast, pushState,
      crawlPath5, stateAt, newController, rewriteCurrent, brakingVehicle, unitVehicle,
      exactMath, Vector2D.Distance, Vector2D.Distance2, lowSpeedLeftAsSpecified,
      walkLeftAsSpecified, writeV, writeComingToStop, speedsOf]
    norm_num
  · simp [ConsolidateStateList, consolidatePush, consolidateLoop, consolidateFirst,
      consolidateLast, pushState, crawlPath5, stateAt, newController, rewriteCurrent,
      UpdateLowSpeedRegions]
    norm_num
    simp [brakingVehicle, unitVehicle, exactMath, Vector2D.Distance, Vector2D.Distance2,
      lowSpeedStops, lowSpeedStop, lowSpeedLeft, lowSpeedRight, walkLeft, walkRight, writeV,
      writeComingToStop, speedsOf]
    norm_num
    refine ⟨_, _, ⟨rfl, rfl⟩, ?_, ?_, ?_⟩ <;> norm_num

/-! ## The side of the path -/

theorem driveCommand_sides (c : StanleyController) (s : State2D) (next_index : Nat)
    (coming_to_stop : Bool) (how_far steer dv : ℚ) :
    (driveCommand c s next_index coming_to_stop how_far steer dv).2.left = c.left ∧
    (driveCommand c s next_index coming_to_stop how_far steer dv).2.right = c.right ∧
    (driveCommand c s next_index coming_to_stop how_far steer dv).2.front_axle = c.front_axle ∧
    (driveCommand c s next_index coming_to_stop how_far steer dv).2.closest_point
      = c.closest_point := by
  unfold driveCommand
  split
  · dsimp only
    split <;> exact ⟨rfl, rfl, rfl, rfl⟩
  · exact ⟨rfl, rfl, rfl, rfl⟩

theorem driveStep_sides (m : Libm) (vm : VehicleModel) (c : StanleyController) (s : State2D)
    (next_index : Nat) (reverse_mode : Bool) (prev next : State2D) (heading : Vector2D)
    (next_heading : ℚ) :
    (driveStep m vm c s next_index reverse_mode prev next heading next_heading).2.front_axle
      = (if reverse_mode then vm.GetFakeFrontAxleState s else vm.GetFrontAxleState s) ∧
    (driveStep m vm c s next_index reverse_mode prev next heading next_heading).2.closest_point
      = FindClosestPoint
          (if reverse_mode then vm.GetFakeFrontAxleState s else vm.GetFrontAxleState s)
          prev next ∧
    (driveStep m vm c s next_index reverse_mode prev next heading next_heading).2.left
      = (sidePoints m prev.position next.position
          (FindClosestPoint
            (if reverse_mode then vm.GetFakeFrontAxleState s else vm.GetFrontAxleState s)
            prev next).position).1 ∧
    (driveStep m vm c s next_index reverse_mode prev next heading next_heading).2.right
      = (sidePoints m prev.position next.position
          (FindClosestPoint
            (if reverse_mode then vm.GetFakeFrontAxleState s else vm.GetFrontAxleState s)
            prev next).position).2 := by
  unfold driveStep
  dsimp only
  refine ⟨?_, ?_, ?_, ?_⟩
  · rw [(driveCommand_sides _ _ _ _ _ _ _).2.2.1]
  · rw [(driveCommand_sides _ _ _ _ _ _ _).2.2.2]
  · rw [(driveCommand_sides _ _ _ _ _ _ _).1]
  · rw [(driveCommand_sides _ _ _ _ _ _ _).2.1]

/-- On a segment of the x axis the two reference points are at the same
distance from the front axle, whatever its position: the comparison of line
538 fails and `direction` keeps the value `1`. -/
theorem sideDirection_axis (m : Libm) (h : ExactQuarterTurn m) (front prev next : State2D)
    (px nx : ℚ) :
    sideDirection
      (sidePoints m (⟨px, 0⟩ : Vector2D) ⟨nx, 0⟩
        (FindClosestPoint front { prev with position := ⟨px, 0⟩ }
          { next with position := ⟨nx, 0⟩ }).position).1
      (sidePoints m (⟨px, 0⟩ : Vector2D) ⟨nx, 0⟩
        (FindClosestPoint front { prev with position := ⟨px, 0⟩ }
          { next with position := ⟨nx, 0⟩ }).position).2
      front.position = 1 := by
  obtain ⟨h1, h2, h3, h4⟩ := h
  unfold sideDirection
  rw [if_neg]
  apply not_lt_of_ge
  apply le_of_eq
  have hc : nx = px ∨
      (FindClosestPoint front { prev with position := ⟨px, 0⟩ }
        { next with position := ⟨nx, 0⟩ }).position.x = front.position.x := by
    by_cases hx : nx = px
    · exact Or.inl hx
    · right
      simp [FindClosestPoint, hx]
  rcases hc with rfl | hc
  · simp only [sidePoints, Vector2D.Normalize, Vector2D.RotateZ, Vector2D.Scale, Vector2D.Add,
      Vector2D.Distance2, h1, h2, h3, h4]
    ring
  · simp only [sidePoints, Vector2D.Normalize, Vector2D.RotateZ, Vector2D.Scale, Vector2D.Add,
      Vector2D.Distance2, h1, h2, h3, h4, hc]
    ring

theorem turnMath_exact : ExactQuarterTurn turnMath := by
  simp only [ExactQuarterTurn, turnMath, exactMath]
  norm_num

theorem driveStep_direction (m : Libm) (h : ExactQuarterTurn m) (vm : VehicleModel)
    (c : StanleyController) (s prev next : State2D) (px nx : ℚ) (next_index : Nat)
    (reverse_mode : Bool) (heading : Vector2D) (next_heading : ℚ) :
    directionOf (driveStep m vm c s next_index reverse_mode
        { prev with position := ⟨px, 0⟩ } { next with position := ⟨nx, 0⟩ }
        heading next_heading).2 = 1 := by
  obtain ⟨hf, -, hl, hr⟩ := driveStep_sides m vm c s next_index reverse_mode
    { prev with position := ⟨px, 0⟩ } { next with position := ⟨nx, 0⟩ } heading next_heading
  unfold directionOf
  rw [hf, hl, hr]
  exact sideDirection_axis m h _ prev next px nx

theorem drivingController_beside (y : ℚ) :
    (ForwardDrive turnMath unitVehicle drivingController (carBeside y)).map
        (fun r => (r.2.front_axle.position, r.2.closest_point.position, r.2.left, r.2.right,
          directionOf r.2))
      = some (⟨1, y⟩, ⟨1, 0⟩, ⟨-1, 0⟩, ⟨3, 0⟩, 1) := by
  have hloc : Localize turnMath drivingController (carBeside y) = some (0, 1) := by
    simp [Localize, localizeScan, toUnsigned, drivingController, stoppedController,
      newController]
  rw [ForwardDrive_eq turnMath unitVehicle drivingController (carBeside y)
    (stateAt 0 Gear.ForwardGear 0.2) (stateAt 1 Gear.ForwardGear 0.2)
    (stateAt 3 Gear.ForwardGear 0) 0 1
    (Vector2D.sub (stateAt 3 Gear.ForwardGear 0).position
      (stateAt 1 Gear.ForwardGear 0.2).position)
    ((stateAt 3 Gear.ForwardGear 0).orientation + 0)
    hloc rfl rfl rfl rfl (by simp [stateAt])]
  simp only [Option.map_some', directionOf]
  rw [(driveStep_sides _ _ _ _ _ _ _ _ _ _).1, (driveStep_sides _ _ _ _ _ _ _ _ _ _).2.1,
    (driveStep_sides _ _ _ _ _ _ _ _ _ _).2.2.1, (driveStep_sides _ _ _ _ _ _ _ _ _ _).2.2.2]
  simp [sidePoints, sideDirection, FindClosestPoint, unitVehicle, carBeside, stateAt, turnMath,
    exactMath, Vector2D.Normalize, Vector2D.RotateZ, Vector2D.Scale, Vector2D.Add,
    Vector2D.Distance2]
  norm_num

/-- C21, the code at the failing input: with the quarter turns of `RotateZ`
exact, on every segment of the x axis and for every vehicle state the
comparison of lines 536-542 leaves `direction = 1`, not `-1`: `norm`
(line 522) is `(0, ±1)` there, its two rotations point along the segment,
and `left` and `right` are at the same distance from the front axle.  On the
forward path from `(1, 0)` to `(3, 0)` the vehicle at `(0, 0.5)` with heading
`0` has its front axle at `(1, 0.5)`, `closest_point = (1, 0)`,
`left = (-1, 0)`, `right = (3, 0)` and `direction = 1`, and so has the
vehicle at `(0, -0.5)` on the other side of the path. -/
theorem forwardDrive_side_direction (vm : VehicleModel) (c : StanleyController)
    (s prev next : State2D) (px nx : ℚ) (next_index : Nat) (reverse_mode : Bool)
    (heading : Vector2D) (next_heading : ℚ) :
    ExactQuarterTurn turnMath ∧
    directionOf (driveStep turnMath vm c s next_index reverse_mode
        { prev with position := ⟨px, 0⟩ } { next with position := ⟨nx, 0⟩ }
        heading next_heading).2 = 1 ∧
    (ForwardDrive turnMath unitVehicle drivingController (carBeside (1 / 2))).map
        (fun r => (r.2.front_axle.position, r.2.closest_point.position, r.2.left, r.2.right,
          directionOf r.2))
      = some (⟨1, 1 / 2⟩, ⟨1, 0⟩, ⟨-1, 0⟩, ⟨3, 0⟩, 1) ∧
    (ForwardDrive turnMath unitVehicle drivingController (carBeside (-(1 / 2)))).map
        (fun r => (r.2.front_axle.position, r.2.closest_point.position, r.2.left, r.2.right,
          directionOf r.2))
      = some (⟨1, -(1 / 2)⟩, ⟨1, 0⟩, ⟨-1, 0⟩, ⟨3, 0⟩, 1) :=
  ⟨turnMath_exact,
    driveStep_direction turnMath turnMath_exact vm c s prev next px nx next_index reverse_mode
      heading next_heading,
    drivingController_beside (1 / 2), drivingController_beside (-(1 / 2))⟩

/-! ## The lookahead read of `ForwardDrive` -/

theorem ForwardDrive_lookahead (m : Libm) (vm : VehicleModel) (c : StanleyController)
    (s at_prev prev next : State2D) (prev_index next_index : Nat)
    (hloc : Localize m c s = some (prev_index, next_index))
    (hraw : c.raw_path[prev_index]? = some at_prev)
    (hnext : (if decide (Gear.BackwardGear = at_prev.gear) = true then c.reverse_path
      else c.forward_path)[next_index]? = some next)
    (hprev : (if decide (Gear.BackwardGear = at_prev.gear) = true then c.reverse_path
      else c.forward_path)[prev_index]? = some prev)
    (hv : (0 : ℚ) ≠ next.v)
    (hout : (if decide (Gear.BackwardGear = at_prev.gear) = true then c.reverse_path
      else c.forward_path)[next_index + 1]? = none) :
    ForwardDrive m vm c s = none := by
  simp only [ForwardDrive, hloc, hraw, hnext, hprev, if_neg hv, hout, Option.map_none']
  split
  · rename_i h1 h2
    cases h2
  · rfl

/-- C22, the code at the failing input: the consolidation of three forward
states at speed `1` leaves two states per path with the speeds `0.2, 1`,
`raw_path_last_index = 1` and `cs = CSForwardDrive`.  For every vehicle state
`Localize` returns `(0, 1)`; `the_path[1].v` is not `0`, so the tick reads
`the_path[2]` (line 513), which is outside the path: `ForwardDrive` has no
result, and neither has `RebuildCommandList`, whose first tick it is.  The
consolidation of three forward states that start and end at rest leaves the
speeds `0.2, 0.2` (the terminal stop is the right neighbour of the stop at
index 0), and a tick of `ForwardDrive` on it reads `the_path[2]` as well. -/
theorem forwardDrive_lookahead_outside (s : State2D) (u : Uninitialised) :
    (ConsolidateStateList exactMath unitVehicle newController cruisePath3).map
        (fun r => (r.2.2.cs, r.2.2.raw_path_last_index, speedsOf r.2.2))
      = some (ControllerState.CSForwardDrive, 1, [1 / 5, 1], [1 / 5, 1], [1 / 5, 1]) ∧
    (ConsolidateStateList exactMath unitVehicle newController cruisePath3).bind
        (fun r => Localize exactMath r.2.2 s) = some (0, 1) ∧
    (ConsolidateStateList exactMath unitVehicle newController cruisePath3).bind
        (fun r => ForwardDrive exactMath unitVehicle r.2.2 s) = none ∧
    RebuildCommandList exactMath unitVehicle u newController s cruisePath3 = none ∧
    (ConsolidateStateList exactMath unitVehicle newController restPath3).map
        (fun r => (r.2.2.cs, r.2.2.raw_path_last_index, speedsOf r.2.2))
      = some (ControllerState.CSStopped, 1, [1 / 5, 1 / 5], [1 / 5, 1 / 5], [1 / 5, 1 / 5]) ∧
    (ConsolidateStateList exactMath unitVehicle newController restPath3).bind
        (fun r => Localize exactMath r.2.2 s) = some (0, 1) ∧
    (ConsolidateStateList exactMath unitVehicle newController restPath3).bind
        (fun r => ForwardDrive exactMath unitVehicle r.2.2 s) = none := by
  refine ⟨?_, ?_, ?_, ?_, ?_, ?_, ?_⟩
  · simp [ConsolidateStateList, consolidatePush, consolidateLoop, consolidateFirst,
      consolidateLast, pushState, cruisePath3, stateAt, UpdateLowSpeedRegions, lowSpeedStops,
      lowSpeedStop, lowSpeedLeft, lowSpeedRight, walkLeft, walkRight, writeV,
      writeComingToStop, newController, speedsOf, unitVehicle]
    norm_num
  · simp [ConsolidateStateList, consolidatePush, consolidateLoop, consolidateFirst,
      consolidateLast, pushState, cruisePath3, stateAt, UpdateLowSpeedRegions, lowSpeedStops,
      lowSpeedStop, lowSpeedLeft, lowSpeedRight, walkLeft, walkRight, writeV,
      writeComingToStop, newController]
    simp [Localize, localizeScan, toUnsigned]
  · simp [ConsolidateStateList, consolidatePush, consolidateLoop, consolidateFirst,
      consolidateLast, pushState, cruisePath3, stateAt, UpdateLowSpeedRegions, lowSpeedStops,
      lowSpeedStop, lowSpeedLeft, lowSpeedRight, walkLeft, walkRight, writeV,
      writeComingToStop, newController]
    simp [ForwardDrive, Localize, localizeScan, toUnsigned, unitVehicle]
  · simp [RebuildCommandList, ConsolidateStateList, consolidatePush, consolidateLoop,
      consolidateFirst, consolidateLast, pushState, cruisePath3, stateAt,
      UpdateLowSpeedRegions, lowSpeedStops, lowSpeedStop, lowSpeedLeft, lowSpeedRight,
      walkLeft, walkRight, writeV, writeComingToStop, newController]
    simp [GetCommandList, getCommandLoop, ForwardDrive, Localize, localizeScan, toUnsigned,
      unitVehicle]
  · simp [ConsolidateStateList, consolidatePush, consolidateLoop, consolidateFirst,
      consolidateLast, pushState, restPath3, stateAt, UpdateLowSpeedRegions, lowSpeedStops,
      lowSpeedStop, lowSpeedLeft, lowSpeedRight, walkLeft, walkRight, writeV,
      writeComingToStop, newController, speedsOf, unitVehicle]
    norm_num
  · simp [ConsolidateStateList, consolidatePush, consolidateLoop, consolidateFirst,
      consolidateLast, pushState, restPath3, stateAt, UpdateLowSpeedRegions, lowSpeedStops,
      lowSpeedStop, lowSpeedLeft, lowSpeedRight, walkLeft, walkRight, writeV,
      writeComingToStop, newController]
    simp [Localize, localizeScan, toUnsigned]
  · simp [ConsolidateStateList, consolidatePush, consolidateLoop, consolidateFirst,
      consolidateLast, pushState, restPath3, stateAt, UpdateLowSpeedRegions, lowSpeedStops,
      lowSpeedStop, lowSpeedLeft, lowSpeedRight, walkLeft, walkRight, writeV,
      writeComingToStop, newController]
    simp [ForwardDrive, Localize, localizeScan, toUnsigned, unitVehicle]
    norm_num

/-! ## One call of `GetCommandList` -/

theorem getCommandList_value (m : Libm) (vm : VehicleModel) (u : Uninitialised)
    (c : StanleyController) (start : State2D) :
    GetCommandList m vm u c start =
      if c.cs = ControllerState.CSComplete then some ([], { c with car := start })
      else (handlerTick m vm u { c with car := start }).map
        (fun r => ([r.1], { r.2 with car := vm.NextState r.1 })) := by
  unfold GetCommandList
  exact getCommandLoop_value m vm u { c with car := start } 0

theorem handlerTick_stopped (m : Libm) (vm : VehicleModel) (u : Uninitialised)
    (c : StanleyController) (h : c.cs = ControllerState.CSStopped) :
    handlerTick m vm u c = Stopped m vm u c c.car := by
  unfold handlerTick
  rw [h]

theorem handlerTick_standby (m : Libm) (vm : VehicleModel) (u : Uninitialised)
    (c : StanleyController) (h : c.cs = ControllerState.CSStandby) :
    handlerTick m vm u c
      = Stopped m vm u { c with cs := ControllerState.CSStopped } c.car := by
  unfold handlerTick
  rw [h]

theorem handlerTick_drive (m : Libm) (vm : VehicleModel) (u : Uninitialised)
    (c : StanleyController)
    (h : c.cs = ControllerState.CSForwardDrive ∨ c.cs = ControllerState.CSReverseDrive) :
    handlerTick m vm u c = ForwardDrive m vm c c.car := by
  unfold handlerTick
  rcases h with h | h <;> rw [h]

theorem getCommandList_stopped (m : Libm) (vm : VehicleModel) (u : Uninitialised)
    (c : StanleyController) (start at_prev prev next : State2D)
    (hcs : c.cs = ControllerState.CSStopped ∨ c.cs = ControllerState.CSStandby)
    (hraw : c.raw_path[c.prev_waypoint]? = some at_prev)
    (hnext : (if decide (Gear.BackwardGear = at_prev.gear) = true then c.reverse_path
      else c.forward_path)[c.next_waypoint]? = some next)
    (hprev : (if decide (Gear.BackwardGear = at_prev.gear) = true then c.reverse_path
      else c.forward_path)[c.prev_waypoint]? = some prev) :
    ∃ (cmd : State2D) (c' : StanleyController),
      GetCommandList m vm u c start = some ([cmd], c') := by
  rw [getCommandList_value]
  rcases hcs with hcs | hcs
  · rw [if_neg (by rw [hcs]; simp),
      handlerTick_stopped m vm u { c with car := start } hcs,
      Stopped_eq m vm u { c with car := start } start at_prev prev next hraw hnext hprev]
    exact ⟨_, _, rfl⟩
  · rw [if_neg (by rw [hcs]; simp),
      handlerTick_standby m vm u { c with car := start } hcs,
      Stopped_eq m vm u { c with car := start, cs := ControllerState.CSStopped } start
        at_prev prev next hraw hnext hprev]
    exact ⟨_, _, rfl⟩

theorem getCommandList_drive (m : Libm) (vm : VehicleModel) (u : Uninitialised)
    (c : StanleyController) (start at_prev prev next : State2D) (prev_index next_index : Nat)
    (heading : Vector2D) (next_heading : ℚ)
    (hcs : c.cs = ControllerState.CSForwardDrive ∨ c.cs = ControllerState.CSReverseDrive)
    (hloc : Localize m { c with car := start } start = some (prev_index, next_index))
    (hraw : c.raw_path[prev_index]? = some at_prev)
    (hnext : (if decide (Gear.BackwardGear = at_prev.gear) = true then c.reverse_path
      else c.forward_path)[next_index]? = some next)
    (hprev : (if decide (Gear.BackwardGear = at_prev.gear) = true then c.reverse_path
      else c.forward_path)[prev_index]? = some prev)
    (hhead : (if 0 < prev_index then
        ((if decide (Gear.BackwardGear = at_prev.gear) = true then c.reverse_path
          else c.forward_path)[prev_index - 1]?).map
          (fun p => Vector2D.sub next.position p.position)
      else some (Vector2D.sub next.position prev.position)) = some heading)
    (hnh : (if (0 : ℚ) = next.v then
        some (next.orientation
          + (if decide (Gear.BackwardGear = at_prev.gear) = true then m.M_PI else 0))
      else
        ((if decide (Gear.BackwardGear = at_prev.gear) = true then c.reverse_path
          else c.forward_path)[next_index + 1]?).map (fun p =>
            m.atan2 (Vector2D.sub p.position prev.position).y
              (Vector2D.sub p.position prev.position).x)) = some next_heading) :
    ∃ (cmd : State2D) (c' : StanleyController),
      GetCommandList m vm u c start = some ([cmd], c') := by
  have hne : ¬ c.cs = ControllerState.CSComplete := by
    rcases hcs with hcs | hcs <;> rw [hcs] <;> simp
  rw [getCommandList_value, if_neg hne,
    handlerTick_drive m vm u { c with car := start } hcs,
    ForwardDrive_eq m vm { c with car := start } start at_prev prev next prev_index
      next_index heading next_heading hloc hraw hnext hprev hhead hnh]
  exact ⟨_, _, rfl⟩

/-- C8, the code at the failing input: `GetCommandList` on a controller in
`CSComplete` returns the empty list and changes nothing but `car = start`; in
every other control state its result is the one command of one handler (from
`CSStandby`, the one of `Stopped`), and on the two-state path a call in
`CSStopped`, in `CSStandby` and in `CSForwardDrive` returns one command for
every start state.  But the path consolidated from three forward states at
speed `1` is installed with `cs = CSForwardDrive`, and on it `GetCommandList`
returns no command for any start state: its handler reads `the_path[2]`,
outside the path. -/
theorem getCommandList_no_command (m : Libm) (vm : VehicleModel) (u : Uninitialised)
    (c : StanleyController) (start : State2D) :
    GetCommandList m vm u { c with cs := ControllerState.CSComplete } start
      = some ([], { c with cs := ControllerState.CSComplete, car := start }) ∧
    GetCommandList m vm u c start
      = (if c.cs = ControllerState.CSComplete then some ([], { c with car := start })
         else (handlerTick m vm u { c with car := start }).map
           (fun r => ([r.1], { r.2 with car := vm.NextState r.1 }))) ∧
    (∃ (cmd : State2D) (c' : StanleyController),
      GetCommandList exactMath unitVehicle u (stoppedController Gear.ForwardGear 0 1) start
        = some ([cmd], c')) ∧
    (∃ (cmd : State2D) (c' : StanleyController),
      GetCommandList exactMath unitVehicle u
          { stoppedController Gear.ForwardGear 0 1 with cs := ControllerState.CSStandby } start
        = some ([cmd], c')) ∧
    (∃ (cmd : State2D) (c' : StanleyController),
      GetCommandList exactMath unitVehicle u drivingController start = some ([cmd], c')) ∧
    (ConsolidateStateList exactMath unitVehicle newController cruisePath3).map
        (fun r => (r.2.2.cs, r.2.2.raw_path_last_index, r.2.2.forward_path.map State2D.v))
      = some (ControllerState.CSForwardDrive, 1, [1 / 5, 1]) ∧
    (ConsolidateStateList exactMath unitVehicle newController cruisePath3).bind
        (fun r => GetCommandList exactMath unitVehicle u r.2.2 start) = none := by
  refine ⟨?_, getCommandList_value m vm u c start, ?_, ?_, ?_, ?_, ?_⟩
  · rw [getCommandList_value]
    simp
  · exact getCommandList_stopped exactMath unitVehicle u (stoppedController Gear.ForwardGear 0 1)
      start (stateAt 0 Gear.ForwardGear 0.2) (stateAt 1 Gear.ForwardGear 0.2)
      (stateAt 3 Gear.ForwardGear 0) (Or.inl rfl) rfl rfl rfl
  · exact getCommandList_stopped exactMath unitVehicle u
      { stoppedController Gear.ForwardGear 0 1 with cs := ControllerState.CSStandby }
      start (stateAt 0 Gear.ForwardGear 0.2) (stateAt 1 Gear.ForwardGear 0.2)
      (stateAt 3 Gear.ForwardGear 0) (Or.inr rfl) rfl rfl rfl
  · have hloc : Localize exactMath { drivingController with car := start } start
        = some (0, 1) := by
      simp [Localize, localizeScan, toUnsigned, drivingController, stoppedController,
        newController]
    exact getCommandList_drive exactMath unitVehicle u drivingController start
      (stateAt 0 Gear.ForwardGear 0.2) (stateAt 1 Gear.ForwardGear 0.2)
      (stateAt 3 Gear.ForwardGear 0) 0 1
      (Vector2D.sub (stateAt 3 Gear.ForwardGear 0).position
        (stateAt 1 Gear.ForwardGear 0.2).position)
      ((stateAt 3 Gear.ForwardGear 0).orientation + 0)
      (Or.inl rfl) hloc rfl rfl rfl rfl (by simp [stateAt])
  · simp [ConsolidateStateList, consolidatePush, consolidateLoop, consolidateFirst,
      consolidateLast, pushState, cruisePath3, stateAt, UpdateLowSpeedRegions, lowSpeedStops,
      lowSpeedStop, lowSpeedLeft, lowSpeedRight, walkLeft, walkRight, writeV,
      writeComingToStop, newController, unitVehicle]
    norm_num
  · simp [ConsolidateStateList, consolidatePush, consolidateLoop, consolidateFirst,
      consolidateLast, pushState, cruisePath3, stateAt, UpdateLowSpeedRegions, lowSpeedStops,
      lowSpeedStop, lowSpeedLeft, lowSpeedRight, walkLeft, walkRight, writeV,
      writeComingToStop, newController]
    simp [GetCommandList, getCommandLoop, ForwardDrive, Localize, localizeScan, toUnsigned,
      unitVehicle]

end astar
